import Mathlib

/-!
# DaedalusDB: paged storage core

A shallow embedding of `src/mem/mem.hpp`, `src/mem/allocator.hpp` and
`src/db_struct/database.hpp`.  The backing file is a list of bytes; machine
words (`size_t`, `Offset`, `PageIndex`, `int64_t`) are natural numbers that
are reduced modulo `2 ^ 64` wherever the C++ arithmetic can wrap, and every
record is stored as consecutive little-endian 64-bit words in declaration
order.  An operation that may throw returns its outcome together with the
state (file, allocator, handle) as it stands when the operation ends, so the
effect of a failing call is visible too.  The page size is a compile-time
constant of `page.hpp`; it is a parameter `kPageSize` of every definition
that depends on it.  The logger has no effect on the state and is left out.
-/

namespace DaedalusDB

/-! ## Machine words -/

/-- One byte of the backing file. -/
abbrev Byte := Fin 256

/-- A byte string: file contents, the image of a record, a `std::string`. -/
abbrev Bytes := List Byte

/-- Number of values of a 64-bit word (`SIZE_MAX + 1`). -/
def wordMod : Nat := 18446744073709551616

/-- Unsigned 64-bit addition. -/
def addU64 (a b : Nat) : Nat := (a + b) % wordMod

/-- Unsigned 64-bit subtraction (wraps below zero). -/
def subU64 (a b : Nat) : Nat := (a % wordMod + (wordMod - b % wordMod)) % wordMod

/-- Unsigned 64-bit multiplication. -/
def mulU64 (a b : Nat) : Nat := (a * b) % wordMod

/-- The byte of `n` at position `i`, least significant first. -/
def byteAt (n i : Nat) : Byte := ⟨(n / 256 ^ i) % 256, Nat.mod_lt _ (by decide)⟩

/-- In-memory image of a 64-bit word: eight bytes, least significant first. -/
def encodeU64 (n : Nat) : Bytes :=
  [byteAt n 0, byteAt n 1, byteAt n 2, byteAt n 3, byteAt n 4, byteAt n 5, byteAt n 6, byteAt n 7]

/-- Value of a little-endian byte string. -/
def decodeU64 : Bytes → Nat
  | [] => 0
  | b :: bs => b.val + 256 * decodeU64 bs

/-- The 64-bit word number `k` of a record image. -/
def wordAt (bs : Bytes) (k : Nat) : Nat := decodeU64 ((bs.drop (8 * k)).take 8)

/-- The bytes of an ASCII literal. -/
def str (s : String) : Bytes := s.toList.map (fun c => Fin.ofNat c.toNat)

/-- Decimal rendering of a number (`std::to_string`, `operator<<`). -/
def decimal (n : Nat) : Bytes := str (toString n)

/-! ## Errors -/

/-- The error kinds of `error.hpp` that the modelled code throws, each with its message.
`Diverges` marks a loop of the C++ code that never ends. -/
inductive Error where
  | StructureError (msg : Bytes)
  | BadArgument (msg : Bytes)
  | RuntimeError (msg : Bytes)
  | NotImplemented (msg : Bytes)
  | Diverges
deriving DecidableEq

/-- True for an `error::StructureError`. -/
def Error.isStructureError : Error → Bool
  | .StructureError _ => true
  | _ => false

/-- True for an `error::BadArgument`. -/
def Error.isBadArgument : Error → Bool
  | .BadArgument _ => true
  | _ => false

/-! ## File

Modelled from the spec: `file.hpp` is not part of the sources at hand.  The
spec (§2, §6) describes `File` as a flat byte store with `size`, `extend`,
`clear`, typed `read`/`write` at an offset and a file name. -/

/-- The zero byte that fills an extended file. -/
def zeroByte : Byte := 0

/-- Raw write of `bs` at `off`.  Bytes already present in the range are replaced,
a write that ends past the end grows the store, and a gap between the old end
and `off` is filled with zero bytes. -/
def writeBytes (f : Bytes) (off : Nat) (bs : Bytes) : Bytes :=
  let g := f ++ List.replicate (off - f.length) zeroByte
  g.take off ++ bs ++ g.drop (off + bs.length)

/-- Raw read of `n` bytes at `off`; `none` when the store does not hold the whole
range (a short read). -/
def readBytes (f : Bytes) (off n : Nat) : Option Bytes :=
  if off + n ≤ f.length then some ((f.drop off).take n) else none

/-- Modelled from the spec: the `File` of `file.hpp`, a named flat byte store. -/
structure File where
  filename : String
  data : Bytes
deriving DecidableEq

/-- Modelled from the spec: `File::GetSize`. -/
def File.GetSize (f : File) : Nat := f.data.length

/-- Modelled from the spec: `File::GetFilename`. -/
def File.GetFilename (f : File) : Bytes := str f.filename

/-- Modelled from the spec: `File::Extend`, appending `delta` zero bytes. -/
def File.Extend (f : File) (delta : Nat) : File :=
  { f with data := f.data ++ List.replicate delta zeroByte }

/-- Modelled from the spec: `File::Clear`, truncating the file to empty. -/
def File.Clear (f : File) : File := { f with data := [] }

/-- Modelled from the spec: `File::Write<T>` for a value whose in-memory image is `bs`. -/
def File.Write (f : File) (bs : Bytes) (offset : Nat) : File :=
  { f with data := writeBytes f.data offset bs }

/-- Modelled from the spec: `File::Read<T>` for a type of `size` bytes.  A short read
throws; the kind is taken to be `BadArgument`, one of the two kinds the
`Default` open mode recovers from. -/
def File.Read (f : File) (size : Nat) (offset : Nat) : Except Error Bytes :=
  match readBytes f.data offset size with
  | some bs => .ok bs
  | none => .error (.BadArgument (str "Read out of file bounds"))

/-- The value `File::Write<size_t>` stores. -/
def File.WriteU64 (f : File) (v : Nat) (offset : Nat) : File := f.Write (encodeU64 v) offset

/-- The value `File::Read<size_t>` returns. -/
def File.ReadU64 (f : File) (offset : Nat) : Except Error Nat :=
  match f.Read 8 offset with
  | .ok bs => .ok (decodeU64 bs)
  | .error e => .error e

/-! ## Page

Modelled from the spec: `page.hpp` is not part of the sources at hand.  The
spec (§3, §4.1) gives the header fields, the fresh page and the page address;
`GetSentinelIndex` of `mem.hpp` places `index_` right after `type_`. -/

/-- Modelled from the spec: the `PageType` enumeration, in the order of §3. -/
inductive PageType where
  | kEmpty | kFree | kSentinel | kClassHeader | kNode
deriving DecidableEq

/-- The stored word of a page type. -/
def PageType.toWord : PageType → Nat
  | .kEmpty => 0
  | .kFree => 1
  | .kSentinel => 2
  | .kClassHeader => 3
  | .kNode => 4

/-- Modelled from the spec: the page header of `page.hpp`.  `type_` holds the stored word, so
that a header read from arbitrary bytes is representable. -/
structure Page where
  type_ : Nat
  index_ : Nat
  previous_page_index_ : Nat
  next_page_index_ : Nat
  first_free_ : Nat
  actual_size_ : Nat
deriving DecidableEq

/-- The `sizeof(Page)` of the model: six 64-bit words. -/
def sizeofPage : Nat := 48

/-- Modelled from the spec: the constructor `Page(index)`: a detached empty page. -/
def Page.new (index : Nat) : Page :=
  { type_ := PageType.kEmpty.toWord, index_ := index, previous_page_index_ := index,
    next_page_index_ := index, first_free_ := sizeofPage, actual_size_ := 0 }

/-- Modelled from the spec: `Page::GetPageAddress`, `pagetable_offset + index * kPageSize`
in 64-bit arithmetic. -/
def Page.GetPageAddress (kPageSize : Nat) (p : Page) (pagetable_offset : Nat) : Nat :=
  addU64 pagetable_offset (mulU64 p.index_ kPageSize)

/-- In-memory image of a page header. -/
def encodePage (p : Page) : Bytes :=
  encodeU64 p.type_ ++ encodeU64 p.index_ ++ encodeU64 p.previous_page_index_ ++
    encodeU64 p.next_page_index_ ++ encodeU64 p.first_free_ ++ encodeU64 p.actual_size_

/-- The page header held by 48 bytes. -/
def decodePage (bs : Bytes) : Page :=
  { type_ := wordAt bs 0, index_ := wordAt bs 1, previous_page_index_ := wordAt bs 2,
    next_page_index_ := wordAt bs 3, first_free_ := wordAt bs 4, actual_size_ := wordAt bs 5 }

/-- A header whose six fields are 64-bit values. -/
def Page.fits (p : Page) : Prop :=
  p.type_ < wordMod ∧ p.index_ < wordMod ∧ p.previous_page_index_ < wordMod ∧
    p.next_page_index_ < wordMod ∧ p.first_free_ < wordMod ∧ p.actual_size_ < wordMod

/-- The call `File::Write<Page>`. -/
def File.WritePage (f : File) (p : Page) (offset : Nat) : File := f.Write (encodePage p) offset

/-- The call `File::Read<Page>`. -/
def File.ReadPage (f : File) (offset : Nat) : Except Error Page :=
  match f.Read sizeofPage offset with
  | .ok bs => .ok (decodePage bs)
  | .error e => .error e

/-! ## Superblock (`mem.hpp`) -/

/-- The constant `kMagic = 0xDEADBEEF`. -/
def kMagic : Nat := 3735928559

/-- The `sizeof(kMagic)`, an `int64_t`. -/
def sizeofMagic : Nat := 8

/-- The `sizeof(size_t)` and `sizeof(Offset)`. -/
def sizeofWord : Nat := 8

/-- Offset of the free-list sentinel. -/
def kFreeListSentinelOffset : Nat := sizeofMagic

/-- Offset of the free-list count. -/
def kFreePagesCountOffset : Nat := kFreeListSentinelOffset + sizeofPage

/-- Offset of the pagetable origin. -/
def kPagetableOffset : Nat := kFreePagesCountOffset + sizeofWord

/-- Offset of the page count. -/
def kPagesCountOffset : Nat := kPagetableOffset + sizeofWord

/-- Offset of the class-list sentinel. -/
def kClassListSentinelOffset : Nat := kPagesCountOffset + sizeofWord

/-- Offset of the class-list count. -/
def kClassListCount : Nat := kClassListSentinelOffset + sizeofPage

/-- The constant `kDummyIndex = SIZE_MAX`. -/
def kDummyIndex : Nat := wordMod - 1

/-- The class `Superblock`, fields in declaration order. -/
structure Superblock where
  free_list_sentinel_ : Page
  free_pages_count_ : Nat
  pagetable_offset_ : Nat
  pages_count : Nat
  class_list_sentinel_ : Page
  class_list_count_ : Nat
deriving DecidableEq

/-- The `sizeof(Superblock)` of the model. -/
def sizeofSuperblock : Nat := sizeofPage + sizeofWord + sizeofWord + sizeofWord + sizeofPage + sizeofWord

/-- In-memory image of a superblock. -/
def encodeSuperblock (s : Superblock) : Bytes :=
  encodePage s.free_list_sentinel_ ++ encodeU64 s.free_pages_count_ ++
    encodeU64 s.pagetable_offset_ ++ encodeU64 s.pages_count ++
    encodePage s.class_list_sentinel_ ++ encodeU64 s.class_list_count_

/-- The superblock held by 128 bytes. -/
def decodeSuperblock (bs : Bytes) : Superblock :=
  { free_list_sentinel_ := decodePage bs,
    free_pages_count_ := wordAt bs 6,
    pagetable_offset_ := wordAt bs 7,
    pages_count := wordAt bs 8,
    class_list_sentinel_ := decodePage (bs.drop 72),
    class_list_count_ := wordAt bs 15 }

/-- The message of the error `CheckConsistency` throws. -/
def cantOpenMsg (f : File) : Bytes := str "Can't open database from this file: " ++ f.GetFilename

/-- The method `Superblock::CheckConsistency`: every failure, also one thrown by the read, leaves
as a `StructureError`. -/
def Superblock.CheckConsistency (file : File) : Except Error Unit :=
  match file.ReadU64 0 with
  | .ok magic => if magic ≠ kMagic then .error (.StructureError (cantOpenMsg file)) else .ok ()
  | .error _ => .error (.StructureError (cantOpenMsg file))

/-- The method `Superblock::ReadSuperblock`: on success the object holds what the file holds. -/
def Superblock.ReadSuperblock (_this : Superblock) (file : File) : Except Error Superblock :=
  match Superblock.CheckConsistency file with
  | .error e => .error e
  | .ok () =>
    match file.Read sizeofSuperblock sizeofMagic with
    | .ok bs => .ok (decodeSuperblock bs)
    | .error e => .error e

/-- The sentinel `InitSuperblock` builds: `Page(kDummyIndex)` retyped as a sentinel. -/
def sentinelPage : Page := { Page.new kDummyIndex with type_ := PageType.kSentinel.toWord }

/-- The method `Superblock::InitSuperblock`: returns the object and the file. -/
def Superblock.InitSuperblock (this : Superblock) (file : File) : Superblock × File :=
  let file1 := file.WriteU64 kMagic 0
  let s1 := { this with free_list_sentinel_ := Page.new kDummyIndex }
  let s2 := { s1 with free_list_sentinel_ :=
    { s1.free_list_sentinel_ with type_ := PageType.kSentinel.toWord } }
  let s3 := { s2 with free_pages_count_ := 0 }
  let s4 := { s3 with pagetable_offset_ := sizeofMagic + sizeofSuperblock }
  let s5 := { s4 with pages_count := 0 }
  let s6 := { s5 with class_list_sentinel_ := Page.new kDummyIndex }
  let s7 := { s6 with class_list_count_ := 0 }
  let s8 := { s7 with class_list_sentinel_ :=
    { s7.class_list_sentinel_ with type_ := PageType.kSentinel.toWord } }
  (s8, file1.Write (encodeSuperblock s8) sizeofMagic)

/-- The method `Superblock::WriteSuperblock`. -/
def Superblock.WriteSuperblock (this : Superblock) (file : File) : Except Error Unit × File :=
  match Superblock.CheckConsistency file with
  | .error e => (.error e, file)
  | .ok () => (.ok (), file.Write (encodeSuperblock this) sizeofMagic)

/-- The function `GetCountFromSentinel`. -/
def GetCountFromSentinel (sentinel : Nat) : Nat := sentinel + sizeofPage

/-- The function `GetSentinelIndex`; `sizeof(PageType)` is one word in the model. -/
def GetSentinelIndex (sentinel : Nat) : Nat := sentinel + sizeofWord

/-- The free function `GetOffset` of `mem.hpp`, in 64-bit arithmetic. -/
def GetOffset (kPageSize : Nat) (pagetable_offset index virt_offset : Nat) : Nat :=
  addU64 (addU64 pagetable_offset (mulU64 index kPageSize)) virt_offset

/-! ## ClassHeader (`mem.hpp`) -/

/-- The class `ClassHeader`: a page header followed by the node-list sentinel and two counters. -/
structure ClassHeader extends Page where
  node_list_sentinel_ : Page
  node_pages_count_ : Nat
  nodes_ : Nat
deriving DecidableEq

/-- The `sizeof(ClassHeader)` of the model. -/
def sizeofClassHeader : Nat := sizeofPage + sizeofPage + sizeofWord + sizeofWord

/-- In-memory image of a class header. -/
def encodeClassHeader (h : ClassHeader) : Bytes :=
  encodePage h.toPage ++ encodePage h.node_list_sentinel_ ++ encodeU64 h.node_pages_count_ ++
    encodeU64 h.nodes_

/-- The class header held by 112 bytes. -/
def decodeClassHeader (bs : Bytes) : ClassHeader :=
  { toPage := decodePage bs, node_list_sentinel_ := decodePage (bs.drop 48),
    node_pages_count_ := wordAt bs 12, nodes_ := wordAt bs 13 }

/-- The constructor `ClassHeader(index)`; the members the constructor does not set are
indeterminate in C++ and are zero here (they are overwritten before any use). -/
def ClassHeader.new (index : Nat) : ClassHeader :=
  { toPage := { Page.new index with type_ := PageType.kClassHeader.toWord },
    node_list_sentinel_ := Page.new 0, node_pages_count_ := 0, nodes_ := 0 }

/-- The method `ClassHeader::ReadClassHeader`: reads at the address of the object's own index. -/
def ClassHeader.ReadClassHeader (kPageSize : Nat) (this : ClassHeader) (pagetable_offset : Nat)
    (file : File) : Except Error ClassHeader :=
  match file.Read sizeofClassHeader (this.toPage.GetPageAddress kPageSize pagetable_offset) with
  | .ok bs => .ok (decodeClassHeader bs)
  | .error e => .error e

/-- The method `ClassHeader::InitClassHeader`; index and list links are left as they are. -/
def ClassHeader.InitClassHeader (kPageSize : Nat) (this : ClassHeader) (pagetable_offset : Nat)
    (file : File) (size : Nat) : ClassHeader × File :=
  let h1 : ClassHeader := { this with type_ := PageType.kClassHeader.toWord }
  let h2 : ClassHeader := { h1 with actual_size_ := size }
  let h3 : ClassHeader := { h2 with first_free_ := sizeofClassHeader }
  let h4 : ClassHeader := { h3 with node_list_sentinel_ := sentinelPage }
  let h5 : ClassHeader := { h4 with node_pages_count_ := 0 }
  let h6 : ClassHeader := { h5 with nodes_ := 0 }
  (h6, file.Write (encodeClassHeader h6) (h6.toPage.GetPageAddress kPageSize pagetable_offset))

/-- The method `ClassHeader::WriteClassHeader`. -/
def ClassHeader.WriteClassHeader (kPageSize : Nat) (this : ClassHeader) (pagetable_offset : Nat)
    (file : File) : File :=
  file.Write (encodeClassHeader this) (this.toPage.GetPageAddress kPageSize pagetable_offset)

/-! ## PageAllocator (`allocator.hpp`) -/

/-- The class `PageAllocator`; the file it shares with the database is passed to each method. -/
structure PageAllocator where
  pagetable_offset_ : Nat
  pages_count_ : Nat
deriving DecidableEq

/-- The constructor of `PageAllocator`: the count is read from the file. -/
def PageAllocator.new (file : File) (pagetable_offset : Nat) : Except Error PageAllocator :=
  match file.ReadU64 kPagesCountOffset with
  | .ok n => .ok { pagetable_offset_ := pagetable_offset, pages_count_ := n }
  | .error e => .error e

/-- The alignment test at the head of `AllocatePage`, the C++ expression
`(file_->GetSize() - pagetable_offset_) % kPageSize != 0` negated. -/
def PageAllocator.aligned (kPageSize : Nat) (a : PageAllocator) (file : File) : Bool :=
  subU64 file.GetSize a.pagetable_offset_ % kPageSize = 0

/-- The method `PageAllocator::AllocatePage`. -/
def PageAllocator.AllocatePage (kPageSize : Nat) (a : PageAllocator) (file : File) :
    Except Error Nat × PageAllocator × File :=
  if subU64 file.GetSize a.pagetable_offset_ % kPageSize ≠ 0 then
    (.error (.StructureError (str "Unaligned file")), a, file)
  else
    let new_page_offset := file.GetSize
    let file1 := file.Extend kPageSize
    let file2 := file1.WritePage (Page.new a.pages_count_) new_page_offset
    let a1 := { a with pages_count_ := addU64 a.pages_count_ 1 }
    let file3 := file2.WriteU64 a1.pages_count_ kPagesCountOffset
    (.ok (subU64 a1.pages_count_ 1), a1, file3)

/-- Modelled from the spec: the `PageData` of `page.hpp`, a whole page: the header and the
payload bytes that follow it. -/
structure PageData where
  page_header : Page
  bytes : Bytes
deriving DecidableEq

/-- The call `File::Read<PageData>`. -/
def File.ReadPageData (kPageSize : Nat) (f : File) (offset : Nat) : Except Error PageData :=
  match f.Read kPageSize offset with
  | .ok bs => .ok { page_header := decodePage (bs.take sizeofPage), bytes := bs.drop sizeofPage }
  | .error e => .error e

/-- The call `File::Write<PageData>`. -/
def File.WritePageData (f : File) (d : PageData) (offset : Nat) : File :=
  f.Write (encodePage d.page_header ++ d.bytes) offset

/-- The method `PageAllocator::SwapPages`. -/
def PageAllocator.SwapPages (kPageSize : Nat) (a : PageAllocator) (file : File)
    (first second : Nat) : Except Error Unit × File :=
  if first > a.pages_count_ ∨ second > a.pages_count_ then
    (.error (.BadArgument (str "The page index exceedes pages count: " ++ decimal a.pages_count_)),
      file)
  else
    match file.ReadPageData kPageSize ((Page.new first).GetPageAddress kPageSize a.pagetable_offset_) with
    | .error e => (.error e, file)
    | .ok first_data =>
      match file.ReadPageData kPageSize
          ((Page.new second).GetPageAddress kPageSize a.pagetable_offset_) with
      | .error e => (.error e, file)
      | .ok second_data =>
        let first1 : PageData := { first_data with page_header :=
          { first_data.page_header with
            index_ := second_data.page_header.index_,
            next_page_index_ := second_data.page_header.next_page_index_,
            previous_page_index_ := second_data.page_header.previous_page_index_ } }
        let second1 : PageData := { second_data with page_header :=
          { second_data.page_header with
            index_ := first_data.page_header.index_,
            next_page_index_ := first_data.page_header.next_page_index_,
            previous_page_index_ := first_data.page_header.previous_page_index_ } }
        let file1 := file.WritePageData first1
          (first1.page_header.GetPageAddress kPageSize a.pagetable_offset_)
        let file2 := file1.WritePageData second1
          (second1.page_header.GetPageAddress kPageSize a.pagetable_offset_)
        (.ok (), file2)

/-! ## PageList

Modelled from the spec: `pagelist.hpp` is not part of the sources at hand.
§4.4 of the spec describes an intrusive doubly-linked ring of pages anchored
by a sentinel header inside the superblock, with the count stored in the word
after the sentinel.  The list reaches the file and the pagetable through the
allocator.  A link that equals `kDummyIndex` designates the sentinel. -/

/-- Modelled from the spec: the `PageList` of `pagelist.hpp`, known by the offset of its
sentinel. -/
structure PageList where
  sentinel_offset_ : Nat
deriving DecidableEq

/-- Modelled from the spec: where the header with link value `index` lives: the sentinel
for `kDummyIndex`, the pagetable slot otherwise. -/
def PageList.AddressOf (kPageSize : Nat) (l : PageList) (a : PageAllocator) (index : Nat) : Nat :=
  if index = kDummyIndex then l.sentinel_offset_
  else (Page.new index).GetPageAddress kPageSize a.pagetable_offset_

/-- Modelled from the spec: `iterator_to(idx)`: the header at `idx`, read fresh from disk. -/
def PageList.IteratorTo (kPageSize : Nat) (l : PageList) (a : PageAllocator) (file : File)
    (index : Nat) : Except Error Page :=
  file.ReadPage (l.AddressOf kPageSize a index)

/-- Modelled from the spec: the count of the list, the word after its sentinel. -/
def PageList.GetPagesCount (l : PageList) (file : File) : Except Error Nat :=
  file.ReadU64 (GetCountFromSentinel l.sentinel_offset_)

/-- Modelled from the spec: `is_empty()`: the sentinel's next link is `kDummyIndex`, that is,
the sentinel's own index. -/
def PageList.IsEmpty (l : PageList) (file : File) : Except Error Bool :=
  match file.ReadPage l.sentinel_offset_ with
  | .ok s => .ok (s.next_page_index_ = kDummyIndex ∨ s.next_page_index_ = s.index_)
  | .error e => .error e

/-- Modelled from the spec: `push_back(idx)`: splice `idx` between the old tail and the
sentinel and increment the count.  The page type is the caller's business. -/
def PageList.PushBack (kPageSize : Nat) (l : PageList) (a : PageAllocator) (file : File)
    (index : Nat) : Except Error Unit × File :=
  match file.ReadPage l.sentinel_offset_ with
  | .error e => (.error e, file)
  | .ok sentinel =>
    let tail := sentinel.previous_page_index_
    match file.ReadPage (l.AddressOf kPageSize a index) with
    | .error e => (.error e, file)
    | .ok page =>
      let file1 := file.WritePage
        { page with previous_page_index_ := tail, next_page_index_ := kDummyIndex }
        (l.AddressOf kPageSize a index)
      match file1.ReadPage (l.AddressOf kPageSize a tail) with
      | .error e => (.error e, file1)
      | .ok tail_page =>
        let file2 := file1.WritePage { tail_page with next_page_index_ := index }
          (l.AddressOf kPageSize a tail)
        match file2.ReadPage l.sentinel_offset_ with
        | .error e => (.error e, file2)
        | .ok sentinel1 =>
          let file3 := file2.WritePage { sentinel1 with previous_page_index_ := index }
            l.sentinel_offset_
          match l.GetPagesCount file3 with
          | .error e => (.error e, file3)
          | .ok count =>
            (.ok (), file3.WriteU64 (addU64 count 1) (GetCountFromSentinel l.sentinel_offset_))

/-- Modelled from the spec: `back()`: the index of the tail; fails on an empty list. -/
def PageList.Back (l : PageList) (file : File) : Except Error Nat :=
  match l.IsEmpty file with
  | .error e => .error e
  | .ok true => .error (.RuntimeError (str "List is empty"))
  | .ok false =>
    match file.ReadPage l.sentinel_offset_ with
    | .ok s => .ok s.previous_page_index_
    | .error e => .error e

/-- Modelled from the spec: `pop_back()`: detach the tail, self-link it and decrement the
count; fails on an empty list. -/
def PageList.PopBack (kPageSize : Nat) (l : PageList) (a : PageAllocator) (file : File) :
    Except Error Unit × File :=
  match l.Back file with
  | .error e => (.error e, file)
  | .ok tail =>
    match file.ReadPage (l.AddressOf kPageSize a tail) with
    | .error e => (.error e, file)
    | .ok tail_page =>
      let before := tail_page.previous_page_index_
      let file1 := file.WritePage
        { tail_page with previous_page_index_ := tail, next_page_index_ := tail }
        (l.AddressOf kPageSize a tail)
      match file1.ReadPage (l.AddressOf kPageSize a before) with
      | .error e => (.error e, file1)
      | .ok before_page =>
        let file2 := file1.WritePage { before_page with next_page_index_ := kDummyIndex }
          (l.AddressOf kPageSize a before)
        match file2.ReadPage l.sentinel_offset_ with
        | .error e => (.error e, file2)
        | .ok sentinel1 =>
          let file3 := file2.WritePage { sentinel1 with previous_page_index_ := before }
            l.sentinel_offset_
          match l.GetPagesCount file3 with
          | .error e => (.error e, file3)
          | .ok count =>
            (.ok (), file3.WriteU64 (subU64 count 1) (GetCountFromSentinel l.sentinel_offset_))

/-- Modelled from the spec: the forward traversal "from sentinel.next until the sentinel is
reached again", each header read fresh from disk, starting at link `index`.  The
C++ loop has no bound; `fuel` counts the headers still to be read and
`Error.Diverges` is the answer when it runs out. -/
def PageList.Walk (kPageSize : Nat) (l : PageList) (a : PageAllocator) (file : File) :
    Nat → Nat → Except Error (List Page)
  | 0, _ => .error .Diverges
  | fuel + 1, index =>
    if index = kDummyIndex then .ok []
    else
      match l.IteratorTo kPageSize a file index with
      | .error e => .error e
      | .ok page =>
        match PageList.Walk kPageSize l a file fuel page.next_page_index_ with
        | .error e => .error e
        | .ok rest => .ok (page :: rest)

/-! ## Classes and class descriptors

Modelled from the spec: `class.hpp` and `object.hpp` are not part of the
sources at hand.  §6 of the spec gives the canonical string of a class and
§4.5 the descriptor: its size is "length prefix + bytes", it is written as a
length-prefixed byte sequence and read back by the length prefix, failing
with `StructureError` on truncation.  A `std::string` is a byte string. -/

/-- Modelled from the spec: the class variants `PrimitiveClass<T>`, `StringClass` and
`StructClass`; `kind` is the name of `T` in the canonical string. -/
inductive Class where
  | PrimitiveClass (kind : Bytes) (name : Bytes)
  | StringClass (name : Bytes)
  | StructClass (name : Bytes) (fields : List Class)

mutual
/-- Modelled from the spec: the canonical string `_<kind>@<name>_`, for a struct followed by
its fields between angle brackets. -/
def Class.Serialize : Class → Bytes
  | .PrimitiveClass kind name => str "_" ++ kind ++ str "@" ++ name ++ str "_"
  | .StringClass name => str "_string@" ++ name ++ str "_"
  | .StructClass name fields =>
    str "_struct@" ++ name ++ str "_<" ++ Class.SerializeFields fields ++ str ">"
/-- The canonical strings of the fields, concatenated. -/
def Class.SerializeFields : List Class → Bytes
  | [] => []
  | c :: cs => Class.Serialize c ++ Class.SerializeFields cs
end

/-- Modelled from the spec: the `ClassObject` of `object.hpp`, a descriptor carrying the
canonical string. -/
structure ClassObject where
  serialized_ : Bytes
deriving DecidableEq

/-- Modelled from the spec: the constructor `ClassObject(class)`. -/
def ClassObject.ofClass (c : Class) : ClassObject := { serialized_ := c.Serialize }

/-- Modelled from the spec: `to_string()`, the canonical string. -/
def ClassObject.ToString (o : ClassObject) : Bytes := o.serialized_

/-- Modelled from the spec: `size()`, the length prefix (one word) plus the bytes. -/
def ClassObject.GetSize (o : ClassObject) : Nat := sizeofWord + o.serialized_.length

/-- Modelled from the spec: `write(file, offset)`: the length, then the bytes. -/
def ClassObject.Write (o : ClassObject) (file : File) (offset : Nat) : File :=
  (file.WriteU64 o.serialized_.length offset).Write o.serialized_ (offset + sizeofWord)

/-- Modelled from the spec: `read(file, offset)`: the length, then that many bytes;
`StructureError` on truncation. -/
def ClassObject.Read (file : File) (offset : Nat) : Except Error ClassObject :=
  match readBytes file.data offset sizeofWord with
  | none => .error (.StructureError (str "Can't read class"))
  | some len =>
    match readBytes file.data (offset + sizeofWord) (decodeU64 len) with
    | none => .error (.StructureError (str "Can't read class"))
    | some bs => .ok { serialized_ := bs }

/-! ## Database (`database.hpp`) -/

/-- The enumeration `OpenMode`. -/
inductive OpenMode where
  | kDefault | kRead | kWrite
deriving DecidableEq

/-- The enumeration `PrintMode`. -/
inductive PrintMode where
  | kCache | kFile
deriving DecidableEq

/-- The `std::unordered_map<std::string, PageIndex>` of the handle, as the list of its entries
in insertion order.  The iteration order of the C++ container is unspecified, so
only the entries as a multiset are meaningful. -/
abbrev ClassMap := List (Bytes × Nat)

/-- The call `unordered_map::contains`. -/
def ClassMap.contains (m : ClassMap) (key : Bytes) : Bool := m.any (fun e => e.1 = key)

/-- The call `unordered_map::emplace`: no effect when the key is present. -/
def ClassMap.emplace (m : ClassMap) (key : Bytes) (value : Nat) : ClassMap :=
  if m.contains key then m else m ++ [(key, value)]

/-- The class `Database`.  `file_` is the one file the handle, the allocator and both lists
share. -/
structure Database where
  superblock_ : Superblock
  free_list_ : PageList
  class_list_ : PageList
  class_map_ : ClassMap
  alloc_ : PageAllocator
  file_ : File
deriving DecidableEq

/-- The method `Database::GetOffset`; `cr3_` of the source is the superblock's pagetable
offset, the only `Offset` it holds. -/
def Database.GetOffset (kPageSize : Nat) (superblock : Superblock) (index virt_offset : Nat) : Nat :=
  addU64 (addU64 superblock.pagetable_offset_ (mulU64 index kPageSize)) virt_offset

/-- The loop of `Database::InitializeClassMap` from link `index` on: read the header, read
the descriptor at `(index_, first_free_)` of that header, emplace, move to the
next link. -/
def Database.InitializeClassMapLoop (kPageSize : Nat) (superblock : Superblock)
    (class_list : PageList) (alloc : PageAllocator) (file : File) :
    Nat → Nat → ClassMap → Except Error ClassMap
  | 0, _, _ => .error .Diverges
  | fuel + 1, index, class_map =>
    if index = kDummyIndex then .ok class_map
    else
      match class_list.IteratorTo kPageSize alloc file index with
      | .error e => .error e
      | .ok class_it =>
        match ClassObject.Read file
            (Database.GetOffset kPageSize superblock class_it.index_ class_it.first_free_) with
        | .error e => .error e
        | .ok class_object =>
          Database.InitializeClassMapLoop kPageSize superblock class_list alloc file fuel
            class_it.next_page_index_ (class_map.emplace class_object.ToString class_it.index_)

/-- The number of headers a traversal of the file can read before it is bound to
read one address twice, after which the C++ loop never ends. -/
def walkFuel (file : File) : Nat := file.GetSize + 2

/-- The method `Database::InitializeClassMap`: the map is cleared and rebuilt from the class
list, entered at the sentinel's next link. -/
def Database.InitializeClassMap (kPageSize : Nat) (superblock : Superblock)
    (class_list : PageList) (alloc : PageAllocator) (file : File) : Except Error ClassMap :=
  match file.ReadPage class_list.sentinel_offset_ with
  | .error e => .error e
  | .ok sentinel =>
    Database.InitializeClassMapLoop kPageSize superblock class_list alloc file (walkFuel file)
      sentinel.next_page_index_ []

/-- The method `Database::AllocatePage`: a page of the free list if there is one, a new page
otherwise. -/
def Database.AllocatePage (kPageSize : Nat) (db : Database) : Except Error Nat × Database :=
  match db.free_list_.IsEmpty db.file_ with
  | .error e => (.error e, db)
  | .ok true =>
    match db.alloc_.AllocatePage kPageSize db.file_ with
    | (r, alloc1, file1) => (r, { db with alloc_ := alloc1, file_ := file1 })
  | .ok false =>
    match db.free_list_.Back db.file_ with
    | .error e => (.error e, db)
    | .ok index =>
      match db.free_list_.PopBack kPageSize db.alloc_ db.file_ with
      | (.error e, file1) => (.error e, { db with file_ := file1 })
      | (.ok (), file1) => (.ok index, { db with file_ := file1 })

/-- The method `Database::FreePage`. -/
def Database.FreePage (kPageSize : Nat) (db : Database) (index : Nat) :
    Except Error Unit × Database :=
  match db.free_list_.IteratorTo kPageSize db.alloc_ db.file_ index with
  | .error e => (.error e, db)
  | .ok page =>
    if page.type_ = PageType.kFree.toWord then
      (.error (.RuntimeError (str "Double free")), db)
    else
      match db.free_list_.PushBack kPageSize db.alloc_ db.file_ index with
      | (r, file1) => (r, { db with file_ := file1 })

/-- The superblock member before the constructor body runs.  In C++ its value is
indeterminate; every path that completes overwrites all of it. -/
def Superblock.uninit : Superblock :=
  { free_list_sentinel_ := Page.new 0, free_pages_count_ := 0, pagetable_offset_ := 0,
    pages_count := 0, class_list_sentinel_ := Page.new 0, class_list_count_ := 0 }

/-- The open-mode switch of the constructor: the superblock and the file it leaves, or
the error that leaves the constructor. -/
def Database.OpenSuperblock (file : File) (mode : OpenMode) : Except Error Superblock × File :=
  match mode with
  | .kRead =>
    match Superblock.uninit.ReadSuperblock file with
    | .ok sb => (.ok sb, file)
    | .error e => (.error e, file)
  | .kWrite =>
    match Superblock.uninit.InitSuperblock file.Clear with
    | (sb, file1) => (.ok sb, file1)
  | .kDefault =>
    match Superblock.uninit.ReadSuperblock file with
    | .ok sb => (.ok sb, file)
    | .error e =>
      if e.isStructureError then
        match Superblock.uninit.InitSuperblock file with
        | (sb, file1) => (.ok sb, file1)
      else if e.isBadArgument then
        match Superblock.uninit.InitSuperblock file with
        | (sb, file1) => (.ok sb, file1)
      else (.error e, file)

/-- The constructor `Database::Database`: the handle, or the error thrown, and the file as the
constructor leaves it. -/
def Database.new (kPageSize : Nat) (file : File) (mode : OpenMode) :
    Except Error Database × File :=
  match Database.OpenSuperblock file mode with
  | (.error e, file1) => (.error e, file1)
  | (.ok superblock, file1) =>
    match PageAllocator.new file1 superblock.pagetable_offset_ with
    | .error e => (.error e, file1)
    | .ok alloc =>
      match file1.ReadU64 kFreePagesCountOffset with
      | .error e => (.error e, file1)
      | .ok _ =>
        let free_list : PageList := { sentinel_offset_ := kFreeListSentinelOffset }
        match file1.ReadU64 kClassListCount with
        | .error e => (.error e, file1)
        | .ok _ =>
          let class_list : PageList := { sentinel_offset_ := kClassListSentinelOffset }
          match Database.InitializeClassMap kPageSize superblock class_list alloc file1 with
          | .error e => (.error e, file1)
          | .ok class_map =>
            (.ok { superblock_ := superblock, free_list_ := free_list, class_list_ := class_list,
                   class_map_ := class_map, alloc_ := alloc, file_ := file1 }, file1)

/-- The method `Database::AddClass`. -/
def Database.AddClass (kPageSize : Nat) (db : Database) (new_class : Class) :
    Except Error Unit × Database :=
  let class_object := ClassObject.ofClass new_class
  if db.class_map_.contains class_object.ToString then
    (.error (.RuntimeError (str "Class already present in database")), db)
  else if class_object.GetSize > subU64 kPageSize sizeofClassHeader then
    (.error (.NotImplemented (str "Too complex class")), db)
  else
    match db.AllocatePage kPageSize with
    | (.error e, db1) => (.error e, db1)
    | (.ok index, db1) =>
      match db1.class_list_.PushBack kPageSize db1.alloc_ db1.file_ index with
      | (.error e, file2) => (.error e, { db1 with file_ := file2 })
      | (.ok (), file2) =>
        let header := ClassHeader.new index
        match header.ReadClassHeader kPageSize db1.superblock_.pagetable_offset_ file2 with
        | .error e => (.error e, { db1 with file_ := file2 })
        | .ok header1 =>
          match header1.InitClassHeader kPageSize db1.superblock_.pagetable_offset_ file2 0 with
          | (header2, file3) =>
            let header3 : ClassHeader := { header2 with actual_size_ := class_object.GetSize }
            let file4 := header3.WriteClassHeader kPageSize db1.superblock_.pagetable_offset_ file3
            let file5 := class_object.Write file4
              (Database.GetOffset kPageSize db1.superblock_ header3.index_ header3.first_free_)
            (.ok (), { db1 with
              file_ := file5,
              class_map_ := db1.class_map_.emplace class_object.ToString header3.index_ })

/-- One printed line, `[index] : canonical`. -/
def printLine (index : Nat) (canonical : Bytes) : Bytes :=
  str "[" ++ decimal index ++ str "] : " ++ canonical

/-- The `kFile` loop of `PrintAllClasses` from link `index` on; the lines printed so far are
kept when a read throws. -/
def Database.PrintFileLoop (kPageSize : Nat) (db : Database) :
    Nat → Nat → List Bytes → Except Error Unit × List Bytes
  | 0, _, out => (.error .Diverges, out)
  | fuel + 1, index, out =>
    if index = kDummyIndex then (.ok (), out)
    else
      match db.class_list_.IteratorTo kPageSize db.alloc_ db.file_ index with
      | .error e => (.error e, out)
      | .ok it =>
        match ClassObject.Read db.file_
            (Database.GetOffset kPageSize db.superblock_ it.index_ it.first_free_) with
        | .error e => (.error e, out)
        | .ok class_object =>
          Database.PrintFileLoop kPageSize db fuel it.next_page_index_
            (out ++ [printLine it.index_ class_object.ToString])

/-- The method `Database::PrintAllClasses`: the outcome and the lines sent to the stream. -/
def Database.PrintAllClasses (kPageSize : Nat) (db : Database) (mode : PrintMode) :
    Except Error Unit × List Bytes :=
  match mode with
  | .kCache => (.ok (), db.class_map_.map (fun it => printLine it.2 it.1))
  | .kFile =>
    match db.file_.ReadPage db.class_list_.sentinel_offset_ with
    | .error e => (.error e, [])
    | .ok sentinel =>
      Database.PrintFileLoop kPageSize db (walkFuel db.file_) sentinel.next_page_index_ []

/-- The destructor `Database::~Database`: the superblock member is written back. -/
def Database.close (db : Database) : Except Error Unit × File :=
  db.superblock_.WriteSuperblock db.file_

/-- The class `person` of the tests and of the scenarios S4 and S5. -/
def personClass : Class :=
  .StructClass (str "person")
    [.StringClass (str "name"), .StringClass (str "surname"),
     .PrimitiveClass (str "int") (str "age"), .PrimitiveClass (str "bool") (str "male")]

/-- The superblock `InitSuperblock` leaves in memory. -/
def freshSuperblock : Superblock :=
  { free_list_sentinel_ := sentinelPage, free_pages_count_ := 0,
    pagetable_offset_ := sizeofMagic + sizeofSuperblock, pages_count := 0,
    class_list_sentinel_ := sentinelPage, class_list_count_ := 0 }

/-- The contents `InitSuperblock` leaves in an empty file: the magic and the superblock. -/
def freshBytes : Bytes :=
  writeBytes (writeBytes [] 0 (encodeU64 kMagic)) sizeofMagic (encodeSuperblock freshSuperblock)

/-- The handle of a fresh database on a file called `name`. -/
def freshDatabase (name : String) : Database :=
  { superblock_ := freshSuperblock,
    free_list_ := { sentinel_offset_ := kFreeListSentinelOffset },
    class_list_ := { sentinel_offset_ := kClassListSentinelOffset },
    class_map_ := [],
    alloc_ := { pagetable_offset_ := freshSuperblock.pagetable_offset_, pages_count_ := 0 },
    file_ := { filename := name, data := freshBytes } }

/-- A file that is not a database and is longer than a superblock: 200 bytes of value 1. -/
def garbageFile : File := { filename := "test.data", data := List.replicate 200 1 }

/-- The pagetable origin of a database file, `sizeof(kMagic) + sizeof(Superblock)`. -/
def kOrigin : Nat := sizeofMagic + sizeofSuperblock

/-- The class-list walk that `InitializeClassMap` and `PrintAllClasses(kFile)` share, from link
`index` on, collecting the pair `(index_, canonical string)` of every page. -/
def Database.ClassListEntriesLoop (kPageSize : Nat) (db : Database) :
    Nat → Nat → Except Error (List (Nat × Bytes))
  | 0, _ => .error .Diverges
  | fuel + 1, index =>
    if index = kDummyIndex then .ok []
    else
      match db.class_list_.IteratorTo kPageSize db.alloc_ db.file_ index with
      | .error e => .error e
      | .ok it =>
        match ClassObject.Read db.file_
            (Database.GetOffset kPageSize db.superblock_ it.index_ it.first_free_) with
        | .error e => .error e
        | .ok class_object =>
          match Database.ClassListEntriesLoop kPageSize db fuel it.next_page_index_ with
          | .error e => .error e
          | .ok rest => .ok ((it.index_, class_object.ToString) :: rest)

/-- The pairs `(index_, canonical string)` met by walking the class list of the file. -/
def Database.ClassListEntries (kPageSize : Nat) (db : Database) :
    Except Error (List (Nat × Bytes)) :=
  match db.file_.ReadPage db.class_list_.sentinel_offset_ with
  | .error e => .error e
  | .ok sentinel =>
    Database.ClassListEntriesLoop kPageSize db (walkFuel db.file_) sentinel.next_page_index_

/-- The first index of a list of class pages, `last` when there is none. -/
def headIndex : List (Nat × Bytes) → Nat → Nat
  | [], last => last
  | e :: _, _ => e.1

/-- The last index of a list of class pages, `first` when there is none. -/
def lastIndex (classes : List (Nat × Bytes)) (first : Nat) : Nat :=
  classes.foldl (fun _ e => e.1) first

/-- The class pages `classes` (index and canonical string, in list order) are chained on
disk: each page lies inside the file, its header stores its index, the cursor
`sizeof(ClassHeader)` and the index of the next page as its next link (`last` for
the final page), and the descriptor after the header is the canonical string,
which fits the page. -/
def Chain (kPageSize : Nat) (file : File) : List (Nat × Bytes) → Nat → Prop
  | [], _ => True
  | e :: rest, last =>
    kOrigin + (e.1 + 1) * kPageSize ≤ file.GetSize ∧
    sizeofClassHeader + sizeofWord + e.2.length ≤ kPageSize ∧
    (∃ p, file.ReadPage (kOrigin + e.1 * kPageSize) = .ok p ∧ p.index_ = e.1 ∧
      p.first_free_ = sizeofClassHeader ∧ p.next_page_index_ = headIndex rest last) ∧
    ClassObject.Read file (kOrigin + e.1 * kPageSize + sizeofClassHeader) =
      .ok { serialized_ := e.2 } ∧
    Chain kPageSize file rest last

/-- The state of a handle opened in `Write` mode after some calls: `classes` are the classes
added, in order, with the pages that hold them. -/
structure Inv (kPageSize : Nat) (db : Database) (classes : List (Nat × Bytes)) : Prop where
  superblock_origin : db.superblock_.pagetable_offset_ = kOrigin
  alloc_origin : db.alloc_.pagetable_offset_ = kOrigin
  free_list : db.free_list_.sentinel_offset_ = kFreeListSentinelOffset
  class_list : db.class_list_.sentinel_offset_ = kClassListSentinelOffset
  size : db.file_.GetSize = kOrigin + db.alloc_.pages_count_ * kPageSize
  fits : db.file_.GetSize < wordMod
  pages_count : db.file_.ReadU64 kPagesCountOffset = .ok db.alloc_.pages_count_
  free_sentinel : ∃ s, db.file_.ReadPage kFreeListSentinelOffset = .ok s ∧
    s.next_page_index_ = kDummyIndex
  class_sentinel : ∃ s, db.file_.ReadPage kClassListSentinelOffset = .ok s ∧
    s.next_page_index_ = headIndex classes kDummyIndex ∧
    s.previous_page_index_ = lastIndex classes kDummyIndex
  class_count : db.file_.ReadU64 kClassListCount = .ok classes.length
  chain : Chain kPageSize db.file_ classes kDummyIndex
  sorted : classes.Pairwise (fun a b => a.1 < b.1)
  below : ∀ e ∈ classes, e.1 < db.alloc_.pages_count_
  length_le : classes.length ≤ db.alloc_.pages_count_
  keys : (classes.map (fun e => e.2)).Nodup
  class_map : db.class_map_ = classes.map (fun e => (e.2, e.1))

/-- The handle after `Database::AllocatePage` took a new page. -/
def Database.afterAllocate (kPageSize : Nat) (db : Database) : Database :=
  { db with
    alloc_ := { db.alloc_ with pages_count_ := db.alloc_.pages_count_ + 1 },
    file_ := ((db.file_.Extend kPageSize).WritePage (Page.new db.alloc_.pages_count_)
      db.file_.GetSize).WriteU64 (db.alloc_.pages_count_ + 1) kPagesCountOffset }

/-- The handle a successful `AddClass` leaves, from the handle after the allocation, the
file after the `PushBack` and the header read back. -/
def Database.afterAddClass (kPageSize : Nat) (db1 : Database) (file2 : File)
    (header1 : ClassHeader) (class_object : ClassObject) : Database :=
  { db1 with
    file_ := class_object.Write
      (ClassHeader.WriteClassHeader kPageSize
        { (header1.InitClassHeader kPageSize db1.superblock_.pagetable_offset_ file2 0).1 with
          actual_size_ := class_object.GetSize }
        db1.superblock_.pagetable_offset_
        (header1.InitClassHeader kPageSize db1.superblock_.pagetable_offset_ file2 0).2)
      (Database.GetOffset kPageSize db1.superblock_
        (header1.InitClassHeader kPageSize db1.superblock_.pagetable_offset_ file2 0).1.index_
        (header1.InitClassHeader kPageSize db1.superblock_.pagetable_offset_ file2 0).1.first_free_),
    class_map_ := db1.class_map_.emplace class_object.ToString
      (header1.InitClassHeader kPageSize db1.superblock_.pagetable_offset_ file2 0).1.index_ }

/-- The file `file1` differs from `file` only inside the page `n`: same size, same superblock
region, same chains of class pages below `n`. -/
def FramePage (kPageSize n : Nat) (file file1 : File) : Prop :=
  file1.GetSize = file.GetSize ∧
  (∀ o p, o + 48 ≤ kOrigin → file.ReadPage o = .ok p → file1.ReadPage o = .ok p) ∧
  (∀ o v, o + 8 ≤ kOrigin → file.ReadU64 o = .ok v → file1.ReadU64 o = .ok v) ∧
  (∀ classes last, (∀ e ∈ classes, e.1 < n) → Chain kPageSize file classes last →
    Chain kPageSize file1 classes last)

/-- The class header `AddClass` writes to the page `index`, linked after `previous`, with
`actual_size_` set to `size`. -/
def classHeaderOf (index previous size : Nat) : ClassHeader :=
  { toPage :=
      { type_ := PageType.kClassHeader.toWord, index_ := index, previous_page_index_ := previous,
        next_page_index_ := kDummyIndex, first_free_ := sizeofClassHeader, actual_size_ := size },
    node_list_sentinel_ := sentinelPage, node_pages_count_ := 0, nodes_ := 0 }

/-- True for the errors the layers below `AddClass` throw: a failed read, an unaligned
file, an empty list. -/
def Error.lower : Error → Bool
  | .BadArgument _ => true
  | .StructureError _ => true
  | .RuntimeError msg => msg = str "List is empty"
  | _ => false

/-- The class `person` of the test `TypeDump`: name, surname, an `int` age and a `uint64_t`
money, whose kind is spelled `unsignedlong` in the canonical string. -/
def personMoneyClass : Class :=
  .StructClass (str "person")
    [.StringClass (str "name"), .StringClass (str "surname"),
     .PrimitiveClass (str "int") (str "age"), .PrimitiveClass (str "unsignedlong") (str "money")]

/-- The page `d` with the index and the two links of `e`: what `SwapPages` makes of each page
it read by the three `std::swap` calls. -/
def PageData.withLinksOf (d e : PageData) : PageData :=
  { d with page_header :=
    { d.page_header with
      index_ := e.page_header.index_,
      next_page_index_ := e.page_header.next_page_index_,
      previous_page_index_ := e.page_header.previous_page_index_ } }

/-- A page of 64 bytes in slot 0: a class header page, first of a list of two, with a payload
of sixteen bytes of value 7. -/
def swapPageA : PageData :=
  { page_header :=
      { type_ := PageType.kClassHeader.toWord, index_ := 0, previous_page_index_ := kDummyIndex,
        next_page_index_ := 1, first_free_ := 48, actual_size_ := 5 },
    bytes := List.replicate 16 7 }

/-- A page of 64 bytes in slot 1: an empty page, last of the list, with a payload of sixteen
bytes of value 9. -/
def swapPageB : PageData :=
  { page_header :=
      { type_ := PageType.kEmpty.toWord, index_ := 1, previous_page_index_ := 0,
        next_page_index_ := kDummyIndex, first_free_ := 48, actual_size_ := 0 },
    bytes := List.replicate 16 9 }

/-- A database file of 264 bytes with pages of 64 bytes: the magic, the superblock with
`pages_count = 2`, then `swapPageA` in slot 0 and `swapPageB` in slot 1. -/
def swapFile : File :=
  ((({ filename := "test.data", data := freshBytes } : File).WriteU64 2 kPagesCountOffset
    ).WritePageData swapPageA 136).WritePageData swapPageB 200

/-- The allocator a handle opened on `swapFile` holds: origin 136, two pages. -/
def swapAllocator : PageAllocator := { pagetable_offset_ := 136, pages_count_ := 2 }

/-- The header a successful `AddClass` leaves in the page, from the header `header1` read back
after the `PushBack`: the fields `InitClassHeader` sets, `actual_size_` then given the
size of the descriptor; the index and the two links are those of `header1`. -/
def ClassHeader.afterInit (header1 : ClassHeader) (size : Nat) : ClassHeader :=
  { toPage :=
      { header1.toPage with
        type_ := PageType.kClassHeader.toWord, actual_size_ := size,
        first_free_ := sizeofClassHeader },
    node_list_sentinel_ := sentinelPage, node_pages_count_ := 0, nodes_ := 0 }

/-- The bytes a successful `AddClass` stores in the page: the class header, then the
descriptor (its length and the canonical string). -/
def classImage (header1 : ClassHeader) (c : ClassObject) : Bytes :=
  encodeClassHeader (header1.afterInit c.GetSize) ++
    (encodeU64 c.serialized_.length ++ c.serialized_)

/-- A handle with pages of 128 bytes that holds one page: a fresh database on `test.data` after
one `Database::AllocatePage`, which returns page 0. -/
def onePageDatabase : Database := ((freshDatabase "test.data").AllocatePage 128).2

/-- The handle `onePageDatabase` after `FreePage(0)`. -/
def freedOnce : Database := (onePageDatabase.FreePage 128 0).2

/-- The pages of a free list, last pushed first: each page lies in the file and its header
links back to the page pushed before it, `kDummyIndex` for the first. -/
def FreeStack (kPageSize : Nat) (file : File) : List Nat → Prop
  | [] => True
  | p :: rest =>
    kOrigin + (p + 1) * kPageSize ≤ file.GetSize ∧
    (∃ h, file.ReadPage (kOrigin + p * kPageSize) = .ok h ∧
      h.previous_page_index_ = rest.headD kDummyIndex) ∧
    FreeStack kPageSize file rest

/-- The free list of a handle holds the pages `stack`, last pushed first: the sentinel in the
superblock has index `kDummyIndex`, links back to the last page pushed and has
`kDummyIndex` as next link exactly when the list is empty; the word after it counts
the pages. -/
structure FreeInv (kPageSize : Nat) (db : Database) (stack : List Nat) : Prop where
  free_list : db.free_list_.sentinel_offset_ = kFreeListSentinelOffset
  alloc_origin : db.alloc_.pagetable_offset_ = kOrigin
  fits : db.file_.GetSize < wordMod
  sentinel : ∃ s, db.file_.ReadPage kFreeListSentinelOffset = .ok s ∧
    s.index_ = kDummyIndex ∧ s.previous_page_index_ = stack.headD kDummyIndex ∧
    (s.next_page_index_ = kDummyIndex ↔ stack = [])
  count : db.file_.ReadU64 kFreePagesCountOffset = .ok stack.length
  stack_pages : FreeStack kPageSize db.file_ stack
  nodup : stack.Nodup

/-- The outcomes of `Database::FreePage` called on each page of a list in turn, and the handle
the calls leave. -/
def Database.freeMany (kPageSize : Nat) (db : Database) :
    List Nat → List (Except Error Unit) × Database
  | [] => ([], db)
  | p :: pages =>
    ((db.FreePage kPageSize p).1 :: (Database.freeMany kPageSize (db.FreePage kPageSize p).2 pages).1,
      (Database.freeMany kPageSize (db.FreePage kPageSize p).2 pages).2)

/-- The outcomes of `n` calls of `Database::AllocatePage` in a row, and the handle the calls
leave. -/
def Database.allocateMany (kPageSize : Nat) (db : Database) :
    Nat → List (Except Error Nat) × Database
  | 0 => ([], db)
  | n + 1 =>
    ((db.AllocatePage kPageSize).1 ::
        (Database.allocateMany kPageSize (db.AllocatePage kPageSize).2 n).1,
      (Database.allocateMany kPageSize (db.AllocatePage kPageSize).2 n).2)

/-- A handle with pages of 128 bytes that holds two pages, 0 and 1, and an empty free list:
`onePageDatabase` after a second `Database::AllocatePage`. -/
def twoPageDatabase : Database := (onePageDatabase.AllocatePage 128).2

/-- A handle with pages of 256 bytes that holds one class: a fresh database on `test.data` after
`AddClass(person)`, which stores the class in page 0. -/
def onePersonDatabase : Database := ((freshDatabase "test.data").AddClass 256 personClass).2

/-- The handle destroyed and its file opened again in `Read` mode: the outcome of the second
constructor and the file it leaves. -/
def Database.reopen (kPageSize : Nat) (db : Database) : Except Error Database × File :=
  Database.new kPageSize db.close.2 .kRead

/-- A call on a handle: `AddClass` of a class, or an allocation of a page. -/
inductive Op where
  | addClass (new_class : Class)
  | allocatePage

/-- The handle after one call, whether it succeeds or throws. -/
def Database.step (kPageSize : Nat) (db : Database) : Op → Database
  | .addClass c => (db.AddClass kPageSize c).2
  | .allocatePage => (db.AllocatePage kPageSize).2

/-- The handle after a sequence of calls. -/
def Database.run (kPageSize : Nat) (db : Database) (ops : List Op) : Database :=
  ops.foldl (Database.step kPageSize) db

/-! ## The byte store -/

theorem length_writeBytes (f : Bytes) (off : Nat) (bs : Bytes) :
    (writeBytes f off bs).length = max f.length (off + bs.length) := by
  simp only [writeBytes, List.length_append, List.length_take, List.length_drop,
    List.length_replicate]
  omega

theorem getElem?_writeBytes (f : Bytes) (off : Nat) (bs : Bytes) (i : Nat) :
    (writeBytes f off bs)[i]? =
      if i < off then (if i < f.length then f[i]? else some zeroByte)
      else if i < off + bs.length then bs[i - off]? else f[i]? := by
  simp only [writeBytes]
  by_cases h1 : i < off
  · rw [List.append_assoc, List.getElem?_append_left (by simp; omega)]
    simp only [h1, if_true, List.getElem?_take, List.getElem?_append, List.getElem?_replicate]
    split
    · rfl
    · rw [if_pos (by omega)]
  · by_cases h2 : i < off + bs.length
    · rw [List.getElem?_append_left (by simp; omega),
        List.getElem?_append_right (by simp; omega)]
      simp only [h1, h2, if_true, if_false, List.length_take, List.length_append,
        List.length_replicate]
      congr 1
      omega
    · rw [List.getElem?_append_right (by simp; omega)]
      simp only [h1, h2, if_false, List.length_take, List.length_append,
        List.length_replicate, List.getElem?_drop, List.getElem?_append]
      have e : off + bs.length + (i - (min off (f.length + (off - f.length)) + bs.length)) = i := by
        omega
      rw [e]
      split
      · rfl
      · rw [List.getElem?_replicate, if_neg (by omega), List.getElem?_eq_none (by omega)]

theorem readBytes_of_getElem? (f : Bytes) (off n : Nat) (x : Bytes) (hl : x.length = n)
    (hle : off + n ≤ f.length) (hx : ∀ i, i < n → f[off + i]? = x[i]?) :
    readBytes f off n = some x := by
  unfold readBytes
  rw [if_pos hle]
  congr 1
  apply List.ext_getElem?
  intro i
  rw [List.getElem?_take]
  split
  · rename_i hi
    rw [List.getElem?_drop, hx i hi]
  · rw [List.getElem?_eq_none (by omega)]

theorem getElem?_of_readBytes {f : Bytes} {off n : Nat} {x : Bytes}
    (h : readBytes f off n = some x) :
    x.length = n ∧ off + n ≤ f.length ∧ ∀ i, i < n → f[off + i]? = x[i]? := by
  unfold readBytes at h
  split at h
  · rename_i hle
    injection h with h
    subst h
    refine ⟨by simp; omega, hle, fun i hi => ?_⟩
    rw [List.getElem?_take, if_pos hi, List.getElem?_drop]
  · cases h

theorem readBytes_writeBytes_same (f : Bytes) (off : Nat) (bs : Bytes) :
    readBytes (writeBytes f off bs) off bs.length = some bs := by
  apply readBytes_of_getElem? _ _ _ _ rfl
  · rw [length_writeBytes]; omega
  · intro i hi
    rw [getElem?_writeBytes, if_neg (by omega), if_pos (by omega)]
    congr 1; omega

theorem readBytes_writeBytes_inside (f : Bytes) (off : Nat) (bs : Bytes) (k n : Nat)
    (h : k + n ≤ bs.length) :
    readBytes (writeBytes f off bs) (off + k) n = some ((bs.drop k).take n) := by
  apply readBytes_of_getElem?
  · simp; omega
  · rw [length_writeBytes]; omega
  · intro i hi
    rw [getElem?_writeBytes, if_neg (by omega), if_pos (by omega), List.getElem?_take, if_pos hi,
      List.getElem?_drop]
    congr 1; omega

theorem readBytes_writeBytes_disjoint {f : Bytes} {o n : Nat} {x : Bytes}
    (h : readBytes f o n = some x) (off : Nat) (bs : Bytes)
    (hd : o + n ≤ off ∨ off + bs.length ≤ o) :
    readBytes (writeBytes f off bs) o n = some x := by
  obtain ⟨hl, hle, hx⟩ := getElem?_of_readBytes h
  apply readBytes_of_getElem? _ _ _ _ hl
  · rw [length_writeBytes]; omega
  · intro i hi
    rw [getElem?_writeBytes, ← hx i hi]
    rcases hd with hd | hd
    · rw [if_pos (by omega), if_pos (by omega)]
    · rw [if_neg (by omega), if_neg (by omega)]

theorem readBytes_append {f : Bytes} {o n : Nat} {x : Bytes}
    (h : readBytes f o n = some x) (g : Bytes) : readBytes (f ++ g) o n = some x := by
  obtain ⟨hl, hle, hx⟩ := getElem?_of_readBytes h
  apply readBytes_of_getElem? _ _ _ _ hl
  · simp; omega
  · intro i hi
    rw [← hx i hi, List.getElem?_append_left (by omega)]

theorem readBytes_take {f : Bytes} {o a b : Nat} {x : Bytes}
    (h : readBytes f o (a + b) = some x) : readBytes f o a = some (x.take a) := by
  obtain ⟨hl, hle, hx⟩ := getElem?_of_readBytes h
  apply readBytes_of_getElem?
  · simp; omega
  · omega
  · intro i hi
    rw [hx i (by omega), List.getElem?_take, if_pos hi]

theorem readBytes_drop {f : Bytes} {o a b : Nat} {x : Bytes}
    (h : readBytes f o (a + b) = some x) : readBytes f (o + a) b = some (x.drop a) := by
  obtain ⟨hl, hle, hx⟩ := getElem?_of_readBytes h
  apply readBytes_of_getElem?
  · simp; omega
  · omega
  · intro i hi
    rw [List.getElem?_drop, ← hx (a + i) (by omega)]
    congr 1; omega

theorem readBytes_isSome {f : Bytes} {o n : Nat} (h : o + n ≤ f.length) :
    ∃ x, readBytes f o n = some x := by
  unfold readBytes
  rw [if_pos h]
  exact ⟨_, rfl⟩

theorem readBytes_eq_none {f : Bytes} {o n : Nat} (h : f.length < o + n) :
    readBytes f o n = none := by
  unfold readBytes
  rw [if_neg (by omega)]

/-! ## The codec -/

theorem length_encodeU64 (n : Nat) : (encodeU64 n).length = 8 := rfl

theorem decodeU64_encodeU64 (n : Nat) : decodeU64 (encodeU64 n) = n % wordMod := by
  simp only [encodeU64, decodeU64, byteAt, wordMod]
  norm_num
  omega

theorem decodeU64_encodeU64_of_lt {n : Nat} (h : n < wordMod) : decodeU64 (encodeU64 n) = n := by
  rw [decodeU64_encodeU64, Nat.mod_eq_of_lt h]

theorem decodeU64_lt_pow (bs : Bytes) : decodeU64 bs < 256 ^ bs.length := by
  induction bs with
  | nil => simp [decodeU64]
  | cons b bs ih =>
    simp only [decodeU64, List.length_cons, pow_succ]
    have := b.isLt
    omega

theorem decodeU64_lt {bs : Bytes} (h : bs.length ≤ 8) : decodeU64 bs < wordMod := by
  have h1 := decodeU64_lt_pow bs
  have h2 : 256 ^ bs.length ≤ 256 ^ 8 := Nat.pow_le_pow_right (by decide) h
  have h3 : (256 : Nat) ^ 8 = wordMod := by decide
  omega

theorem length_encodePage (p : Page) : (encodePage p).length = 48 := rfl

theorem length_encodeSuperblock (s : Superblock) : (encodeSuperblock s).length = 128 := rfl

theorem length_encodeClassHeader (h : ClassHeader) : (encodeClassHeader h).length = 112 := rfl

theorem wordAt_lt (bs : Bytes) (k : Nat) : wordAt bs k < wordMod := by
  apply decodeU64_lt
  simp

theorem wordAt_zero_encodeU64 (n : Nat) (r : Bytes) : wordAt (encodeU64 n ++ r) 0 = n % wordMod := by
  simp only [wordAt, Nat.mul_zero, List.drop_zero]
  rw [List.take_left' (length_encodeU64 n), decodeU64_encodeU64]

theorem wordAt_succ_encodeU64 (n : Nat) (r : Bytes) (k : Nat) :
    wordAt (encodeU64 n ++ r) (k + 1) = wordAt r k := by
  simp only [wordAt]
  have e : 8 * (k + 1) = 8 + 8 * k := by omega
  rw [e, ← List.drop_drop, List.drop_left' (length_encodeU64 n)]

theorem wordAt_take {bs : Bytes} {k m : Nat} (h : 8 * k + 8 ≤ m) :
    wordAt (bs.take m) k = wordAt bs k := by
  simp only [wordAt]
  rw [List.drop_take, List.take_take]
  congr 2
  omega

theorem wordAt_drop (bs : Bytes) (j k : Nat) : wordAt (bs.drop (8 * j)) k = wordAt bs (j + k) := by
  simp only [wordAt]
  rw [List.drop_drop]
  congr 3
  omega

theorem decodePage_append (p : Page) (r : Bytes) :
    decodePage (encodePage p ++ r) =
      { type_ := p.type_ % wordMod, index_ := p.index_ % wordMod,
        previous_page_index_ := p.previous_page_index_ % wordMod,
        next_page_index_ := p.next_page_index_ % wordMod,
        first_free_ := p.first_free_ % wordMod, actual_size_ := p.actual_size_ % wordMod } := by
  simp only [decodePage, encodePage, List.append_assoc, wordAt_zero_encodeU64,
    wordAt_succ_encodeU64]

theorem decodePage_encodePage_append {p : Page} (h : p.fits) (r : Bytes) :
    decodePage (encodePage p ++ r) = p := by
  obtain ⟨h1, h2, h3, h4, h5, h6⟩ := h
  rw [decodePage_append]
  cases p
  simp only [Page.mk.injEq]
  simp only [Nat.mod_eq_of_lt, *, and_self]

theorem decodePage_encodePage {p : Page} (h : p.fits) : decodePage (encodePage p) = p := by
  have := decodePage_encodePage_append h []
  rwa [List.append_nil] at this

theorem decodePage_fits (bs : Bytes) : (decodePage bs).fits :=
  ⟨wordAt_lt _ _, wordAt_lt _ _, wordAt_lt _ _, wordAt_lt _ _, wordAt_lt _ _, wordAt_lt _ _⟩

theorem decodePage_take {bs : Bytes} {m : Nat} (h : 48 ≤ m) :
    decodePage (bs.take m) = decodePage bs := by
  simp only [decodePage]
  rw [wordAt_take, wordAt_take, wordAt_take, wordAt_take, wordAt_take, wordAt_take] <;> omega

/-! ## Typed file access -/

@[simp] theorem File.GetSize_Write (f : File) (bs : Bytes) (off : Nat) :
    (f.Write bs off).GetSize = max f.GetSize (off + bs.length) := by
  simp only [File.GetSize, File.Write, length_writeBytes]

@[simp] theorem File.GetSize_Extend (f : File) (d : Nat) : (f.Extend d).GetSize = f.GetSize + d := by
  simp [File.GetSize, File.Extend]

theorem File.Read_Write_same (f : File) (bs : Bytes) (off : Nat) :
    (f.Write bs off).Read bs.length off = .ok bs := by
  simp only [File.Read, File.Write, readBytes_writeBytes_same]

theorem File.Read_Write_disjoint {f : File} {n o : Nat} {x : Bytes} (h : f.Read n o = .ok x)
    (bs : Bytes) (off : Nat) (hd : o + n ≤ off ∨ off + bs.length ≤ o) :
    (f.Write bs off).Read n o = .ok x := by
  unfold File.Read at h ⊢
  cases hr : readBytes f.data o n with
  | none => rw [hr] at h; cases h
  | some y =>
    rw [hr] at h
    injection h with h
    subst h
    simp only [File.Write, readBytes_writeBytes_disjoint hr off bs hd]

theorem File.Read_Extend {f : File} {n o : Nat} {x : Bytes} (h : f.Read n o = .ok x) (d : Nat) :
    (f.Extend d).Read n o = .ok x := by
  unfold File.Read at h ⊢
  cases hr : readBytes f.data o n with
  | none => rw [hr] at h; cases h
  | some y =>
    rw [hr] at h
    injection h with h
    subst h
    simp only [File.Extend, readBytes_append hr]

theorem File.Read_ok_of_le {f : File} {n o : Nat} (h : o + n ≤ f.GetSize) :
    ∃ x, f.Read n o = .ok x := by
  obtain ⟨x, hx⟩ := readBytes_isSome h
  exact ⟨x, by simp only [File.Read, hx]⟩

theorem File.le_of_Read_ok {f : File} {n o : Nat} {x : Bytes} (h : f.Read n o = .ok x) :
    o + n ≤ f.GetSize ∧ x.length = n := by
  unfold File.Read at h
  cases hr : readBytes f.data o n with
  | none => rw [hr] at h; cases h
  | some y =>
    rw [hr] at h
    injection h with h
    subst h
    obtain ⟨h1, h2, -⟩ := getElem?_of_readBytes hr
    exact ⟨h2, h1⟩

theorem File.ReadU64_eq_ok {f : File} {o v : Nat} (h : f.ReadU64 o = .ok v) :
    ∃ x, f.Read 8 o = .ok x ∧ decodeU64 x = v := by
  unfold File.ReadU64 at h
  cases hr : f.Read 8 o with
  | error e => rw [hr] at h; cases h
  | ok x => rw [hr] at h; injection h with h; exact ⟨x, rfl, h⟩

theorem File.ReadPage_eq_ok {f : File} {o : Nat} {p : Page} (h : f.ReadPage o = .ok p) :
    ∃ x, f.Read sizeofPage o = .ok x ∧ decodePage x = p := by
  unfold File.ReadPage at h
  cases hr : f.Read sizeofPage o with
  | error e => rw [hr] at h; cases h
  | ok x => rw [hr] at h; injection h with h; exact ⟨x, rfl, h⟩

theorem File.ReadU64_WriteU64_same (f : File) (v off : Nat) :
    (f.WriteU64 v off).ReadU64 off = .ok (v % wordMod) := by
  have h := File.Read_Write_same f (encodeU64 v) off
  rw [length_encodeU64] at h
  simp only [File.ReadU64, File.WriteU64, h, decodeU64_encodeU64]

theorem File.ReadPage_WritePage_same (f : File) {p : Page} (hp : p.fits) (off : Nat) :
    (f.WritePage p off).ReadPage off = .ok p := by
  have h := File.Read_Write_same f (encodePage p) off
  rw [length_encodePage] at h
  simp only [File.ReadPage, File.WritePage, sizeofPage, h, decodePage_encodePage hp]

theorem File.ReadU64_Write_disjoint {f : File} {o v : Nat} (h : f.ReadU64 o = .ok v)
    (bs : Bytes) (off : Nat) (hd : o + 8 ≤ off ∨ off + bs.length ≤ o) :
    (f.Write bs off).ReadU64 o = .ok v := by
  obtain ⟨x, hx, hv⟩ := File.ReadU64_eq_ok h
  simp only [File.ReadU64, File.Read_Write_disjoint hx bs off hd, hv]

theorem File.ReadPage_Write_disjoint {f : File} {o : Nat} {p : Page} (h : f.ReadPage o = .ok p)
    (bs : Bytes) (off : Nat) (hd : o + 48 ≤ off ∨ off + bs.length ≤ o) :
    (f.Write bs off).ReadPage o = .ok p := by
  obtain ⟨x, hx, hv⟩ := File.ReadPage_eq_ok h
  simp only [File.ReadPage, File.Read_Write_disjoint hx bs off hd, hv]

theorem File.ReadU64_Extend {f : File} {o v : Nat} (h : f.ReadU64 o = .ok v) (d : Nat) :
    (f.Extend d).ReadU64 o = .ok v := by
  obtain ⟨x, hx, hv⟩ := File.ReadU64_eq_ok h
  simp only [File.ReadU64, File.Read_Extend hx d, hv]

theorem File.ReadPage_Extend {f : File} {o : Nat} {p : Page} (h : f.ReadPage o = .ok p) (d : Nat) :
    (f.Extend d).ReadPage o = .ok p := by
  obtain ⟨x, hx, hv⟩ := File.ReadPage_eq_ok h
  simp only [File.ReadPage, File.Read_Extend hx d, hv]

theorem Page.new_fits {n : Nat} (h : n < wordMod) : (Page.new n).fits := by
  refine ⟨?_, h, h, h, ?_, ?_⟩ <;> simp [Page.new, PageType.toWord, sizeofPage, wordMod]

/-! ## PageAllocator::AllocatePage -/

theorem AllocatePage_of_aligned (kPageSize : Nat) (a : PageAllocator) (file : File)
    (h : subU64 file.GetSize a.pagetable_offset_ % kPageSize = 0) :
    a.AllocatePage kPageSize file =
      (.ok (subU64 (addU64 a.pages_count_ 1) 1),
        { a with pages_count_ := addU64 a.pages_count_ 1 },
        (((file.Extend kPageSize).WritePage (Page.new a.pages_count_) file.GetSize).WriteU64
          (addU64 a.pages_count_ 1) kPagesCountOffset)) := by
  simp only [PageAllocator.AllocatePage, h, ne_eq, not_true_eq_false, if_false]

theorem AllocatePage_of_unaligned (kPageSize : Nat) (a : PageAllocator) (file : File)
    (h : subU64 file.GetSize a.pagetable_offset_ % kPageSize ≠ 0) :
    a.AllocatePage kPageSize file = (.error (.StructureError (str "Unaligned file")), a, file) := by
  simp only [PageAllocator.AllocatePage, h, ne_eq, not_false_eq_true, if_true]

/-- C1. `PageAllocator::AllocatePage` on an aligned file of size `s` with `pages_count_ = n`
returns `n`, leaves a file of size `s + kPageSize` that holds the fresh header
`Page(n)` (index `n`, type `Empty`, both links `n`, `actual_size_ = 0`) at offset
`s`, sets the allocator's count to `n + 1` and stores `n + 1` at
`kPagesCountOffset`; when `s = pagetable_offset_ + n * kPageSize` the header lies
at the page address of `n`.  The file holds the count word of the superblock
(the constructor has read it), `n + 1` is a 64-bit value and a page holds a
header. -/
theorem AllocatePage_postcondition (kPageSize : Nat) (a : PageAllocator) (file : File)
    (haligned : subU64 file.GetSize a.pagetable_offset_ % kPageSize = 0)
    (hcount : a.pages_count_ + 1 < wordMod)
    (hsuper : kPagesCountOffset + sizeofWord ≤ file.GetSize)
    (hpage : sizeofPage ≤ kPageSize) :
    (a.AllocatePage kPageSize file).1 = .ok a.pages_count_ ∧
    (a.AllocatePage kPageSize file).2.2.GetSize = file.GetSize + kPageSize ∧
    (a.AllocatePage kPageSize file).2.2.ReadPage file.GetSize = .ok (Page.new a.pages_count_) ∧
    (Page.new a.pages_count_).index_ = a.pages_count_ ∧
    (Page.new a.pages_count_).type_ = PageType.kEmpty.toWord ∧
    (Page.new a.pages_count_).previous_page_index_ = a.pages_count_ ∧
    (Page.new a.pages_count_).next_page_index_ = a.pages_count_ ∧
    (Page.new a.pages_count_).actual_size_ = 0 ∧
    (a.AllocatePage kPageSize file).2.1.pages_count_ = a.pages_count_ + 1 ∧
    (a.AllocatePage kPageSize file).2.1.pagetable_offset_ = a.pagetable_offset_ ∧
    (a.AllocatePage kPageSize file).2.2.ReadU64 kPagesCountOffset = .ok (a.pages_count_ + 1) ∧
    (file.GetSize = a.pagetable_offset_ + a.pages_count_ * kPageSize → file.GetSize < wordMod →
      (Page.new a.pages_count_).GetPageAddress kPageSize a.pagetable_offset_ = file.GetSize) := by
  have hadd : addU64 a.pages_count_ 1 = a.pages_count_ + 1 := Nat.mod_eq_of_lt hcount
  have hsub : subU64 (a.pages_count_ + 1) 1 = a.pages_count_ := by
    simp only [subU64, wordMod] at hcount ⊢
    omega
  have hk : kPagesCountOffset = 72 := rfl
  have hw : sizeofWord = 8 := rfl
  have hp : sizeofPage = 48 := rfl
  rw [AllocatePage_of_aligned kPageSize a file haligned, hadd, hsub]
  refine ⟨rfl, ?_, ?_, rfl, rfl, rfl, rfl, rfl, rfl, rfl, ?_, ?_⟩
  · simp only [File.WriteU64, File.WritePage, File.GetSize_Write, File.GetSize_Extend,
      length_encodeU64, length_encodePage]
    omega
  · apply File.ReadPage_Write_disjoint
    · exact File.ReadPage_WritePage_same _ (Page.new_fits (by omega)) _
    · right
      rw [length_encodeU64]
      omega
  · have := File.ReadU64_WriteU64_same
      ((file.Extend kPageSize).WritePage (Page.new a.pages_count_) file.GetSize)
      (a.pages_count_ + 1) kPagesCountOffset
    rwa [Nat.mod_eq_of_lt hcount] at this
  · intro hs hlt
    simp only [Page.GetPageAddress, addU64, mulU64, Page.new, Nat.add_mod_mod]
    rw [← hs, Nat.mod_eq_of_lt hlt]

/-- Witness of C1: the first allocation on a file that holds only a superblock. -/
theorem AllocatePage_postcondition_witness :
    subU64 (File.mk "test.data" (List.replicate 136 zeroByte)).GetSize
      (PageAllocator.mk 136 0).pagetable_offset_ % 4096 = 0 ∧
    (PageAllocator.mk 136 0).pages_count_ + 1 < wordMod ∧
    kPagesCountOffset + sizeofWord ≤ (File.mk "test.data" (List.replicate 136 zeroByte)).GetSize ∧
    sizeofPage ≤ 4096 ∧
    (PageAllocator.AllocatePage 4096 (PageAllocator.mk 136 0)
      (File.mk "test.data" (List.replicate 136 zeroByte))).1 = .ok 0 ∧
    (PageAllocator.AllocatePage 4096 (PageAllocator.mk 136 0)
      (File.mk "test.data" (List.replicate 136 zeroByte))).2.2.GetSize = 136 + 4096 ∧
    (Page.new 0).GetPageAddress 4096 136 = 136 := by
  have h0 : subU64 (File.mk "test.data" (List.replicate 136 zeroByte)).GetSize
      (PageAllocator.mk 136 0).pagetable_offset_ % 4096 = 0 := by
    simp [File.GetSize, subU64, wordMod]
  have h1 : (PageAllocator.mk 136 0).pages_count_ + 1 < wordMod := by
    simp [wordMod]
  have h2 : kPagesCountOffset + sizeofWord ≤
      (File.mk "test.data" (List.replicate 136 zeroByte)).GetSize := by
    simp [File.GetSize, kPagesCountOffset, kPagetableOffset, kFreePagesCountOffset,
      kFreeListSentinelOffset, sizeofMagic, sizeofPage, sizeofWord]
  have h3 : sizeofPage ≤ 4096 := by simp [sizeofPage]
  have hs : (File.mk "test.data" (List.replicate 136 zeroByte)).GetSize = 136 := by
    simp [File.GetSize]
  have h := AllocatePage_postcondition 4096 (PageAllocator.mk 136 0)
    (File.mk "test.data" (List.replicate 136 zeroByte)) h0 h1 h2 h3
  refine ⟨h0, h1, h2, h3, h.1, ?_, ?_⟩
  · rw [h.2.1, hs]
  · have ha := h.2.2.2.2.2.2.2.2.2.2.2 (by rw [hs]; rfl) (by rw [hs]; simp [wordMod])
    rw [hs] at ha
    exact ha

/-- C2. `PageAllocator::AllocatePage` throws `StructureError("Unaligned file")` exactly when
`(file_size - pagetable_offset_) % kPageSize` (the subtraction in 64-bit
arithmetic, the plain difference when the origin lies inside the file) is not
zero; it throws nothing else, and when it throws, the file and the allocator
are as before the call. -/
theorem AllocatePage_unaligned_iff (kPageSize : Nat) (a : PageAllocator) (file : File) :
    ((a.AllocatePage kPageSize file).1 = .error (.StructureError (str "Unaligned file")) ↔
      subU64 file.GetSize a.pagetable_offset_ % kPageSize ≠ 0) ∧
    (∀ e, (a.AllocatePage kPageSize file).1 = .error e →
      e = .StructureError (str "Unaligned file") ∧
      (a.AllocatePage kPageSize file).2.2 = file ∧
      (a.AllocatePage kPageSize file).2.2.GetSize = file.GetSize ∧
      (a.AllocatePage kPageSize file).2.1 = a) ∧
    (a.pagetable_offset_ ≤ file.GetSize → file.GetSize < wordMod →
      subU64 file.GetSize a.pagetable_offset_ = file.GetSize - a.pagetable_offset_) := by
  refine ⟨?_, ?_, ?_⟩
  · by_cases h : subU64 file.GetSize a.pagetable_offset_ % kPageSize = 0
    · rw [AllocatePage_of_aligned kPageSize a file h]
      simp [h]
    · rw [AllocatePage_of_unaligned kPageSize a file h]
      simp [h]
  · intro e he
    by_cases h : subU64 file.GetSize a.pagetable_offset_ % kPageSize = 0
    · rw [AllocatePage_of_aligned kPageSize a file h] at he
      cases he
    · rw [AllocatePage_of_unaligned kPageSize a file h] at he ⊢
      injection he with he
      exact ⟨he.symm, rfl, rfl, rfl⟩
  · intro h1 h2
    simp only [subU64, wordMod] at h2 ⊢
    omega

/-! ## Superblock -/

theorem Page.fits_sentinelPage : sentinelPage.fits := by
  refine ⟨?_, ?_, ?_, ?_, ?_, ?_⟩ <;>
    simp [sentinelPage, Page.new, PageType.toWord, sizeofPage, wordMod, kDummyIndex]

/-- The superblock `InitSuperblock` builds. -/
theorem InitSuperblock_fst (this : Superblock) (file : File) :
    (this.InitSuperblock file).1 =
      { free_list_sentinel_ := sentinelPage, free_pages_count_ := 0,
        pagetable_offset_ := sizeofMagic + sizeofSuperblock, pages_count := 0,
        class_list_sentinel_ := sentinelPage, class_list_count_ := 0 } := rfl

theorem InitSuperblock_snd (this : Superblock) (file : File) :
    (this.InitSuperblock file).2 =
      (file.WriteU64 kMagic 0).Write (encodeSuperblock (this.InitSuperblock file).1) sizeofMagic :=
  rfl

theorem decodeSuperblock_encodeSuperblock_init (this : Superblock) (file : File) :
    decodeSuperblock (encodeSuperblock (this.InitSuperblock file).1) =
      (this.InitSuperblock file).1 := by
  rw [InitSuperblock_fst]
  decide

theorem CheckConsistency_InitSuperblock (this : Superblock) (file : File) :
    Superblock.CheckConsistency (this.InitSuperblock file).2 = .ok () := by
  have h1 : (file.WriteU64 kMagic 0).ReadU64 0 = .ok kMagic := by
    rw [File.ReadU64_WriteU64_same]
    rfl
  have h2 := File.ReadU64_Write_disjoint h1 (encodeSuperblock (this.InitSuperblock file).1)
    sizeofMagic (Or.inl (by decide))
  rw [← InitSuperblock_snd] at h2
  simp only [Superblock.CheckConsistency, h2, ne_eq, not_true_eq_false, if_false]

theorem Read_InitSuperblock (this : Superblock) (file : File) :
    (this.InitSuperblock file).2.Read sizeofSuperblock sizeofMagic =
      .ok (encodeSuperblock (this.InitSuperblock file).1) := by
  have h := File.Read_Write_same (file.WriteU64 kMagic 0)
    (encodeSuperblock (this.InitSuperblock file).1) sizeofMagic
  rw [length_encodeSuperblock] at h
  exact h

theorem ReadSuperblock_eq_ok (fresh : Superblock) (file : File) (bs : Bytes)
    (h1 : Superblock.CheckConsistency file = .ok ())
    (h2 : file.Read sizeofSuperblock sizeofMagic = .ok bs) :
    fresh.ReadSuperblock file = .ok (decodeSuperblock bs) := by
  simp only [Superblock.ReadSuperblock, h1, h2]

/-- C7. After `InitSuperblock` on any file and from any prior object, `ReadSuperblock` into
any other object succeeds and yields the superblock `InitSuperblock` left in
memory; the 128 bytes read are the bytes written. -/
theorem ReadSuperblock_InitSuperblock (this fresh : Superblock) (file : File) :
    fresh.ReadSuperblock (this.InitSuperblock file).2 = .ok (this.InitSuperblock file).1 ∧
    (this.InitSuperblock file).2.Read sizeofSuperblock sizeofMagic =
      .ok (encodeSuperblock (this.InitSuperblock file).1) :=
  ⟨(ReadSuperblock_eq_ok fresh _ _ (CheckConsistency_InitSuperblock this file)
      (Read_InitSuperblock this file)).trans
      (congrArg Except.ok (decodeSuperblock_encodeSuperblock_init this file)),
    Read_InitSuperblock this file⟩

/-! ## The constructor -/

theorem InitSuperblock_eq (this : Superblock) (file : File) :
    this.InitSuperblock file =
      (freshSuperblock, (file.WriteU64 kMagic 0).Write (encodeSuperblock freshSuperblock) sizeofMagic) :=
  rfl

theorem InitSuperblock_empty (this : Superblock) (name : String) :
    this.InitSuperblock { filename := name, data := [] } =
      (freshSuperblock, { filename := name, data := freshBytes }) := rfl

theorem ReadSuperblock_error_of_short {file : File} (h : file.GetSize < 8) (this : Superblock) :
    this.ReadSuperblock file = .error (.StructureError (cantOpenMsg file)) := by
  have h1 : readBytes file.data 0 8 = none := readBytes_eq_none (by simpa [File.GetSize] using h)
  simp only [Superblock.ReadSuperblock, Superblock.CheckConsistency, File.ReadU64, File.Read, h1]

theorem OpenSuperblock_default_of_ok {file : File} {sb : Superblock}
    (h : Superblock.uninit.ReadSuperblock file = .ok sb) :
    Database.OpenSuperblock file .kDefault = (.ok sb, file) := by
  simp only [Database.OpenSuperblock, h]

theorem OpenSuperblock_read_of_ok {file : File} {sb : Superblock}
    (h : Superblock.uninit.ReadSuperblock file = .ok sb) :
    Database.OpenSuperblock file .kRead = (.ok sb, file) := by
  simp only [Database.OpenSuperblock, h]

theorem OpenSuperblock_default_of_structureError {file : File} {msg : Bytes}
    (h : Superblock.uninit.ReadSuperblock file = .error (.StructureError msg)) :
    Database.OpenSuperblock file .kDefault =
      (.ok freshSuperblock,
        (file.WriteU64 kMagic 0).Write (encodeSuperblock freshSuperblock) sizeofMagic) := by
  simp only [Database.OpenSuperblock, h, Error.isStructureError, if_true, InitSuperblock_eq]

theorem OpenSuperblock_write (file : File) :
    Database.OpenSuperblock file .kWrite =
      (.ok freshSuperblock, { filename := file.filename, data := freshBytes }) := by
  simp only [Database.OpenSuperblock, File.Clear, InitSuperblock_empty]

/-- The constructor past the open-mode switch. -/
theorem Database.new_of_OpenSuperblock (kPageSize : Nat) {file file1 : File} {mode : OpenMode}
    {sb : Superblock} (h : Database.OpenSuperblock file mode = (.ok sb, file1)) :
    Database.new kPageSize file mode =
      match PageAllocator.new file1 sb.pagetable_offset_ with
      | .error e => (.error e, file1)
      | .ok alloc =>
        match file1.ReadU64 kFreePagesCountOffset with
        | .error e => (.error e, file1)
        | .ok _ =>
          match file1.ReadU64 kClassListCount with
          | .error e => (.error e, file1)
          | .ok _ =>
            match Database.InitializeClassMap kPageSize sb
                { sentinel_offset_ := kClassListSentinelOffset } alloc file1 with
            | .error e => (.error e, file1)
            | .ok class_map =>
              (.ok { superblock_ := sb, free_list_ := { sentinel_offset_ := kFreeListSentinelOffset },
                     class_list_ := { sentinel_offset_ := kClassListSentinelOffset },
                     class_map_ := class_map, alloc_ := alloc, file_ := file1 }, file1) := by
  simp only [Database.new, h]

theorem Database.new_snd_of_OpenSuperblock (kPageSize : Nat) {file file1 : File} {mode : OpenMode}
    {sb : Superblock} (h : Database.OpenSuperblock file mode = (.ok sb, file1)) :
    (Database.new kPageSize file mode).2 = file1 ∧
    ∀ db, (Database.new kPageSize file mode).1 = .ok db → db.file_ = file1 ∧ db.superblock_ = sb := by
  rw [Database.new_of_OpenSuperblock kPageSize h]
  cases hA : PageAllocator.new file1 sb.pagetable_offset_ with
  | error e => exact ⟨rfl, fun db hdb => by cases hdb⟩
  | ok alloc =>
    simp only []
    cases hB : file1.ReadU64 kFreePagesCountOffset with
    | error e => exact ⟨rfl, fun db hdb => by cases hdb⟩
    | ok x =>
      simp only []
      cases hC : file1.ReadU64 kClassListCount with
      | error e => exact ⟨rfl, fun db hdb => by cases hdb⟩
      | ok y =>
        simp only []
        cases hD : Database.InitializeClassMap kPageSize sb
            { sentinel_offset_ := kClassListSentinelOffset } alloc file1 with
        | error e => exact ⟨rfl, fun db hdb => by cases hdb⟩
        | ok m =>
          refine ⟨rfl, fun db hdb => ?_⟩
          simp only [Except.ok.injEq] at hdb
          subst hdb
          exact ⟨rfl, rfl⟩

/-! ## The fresh file -/

set_option maxRecDepth 100000 in
theorem length_freshBytes : freshBytes.length = 136 := by decide

set_option maxRecDepth 100000 in
theorem readBytes_freshBytes_magic : readBytes freshBytes 0 8 = some (encodeU64 kMagic) := by
  decide

set_option maxRecDepth 100000 in
theorem readBytes_freshBytes_superblock :
    readBytes freshBytes 8 128 = some (encodeSuperblock freshSuperblock) := by decide

set_option maxRecDepth 100000 in
theorem readBytes_freshBytes_free_sentinel :
    readBytes freshBytes 8 48 = some (encodePage sentinelPage) := by decide

set_option maxRecDepth 100000 in
theorem readBytes_freshBytes_free_count : readBytes freshBytes 56 8 = some (encodeU64 0) := by
  decide

set_option maxRecDepth 100000 in
theorem readBytes_freshBytes_pages_count : readBytes freshBytes 72 8 = some (encodeU64 0) := by
  decide

set_option maxRecDepth 100000 in
theorem readBytes_freshBytes_class_sentinel :
    readBytes freshBytes 80 48 = some (encodePage sentinelPage) := by decide

set_option maxRecDepth 100000 in
theorem readBytes_freshBytes_class_count : readBytes freshBytes 128 8 = some (encodeU64 0) := by
  decide

theorem decodeU64_encodeU64_zero : decodeU64 (encodeU64 0) = 0 := by decide

theorem ReadU64_fresh_pages_count (name : String) :
    File.ReadU64 { filename := name, data := freshBytes } kPagesCountOffset = .ok 0 := by
  simp only [File.ReadU64, File.Read, kPagesCountOffset, kPagetableOffset, kFreePagesCountOffset,
    kFreeListSentinelOffset, sizeofMagic, sizeofPage, sizeofWord, Nat.reduceAdd,
    readBytes_freshBytes_pages_count, decodeU64_encodeU64_zero]

theorem ReadU64_fresh_free_count (name : String) :
    File.ReadU64 { filename := name, data := freshBytes } kFreePagesCountOffset = .ok 0 := by
  simp only [File.ReadU64, File.Read, kFreePagesCountOffset,
    kFreeListSentinelOffset, sizeofMagic, sizeofPage, Nat.reduceAdd,
    readBytes_freshBytes_free_count, decodeU64_encodeU64_zero]

theorem ReadU64_fresh_class_count (name : String) :
    File.ReadU64 { filename := name, data := freshBytes } kClassListCount = .ok 0 := by
  simp only [File.ReadU64, File.Read, kClassListCount, kClassListSentinelOffset, kPagesCountOffset,
    kPagetableOffset, kFreePagesCountOffset,
    kFreeListSentinelOffset, sizeofMagic, sizeofPage, sizeofWord, Nat.reduceAdd,
    readBytes_freshBytes_class_count, decodeU64_encodeU64_zero]

theorem ReadPage_fresh_free_sentinel (name : String) :
    File.ReadPage { filename := name, data := freshBytes } kFreeListSentinelOffset =
      .ok sentinelPage := by
  simp only [File.ReadPage, File.Read, kFreeListSentinelOffset, sizeofMagic, sizeofPage,
    readBytes_freshBytes_free_sentinel, decodePage_encodePage Page.fits_sentinelPage]

theorem ReadPage_fresh_class_sentinel (name : String) :
    File.ReadPage { filename := name, data := freshBytes } kClassListSentinelOffset =
      .ok sentinelPage := by
  simp only [File.ReadPage, File.Read, kClassListSentinelOffset, kPagesCountOffset,
    kPagetableOffset, kFreePagesCountOffset,
    kFreeListSentinelOffset, sizeofMagic, sizeofPage, sizeofWord, Nat.reduceAdd,
    readBytes_freshBytes_class_sentinel, decodePage_encodePage Page.fits_sentinelPage]

theorem ReadU64_fresh_magic (name : String) :
    File.ReadU64 { filename := name, data := freshBytes } 0 = .ok kMagic := by
  simp only [File.ReadU64, File.Read, readBytes_freshBytes_magic]
  rfl

theorem decodeSuperblock_encodeSuperblock_fresh :
    decodeSuperblock (encodeSuperblock freshSuperblock) = freshSuperblock := by decide

theorem File.Read_of_readBytes {f : File} {n o : Nat} {x : Bytes}
    (h : readBytes f.data o n = some x) : f.Read n o = .ok x := by
  simp only [File.Read, h]

theorem File.ReadU64_of_readBytes {f : File} {o : Nat} {x : Bytes}
    (h : readBytes f.data o 8 = some x) : f.ReadU64 o = .ok (decodeU64 x) := by
  simp only [File.ReadU64, File.Read, h]

theorem File.ReadPage_of_readBytes {f : File} {o : Nat} {x : Bytes}
    (h : readBytes f.data o 48 = some x) : f.ReadPage o = .ok (decodePage x) := by
  simp only [File.ReadPage, File.Read, sizeofPage, h]

theorem CheckConsistency_of_magic {f : File} (h : f.ReadU64 0 = .ok kMagic) :
    Superblock.CheckConsistency f = .ok () := by
  simp only [Superblock.CheckConsistency, h, ne_eq, not_true_eq_false, if_false]

theorem ReadSuperblock_fresh (this : Superblock) (name : String) :
    this.ReadSuperblock { filename := name, data := freshBytes } = .ok freshSuperblock :=
  (ReadSuperblock_eq_ok this _ _ (CheckConsistency_of_magic (ReadU64_fresh_magic name))
    (File.Read_of_readBytes readBytes_freshBytes_superblock)).trans
    (congrArg Except.ok decodeSuperblock_encodeSuperblock_fresh)

theorem InitializeClassMapLoop_dummy (kPageSize : Nat) (sb : Superblock) (l : PageList)
    (alloc : PageAllocator) (file : File) (fuel : Nat) (m : ClassMap) :
    Database.InitializeClassMapLoop kPageSize sb l alloc file (fuel + 1) kDummyIndex m = .ok m := by
  rw [Database.InitializeClassMapLoop, if_pos rfl]

theorem InitializeClassMap_of_sentinel (kPageSize : Nat) (sb : Superblock) (l : PageList)
    (alloc : PageAllocator) (file : File) (s : Page) (h : file.ReadPage l.sentinel_offset_ = .ok s) :
    Database.InitializeClassMap kPageSize sb l alloc file =
      Database.InitializeClassMapLoop kPageSize sb l alloc file (walkFuel file)
        s.next_page_index_ [] := by
  simp only [Database.InitializeClassMap, h]

theorem InitializeClassMap_fresh (kPageSize : Nat) (sb : Superblock) (alloc : PageAllocator)
    (name : String) :
    Database.InitializeClassMap kPageSize sb { sentinel_offset_ := kClassListSentinelOffset } alloc
      { filename := name, data := freshBytes } = .ok [] := by
  have hf : walkFuel { filename := name, data := freshBytes } = 137 + 1 := by
    simp only [walkFuel, File.GetSize, length_freshBytes]
  rw [InitializeClassMap_of_sentinel kPageSize sb { sentinel_offset_ := kClassListSentinelOffset }
    alloc _ sentinelPage (ReadPage_fresh_class_sentinel name), hf]
  exact InitializeClassMapLoop_dummy kPageSize sb _ alloc _ 137 []

theorem PageAllocator.new_of_ReadU64 {file : File} {n : Nat}
    (h : file.ReadU64 kPagesCountOffset = .ok n) (pt : Nat) :
    PageAllocator.new file pt = .ok { pagetable_offset_ := pt, pages_count_ := n } := by
  simp only [PageAllocator.new, h]

/-- The constructor when every step past the open-mode switch succeeds. -/
theorem Database.new_eq_ok (kPageSize : Nat) {file file1 : File} {mode : OpenMode}
    {sb : Superblock} {alloc : PageAllocator} {x y : Nat} {m : ClassMap}
    (h : Database.OpenSuperblock file mode = (.ok sb, file1))
    (hA : PageAllocator.new file1 sb.pagetable_offset_ = .ok alloc)
    (hB : file1.ReadU64 kFreePagesCountOffset = .ok x)
    (hC : file1.ReadU64 kClassListCount = .ok y)
    (hD : Database.InitializeClassMap kPageSize sb
      { sentinel_offset_ := kClassListSentinelOffset } alloc file1 = .ok m) :
    Database.new kPageSize file mode =
      (.ok { superblock_ := sb, free_list_ := { sentinel_offset_ := kFreeListSentinelOffset },
             class_list_ := { sentinel_offset_ := kClassListSentinelOffset },
             class_map_ := m, alloc_ := alloc, file_ := file1 }, file1) := by
  rw [Database.new_of_OpenSuperblock kPageSize h]
  simp only [hA, hB, hC, hD]

theorem Database.new_fresh (kPageSize : Nat) {file : File} {mode : OpenMode} {name : String}
    (h : Database.OpenSuperblock file mode =
      (.ok freshSuperblock, { filename := name, data := freshBytes })) :
    Database.new kPageSize file mode =
      (.ok (freshDatabase name), { filename := name, data := freshBytes }) :=
  Database.new_eq_ok kPageSize h
    (PageAllocator.new_of_ReadU64 (ReadU64_fresh_pages_count name) _)
    (ReadU64_fresh_free_count name) (ReadU64_fresh_class_count name)
    (InitializeClassMap_fresh kPageSize _ _ name)

theorem OpenSuperblock_default_empty (name : String) :
    Database.OpenSuperblock { filename := name, data := [] } .kDefault =
      (.ok freshSuperblock, { filename := name, data := freshBytes }) := by
  rw [OpenSuperblock_default_of_structureError
    (ReadSuperblock_error_of_short (by simp [File.GetSize]) _)]
  rfl

/-- C8. Opening a database in `Default` mode on an empty file throws nothing and leaves a
file that holds the magic `0xDEADBEEF` at offset 0, followed by a superblock (the
one of the handle) whose three counts are 0, whose sentinels have type
`Sentinel`, index `kDummyIndex` and both links equal to that index, and whose
pagetable offset is `sizeof(kMagic) + sizeof(Superblock)`, the size of the file. -/
theorem Database_new_default_empty (kPageSize : Nat) (name : String) :
    ∃ db : Database,
      Database.new kPageSize { filename := name, data := [] } .kDefault = (.ok db, db.file_) ∧
      db.file_.ReadU64 0 = .ok kMagic ∧
      Superblock.uninit.ReadSuperblock db.file_ = .ok db.superblock_ ∧
      db.superblock_.free_pages_count_ = 0 ∧
      db.superblock_.class_list_count_ = 0 ∧
      db.superblock_.pages_count = 0 ∧
      db.superblock_.free_list_sentinel_.type_ = PageType.kSentinel.toWord ∧
      db.superblock_.free_list_sentinel_.index_ = kDummyIndex ∧
      db.superblock_.free_list_sentinel_.previous_page_index_ = kDummyIndex ∧
      db.superblock_.free_list_sentinel_.next_page_index_ = kDummyIndex ∧
      db.superblock_.class_list_sentinel_.type_ = PageType.kSentinel.toWord ∧
      db.superblock_.class_list_sentinel_.index_ = kDummyIndex ∧
      db.superblock_.class_list_sentinel_.previous_page_index_ = kDummyIndex ∧
      db.superblock_.class_list_sentinel_.next_page_index_ = kDummyIndex ∧
      db.superblock_.pagetable_offset_ = sizeofMagic + sizeofSuperblock ∧
      db.superblock_.pagetable_offset_ = db.file_.GetSize ∧
      db.alloc_.pages_count_ = 0 ∧
      db.class_map_ = [] :=
  ⟨freshDatabase name, Database.new_fresh kPageSize (OpenSuperblock_default_empty name),
    ReadU64_fresh_magic name, ReadSuperblock_fresh _ name, rfl, rfl, rfl, rfl, rfl, rfl, rfl, rfl,
    rfl, rfl, rfl, rfl, length_freshBytes.symm, rfl, rfl⟩

set_option maxRecDepth 100000 in
/-- C9, the code at the failing input.  On a 200-byte file that is not a database the read
of the superblock fails with `StructureError`; `Default` mode then writes a fresh
superblock over the first 136 bytes and keeps the other 64, so the file has 200
bytes where `Write` mode leaves 136, and the first `AddClass` on the handle
fails with `StructureError("Unaligned file")`. -/
theorem Database_new_default_garbage :
    Superblock.uninit.ReadSuperblock garbageFile =
      .error (.StructureError (cantOpenMsg garbageFile)) ∧
    (Database.new 4096 garbageFile .kWrite).2.data = freshBytes ∧
    (Database.new 4096 garbageFile .kWrite).2.GetSize = 136 ∧
    (Database.new 4096 garbageFile .kDefault).2.data = freshBytes ++ List.replicate 64 1 ∧
    (Database.new 4096 garbageFile .kDefault).2.GetSize = 200 ∧
    (∃ db, (Database.new 4096 garbageFile .kDefault).1 = .ok db ∧
      db.superblock_ = freshSuperblock ∧ db.alloc_.pages_count_ = 0 ∧ db.class_map_ = [] ∧
      (db.AddClass 4096 personClass).1 = .error (.StructureError (str "Unaligned file"))) :=
  ⟨rfl, by decide, by decide, by decide, by decide, ⟨_, rfl, by decide, by decide, by decide, rfl⟩⟩

/-- C10. On a file whose superblock reads, `Default` mode is `Read` mode: the constructor
gives the same outcome (the same handle: superblock, allocator, class map, or
the same error), the open-mode switch yields the superblock read, and the file
is left as it was. -/
theorem Database_new_default_eq_read (kPageSize : Nat) (file : File) (sb : Superblock)
    (h : Superblock.uninit.ReadSuperblock file = .ok sb) :
    Database.new kPageSize file .kDefault = Database.new kPageSize file .kRead ∧
    Database.OpenSuperblock file .kDefault = (.ok sb, file) ∧
    (Database.new kPageSize file .kDefault).2 = file ∧
    (∀ db, (Database.new kPageSize file .kDefault).1 = .ok db →
      db.file_ = file ∧ db.superblock_ = sb) := by
  have hd := OpenSuperblock_default_of_ok h
  have hr := OpenSuperblock_read_of_ok h
  refine ⟨?_, hd, (Database.new_snd_of_OpenSuperblock kPageSize hd).1,
    (Database.new_snd_of_OpenSuperblock kPageSize hd).2⟩
  rw [Database.new_of_OpenSuperblock kPageSize hd, Database.new_of_OpenSuperblock kPageSize hr]

/-- Witness of C10: the file of a fresh database. -/
theorem Database_new_default_eq_read_witness :
    Superblock.uninit.ReadSuperblock { filename := "test.data", data := freshBytes } =
      .ok freshSuperblock ∧
    Database.new 4096 { filename := "test.data", data := freshBytes } .kDefault =
      Database.new 4096 { filename := "test.data", data := freshBytes } .kRead :=
  ⟨ReadSuperblock_fresh _ _,
    (Database_new_default_eq_read 4096 _ freshSuperblock (ReadSuperblock_fresh _ _)).1⟩

/-! ## Addresses -/

theorem kOrigin_eq : kOrigin = 136 := rfl

theorem mul_page_le {i j : Nat} (h : i ≤ j) (kPageSize : Nat) : i * kPageSize ≤ j * kPageSize :=
  Nat.mul_le_mul_right _ h

theorem succ_mul_page (i kPageSize : Nat) : (i + 1) * kPageSize = i * kPageSize + kPageSize :=
  Nat.succ_mul i kPageSize

theorem GetPageAddress_eq {kPageSize : Nat} {p : Page} {origin : Nat}
    (h : origin + p.index_ * kPageSize < wordMod) :
    p.GetPageAddress kPageSize origin = origin + p.index_ * kPageSize := by
  have h1 : p.index_ * kPageSize < wordMod := by omega
  simp only [Page.GetPageAddress, addU64, mulU64, Nat.mod_eq_of_lt h1, Nat.mod_eq_of_lt h]

theorem GetOffset_eq {kPageSize : Nat} {sb : Superblock} {index virt : Nat}
    (h : sb.pagetable_offset_ + index * kPageSize + virt < wordMod) :
    Database.GetOffset kPageSize sb index virt = sb.pagetable_offset_ + index * kPageSize + virt := by
  have h1 : index * kPageSize < wordMod := by omega
  have h2 : sb.pagetable_offset_ + index * kPageSize < wordMod := by omega
  simp only [Database.GetOffset, addU64, mulU64, Nat.mod_eq_of_lt h1, Nat.mod_eq_of_lt h2,
    Nat.mod_eq_of_lt h]

theorem index_lt_dummy {kPageSize i size : Nat} (hp : 0 < kPageSize)
    (h : kOrigin + (i + 1) * kPageSize ≤ size) (hs : size < wordMod) : i < kDummyIndex := by
  have h1 : i + 1 ≤ (i + 1) * kPageSize := Nat.le_mul_of_pos_right _ hp
  simp only [kDummyIndex, kOrigin_eq] at *
  omega

theorem AddressOf_eq {kPageSize : Nat} {l : PageList} {a : PageAllocator} {i : Nat}
    (hi : i ≠ kDummyIndex) (h : a.pagetable_offset_ + i * kPageSize < wordMod) :
    l.AddressOf kPageSize a i = a.pagetable_offset_ + i * kPageSize := by
  simp only [PageList.AddressOf, hi, if_false]
  exact GetPageAddress_eq h

theorem AddressOf_dummy (kPageSize : Nat) (l : PageList) (a : PageAllocator) :
    l.AddressOf kPageSize a kDummyIndex = l.sentinel_offset_ := by
  simp only [PageList.AddressOf, if_true]

/-! ## Class descriptors on disk -/

theorem ClassObject.Read_ok_bytes {file : File} {o : Nat} {s : Bytes}
    (h : ClassObject.Read file o = .ok { serialized_ := s }) :
    ∃ len, readBytes file.data o sizeofWord = some len ∧ decodeU64 len = s.length ∧
      readBytes file.data (o + sizeofWord) s.length = some s := by
  unfold ClassObject.Read at h
  cases h1 : readBytes file.data o sizeofWord with
  | none => rw [h1] at h; cases h
  | some len =>
    rw [h1] at h
    simp only [] at h
    cases h2 : readBytes file.data (o + sizeofWord) (decodeU64 len) with
    | none => rw [h2] at h; cases h
    | some bs =>
      rw [h2] at h
      simp only [Except.ok.injEq, ClassObject.mk.injEq] at h
      subst h
      have hl := (getElem?_of_readBytes h2).1
      refine ⟨len, rfl, hl.symm, ?_⟩
      rw [hl]
      exact h2

theorem ClassObject.Read_ok_of_readBytes {file : File} {o : Nat} {s len : Bytes}
    (h1 : readBytes file.data o sizeofWord = some len) (h2 : decodeU64 len = s.length)
    (h3 : readBytes file.data (o + sizeofWord) s.length = some s) :
    ClassObject.Read file o = .ok { serialized_ := s } := by
  simp only [ClassObject.Read, h1, h2, h3]

theorem ClassObject.Read_frame_Write {file : File} {o : Nat} {s : Bytes}
    (h : ClassObject.Read file o = .ok { serialized_ := s }) (bs : Bytes) (off : Nat)
    (hd : o + (sizeofWord + s.length) ≤ off ∨ off + bs.length ≤ o) :
    ClassObject.Read (file.Write bs off) o = .ok { serialized_ := s } := by
  obtain ⟨len, h1, h2, h3⟩ := ClassObject.Read_ok_bytes h
  have hw : sizeofWord = 8 := rfl
  apply ClassObject.Read_ok_of_readBytes _ h2
  · exact readBytes_writeBytes_disjoint h3 off bs (by omega)
  · exact readBytes_writeBytes_disjoint h1 off bs (by omega)

theorem ClassObject.Read_frame_Extend {file : File} {o : Nat} {s : Bytes}
    (h : ClassObject.Read file o = .ok { serialized_ := s }) (d : Nat) :
    ClassObject.Read (file.Extend d) o = .ok { serialized_ := s } := by
  obtain ⟨len, h1, h2, h3⟩ := ClassObject.Read_ok_bytes h
  apply ClassObject.Read_ok_of_readBytes _ h2
  · exact readBytes_append h3 _
  · exact readBytes_append h1 _

theorem ClassObject.Read_after_Write (file : File) (o : Nat) (s : Bytes) (hs : s.length < wordMod) :
    ClassObject.Read (ClassObject.Write { serialized_ := s } file o) o =
      .ok { serialized_ := s } := by
  have hw : sizeofWord = 8 := rfl
  refine @ClassObject.Read_ok_of_readBytes _ _ _ (encodeU64 s.length) ?_ ?_ ?_
  · simp only [ClassObject.Write, File.Write, File.WriteU64]
    apply readBytes_writeBytes_disjoint _ _ _ (Or.inl (by omega))
    exact readBytes_writeBytes_same _ _ _
  · exact decodeU64_encodeU64_of_lt hs
  · simp only [ClassObject.Write, File.Write]
    exact readBytes_writeBytes_same _ _ _

theorem ClassObject.GetSize_after_Write (file : File) (o : Nat) (c : ClassObject) :
    (c.Write file o).GetSize = max file.GetSize (o + c.GetSize) := by
  simp only [ClassObject.Write, File.WriteU64, File.GetSize_Write, length_encodeU64,
    ClassObject.GetSize, sizeofWord]
  omega

/-! ## Chains of class pages -/

theorem headIndex_append_singleton (l : List (Nat × Bytes)) (e : Nat × Bytes) (a b : Nat) :
    headIndex (l ++ [e]) a = headIndex (l ++ [e]) b := by
  cases l <;> rfl

theorem headIndex_append_of_ne_nil {l : List (Nat × Bytes)} (h : l ≠ []) (m : List (Nat × Bytes))
    (a b : Nat) : headIndex (l ++ m) a = headIndex l b := by
  cases l with
  | nil => exact absurd rfl h
  | cons e l => rfl

theorem lastIndex_append_singleton (l : List (Nat × Bytes)) (e : Nat × Bytes) (a : Nat) :
    lastIndex (l ++ [e]) a = e.1 := by
  simp only [lastIndex, List.foldl_append, List.foldl_cons, List.foldl_nil]

theorem Chain.Write_disjoint {kPageSize : Nat} {file : File} {classes : List (Nat × Bytes)}
    {last : Nat} (h : Chain kPageSize file classes last) (bs : Bytes) (off : Nat)
    (hd : ∀ e ∈ classes, off + bs.length ≤ kOrigin + e.1 * kPageSize ∨
      kOrigin + (e.1 + 1) * kPageSize ≤ off) :
    Chain kPageSize (file.Write bs off) classes last := by
  induction classes with
  | nil => trivial
  | cons e rest ih =>
    obtain ⟨h1, h2, ⟨p, hp, hp1, hp2, hp3⟩, h4, h5⟩ := h
    have hde := hd e (List.mem_cons_self _ _)
    have hm := succ_mul_page e.1 kPageSize
    have hc : sizeofClassHeader = 112 := rfl
    have hw : sizeofWord = 8 := rfl
    refine ⟨?_, h2, ⟨p, ?_, hp1, hp2, hp3⟩, ?_, ih h5 (fun x hx => hd x (List.mem_cons_of_mem _ hx))⟩
    · rw [File.GetSize_Write]
      omega
    · exact File.ReadPage_Write_disjoint hp bs off (by omega)
    · exact ClassObject.Read_frame_Write h4 bs off (by omega)

theorem Chain.Extend {kPageSize : Nat} {file : File} {classes : List (Nat × Bytes)}
    {last : Nat} (h : Chain kPageSize file classes last) (d : Nat) :
    Chain kPageSize (file.Extend d) classes last := by
  induction classes with
  | nil => trivial
  | cons e rest ih =>
    obtain ⟨h1, h2, ⟨p, hp, hp1, hp2, hp3⟩, h4, h5⟩ := h
    refine ⟨?_, h2, ⟨p, File.ReadPage_Extend hp d, hp1, hp2, hp3⟩, ClassObject.Read_frame_Extend h4 d,
      ih h5⟩
    rw [File.GetSize_Extend]
    omega

theorem File.ReadPage_ok_fits {f : File} {o : Nat} {p : Page} (h : f.ReadPage o = .ok p) :
    p.fits := by
  obtain ⟨x, -, hx⟩ := File.ReadPage_eq_ok h
  rw [← hx]
  exact decodePage_fits x

theorem Chain.set_last {kPageSize : Nat} {file : File} {classes : List (Nat × Bytes)}
    {t : Nat} {s : Bytes} {last j : Nat} {tail_page : Page}
    (h : Chain kPageSize file (classes ++ [(t, s)]) last)
    (hlt : ∀ e ∈ classes, e.1 < t) (hj : j < wordMod)
    (hT : file.ReadPage (kOrigin + t * kPageSize) = .ok tail_page) :
    Chain kPageSize
      (file.WritePage { tail_page with next_page_index_ := j } (kOrigin + t * kPageSize))
      (classes ++ [(t, s)]) j := by
  have hp48 : sizeofPage = 48 := rfl
  have hc : sizeofClassHeader = 112 := rfl
  have hw : sizeofWord = 8 := rfl
  induction classes with
  | nil =>
    obtain ⟨h1, h2, ⟨p, hp, hp1, hp2, hp3⟩, h4, -⟩ := h
    simp only at h1 h2 hp hp1 hp2 h4
    have hm := succ_mul_page t kPageSize
    have hpt : p = tail_page := by
      rw [hp] at hT
      exact Except.ok.inj hT
    subst hpt
    have hfits : ({ p with next_page_index_ := j } : Page).fits := by
      obtain ⟨f1, f2, f3, f4, f5, f6⟩ := File.ReadPage_ok_fits hp
      exact ⟨f1, f2, f3, hj, f5, f6⟩
    refine ⟨?_, h2, ⟨_, File.ReadPage_WritePage_same file hfits _, hp1, hp2, rfl⟩, ?_, trivial⟩
    · simp only [File.WritePage, File.GetSize_Write, length_encodePage]
      omega
    · exact ClassObject.Read_frame_Write h4 _ _ (Or.inr (by rw [length_encodePage]; omega))
  | cons e rest ih =>
    obtain ⟨h1, h2, ⟨p, hp, hp1, hp2, hp3⟩, h4, h5⟩ := h
    have he : e.1 < t := hlt e (List.mem_cons_self _ _)
    have hm := succ_mul_page e.1 kPageSize
    have hle := mul_page_le (show e.1 + 1 ≤ t by omega) kPageSize
    have hmt := succ_mul_page t kPageSize
    refine ⟨?_, h2, ⟨p, ?_, hp1, hp2, ?_⟩, ?_,
      ih h5 (fun x hx => hlt x (List.mem_cons_of_mem _ hx))⟩
    · simp only [File.WritePage, File.GetSize_Write, length_encodePage]
      omega
    · exact File.ReadPage_Write_disjoint hp _ _ (Or.inl (by omega))
    · rw [hp3]
      exact headIndex_append_singleton _ _ _ _
    · exact ClassObject.Read_frame_Write h4 _ _ (Or.inl (by omega))

theorem Chain.concat {kPageSize : Nat} {file : File} {classes : List (Nat × Bytes)}
    {e : Nat × Bytes} {last : Nat} (h : Chain kPageSize file classes e.1)
    (hnew : Chain kPageSize file [e] last) : Chain kPageSize file (classes ++ [e]) last := by
  induction classes with
  | nil => exact hnew
  | cons x rest ih =>
    obtain ⟨h1, h2, ⟨p, hp, hp1, hp2, hp3⟩, h4, h5⟩ := h
    refine ⟨h1, h2, ⟨p, hp, hp1, hp2, ?_⟩, h4, ih h5⟩
    rw [hp3]
    cases rest <;> rfl

theorem Chain.last_irrelevant_nil (kPageSize : Nat) (file : File) (a : Nat) :
    Chain kPageSize file [] a := trivial

theorem Chain.mem {kPageSize : Nat} {file : File} {classes : List (Nat × Bytes)} {last : Nat}
    (h : Chain kPageSize file classes last) {e : Nat × Bytes} (he : e ∈ classes) :
    kOrigin + (e.1 + 1) * kPageSize ≤ file.GetSize := by
  induction classes with
  | nil => cases he
  | cons x rest ih =>
    rcases List.mem_cons.mp he with rfl | hr
    · exact h.1
    · exact ih h.2.2.2.2 hr

/-- The tail page of a non-empty chain. -/
theorem Chain.tail_page {kPageSize : Nat} {file : File} {classes : List (Nat × Bytes)}
    {t : Nat} {s : Bytes} {last : Nat} (h : Chain kPageSize file (classes ++ [(t, s)]) last) :
    kOrigin + (t + 1) * kPageSize ≤ file.GetSize ∧
    ∃ p, file.ReadPage (kOrigin + t * kPageSize) = .ok p := by
  induction classes with
  | nil =>
    obtain ⟨h1, -, ⟨p, hp, -⟩, -⟩ := h
    exact ⟨h1, p, hp⟩
  | cons x rest ih => exact ih h.2.2.2.2

/-! ## One allocation on a handle opened in Write mode -/

/-- The offsets and sizes of the layout, as numbers. -/
theorem layout :
    kFreeListSentinelOffset = 8 ∧ kFreePagesCountOffset = 56 ∧ kPagetableOffset = 64 ∧
    kPagesCountOffset = 72 ∧ kClassListSentinelOffset = 80 ∧ kClassListCount = 128 ∧
    kOrigin = 136 ∧ sizeofPage = 48 ∧ sizeofWord = 8 ∧ sizeofClassHeader = 112 ∧
    sizeofMagic = 8 ∧ sizeofSuperblock = 128 ∧ wordMod = 18446744073709551616 ∧
    kDummyIndex = 18446744073709551615 :=
  ⟨rfl, rfl, rfl, rfl, rfl, rfl, rfl, rfl, rfl, rfl, rfl, rfl, rfl, rfl⟩

theorem IsEmpty_of_sentinel {l : PageList} {file : File} {s : Page}
    (h : file.ReadPage l.sentinel_offset_ = .ok s) (hn : s.next_page_index_ = kDummyIndex) :
    l.IsEmpty file = .ok true := by
  simp only [PageList.IsEmpty, h, hn, true_or, decide_True]

theorem subU64_origin {n kPageSize size : Nat} (h : size = kOrigin + n * kPageSize)
    (hs : size < wordMod) : subU64 size kOrigin % kPageSize = 0 := by
  have h1 : subU64 size kOrigin = n * kPageSize := by
    simp only [subU64, kOrigin_eq, wordMod] at *
    omega
  rw [h1]
  exact Nat.mul_mod_left _ _

theorem Inv.count_succ_lt {kPageSize : Nat} {db : Database} {classes : List (Nat × Bytes)}
    (h : Inv kPageSize db classes) (hps : sizeofClassHeader ≤ kPageSize)
    (hfit : db.file_.GetSize + kPageSize < wordMod) :
    db.alloc_.pages_count_ + 1 < kDummyIndex := by
  have h1 := h.size
  have hc : sizeofClassHeader = 112 := rfl
  have h2 : db.alloc_.pages_count_ + 1 ≤ (db.alloc_.pages_count_ + 1) * kPageSize :=
    Nat.le_mul_of_pos_right _ (by omega)
  have h3 := succ_mul_page db.alloc_.pages_count_ kPageSize
  simp only [kDummyIndex, kOrigin_eq, wordMod] at *
  omega

theorem Inv.AllocatePage_eq {kPageSize : Nat} {db : Database} {classes : List (Nat × Bytes)}
    (h : Inv kPageSize db classes) (hps : sizeofClassHeader ≤ kPageSize)
    (hfit : db.file_.GetSize + kPageSize < wordMod) :
    db.AllocatePage kPageSize = (.ok db.alloc_.pages_count_, db.afterAllocate kPageSize) := by
  obtain ⟨s, hs, hn⟩ := h.free_sentinel
  rw [← h.free_list] at hs
  have hlt := h.count_succ_lt hps hfit
  have hadd : addU64 db.alloc_.pages_count_ 1 = db.alloc_.pages_count_ + 1 :=
    Nat.mod_eq_of_lt (by simp only [kDummyIndex] at hlt; omega)
  have hsub : subU64 (db.alloc_.pages_count_ + 1) 1 = db.alloc_.pages_count_ := by
    simp only [subU64, wordMod, kDummyIndex] at hlt ⊢
    omega
  have hal : subU64 db.file_.GetSize db.alloc_.pagetable_offset_ % kPageSize = 0 := by
    rw [h.alloc_origin]
    exact subU64_origin h.size h.fits
  simp only [Database.AllocatePage, IsEmpty_of_sentinel hs hn,
    AllocatePage_of_aligned kPageSize db.alloc_ db.file_ hal, hadd, hsub, Database.afterAllocate]

theorem Inv.afterAllocate {kPageSize : Nat} {db : Database} {classes : List (Nat × Bytes)}
    (h : Inv kPageSize db classes) (hps : sizeofClassHeader ≤ kPageSize)
    (hfit : db.file_.GetSize + kPageSize < wordMod) :
    Inv kPageSize (db.afterAllocate kPageSize) classes ∧
    (db.afterAllocate kPageSize).file_.ReadPage db.file_.GetSize =
      .ok (Page.new db.alloc_.pages_count_) := by
  have hlt := h.count_succ_lt hps hfit
  have hsize := h.size
  have hl := layout
  have hm := succ_mul_page db.alloc_.pages_count_ kPageSize
  have hnew : ((db.file_.Extend kPageSize).WritePage (Page.new db.alloc_.pages_count_)
      db.file_.GetSize).ReadPage db.file_.GetSize = .ok (Page.new db.alloc_.pages_count_) :=
    File.ReadPage_WritePage_same _ (Page.new_fits (by simp only [kDummyIndex] at hlt; omega)) _
  have hsz : (db.afterAllocate kPageSize).file_.GetSize =
      kOrigin + (db.alloc_.pages_count_ + 1) * kPageSize := by
    simp only [Database.afterAllocate, File.WriteU64, File.WritePage, File.GetSize_Write,
      File.GetSize_Extend, length_encodeU64, length_encodePage]
    omega
  refine ⟨?_, ?_⟩
  · refine
      { superblock_origin := h.superblock_origin
        alloc_origin := h.alloc_origin
        free_list := h.free_list
        class_list := h.class_list
        size := hsz
        fits := ?_
        pages_count := ?_
        free_sentinel := ?_
        class_sentinel := ?_
        class_count := ?_
        chain := ?_
        sorted := h.sorted
        below := fun e he => Nat.lt_succ_of_lt (h.below e he)
        length_le := Nat.le_succ_of_le h.length_le
        keys := h.keys
        class_map := h.class_map }
    · rw [hsz]
      omega
    · have := File.ReadU64_WriteU64_same
        ((db.file_.Extend kPageSize).WritePage (Page.new db.alloc_.pages_count_) db.file_.GetSize)
        (db.alloc_.pages_count_ + 1) kPagesCountOffset
      rwa [Nat.mod_eq_of_lt (by simp only [kDummyIndex] at hlt; omega)] at this
    · obtain ⟨s, hs, hn⟩ := h.free_sentinel
      refine ⟨s, ?_, hn⟩
      apply File.ReadPage_Write_disjoint _ _ _ (Or.inl (by omega))
      apply File.ReadPage_Write_disjoint _ _ _ (Or.inl (by omega))
      exact File.ReadPage_Extend hs _
    · obtain ⟨s, hs, hn⟩ := h.class_sentinel
      refine ⟨s, ?_, hn⟩
      apply File.ReadPage_Write_disjoint _ _ _ (Or.inr (by rw [length_encodeU64]; omega))
      apply File.ReadPage_Write_disjoint _ _ _ (Or.inl (by omega))
      exact File.ReadPage_Extend hs _
    · apply File.ReadU64_Write_disjoint _ _ _ (Or.inr (by rw [length_encodeU64]; omega))
      apply File.ReadU64_Write_disjoint _ _ _ (Or.inl (by omega))
      exact File.ReadU64_Extend h.class_count _
    · apply Chain.Write_disjoint _ _ _ (fun e _ => Or.inl (by rw [length_encodeU64]; omega))
      apply Chain.Write_disjoint _ _ _ (fun e he => Or.inr ?_)
      · exact Chain.Extend h.chain _
      · have := mul_page_le (show e.1 + 1 ≤ db.alloc_.pages_count_ from h.below e he) kPageSize
        omega
  · exact File.ReadPage_Write_disjoint hnew _ _
      (Or.inr (by rw [length_encodeU64]; omega))

/-! ## PushBack of a new page on the class list -/

theorem headIndex_concat (l : List (Nat × Bytes)) (e : Nat × Bytes) (a : Nat) :
    headIndex (l ++ [e]) a = headIndex l e.1 := by
  cases l <;> rfl

/-- What `PushBack` leaves in the file, stage by stage, when every read succeeds. -/
theorem PushBack_eq_ok {kPageSize : Nat} {l : PageList} {a : PageAllocator}
    {file f1 f2 f3 : File} {index A B O : Nat} {sentinel page tail_page sentinel1 : Page}
    {count : Nat}
    (hO : l.sentinel_offset_ = O) (hA : l.AddressOf kPageSize a index = A)
    (hB : l.AddressOf kPageSize a sentinel.previous_page_index_ = B)
    (h1 : file.ReadPage O = .ok sentinel) (h2 : file.ReadPage A = .ok page)
    (e1 : f1 = file.WritePage
      { page with previous_page_index_ := sentinel.previous_page_index_,
                  next_page_index_ := kDummyIndex } A)
    (h3 : f1.ReadPage B = .ok tail_page)
    (e2 : f2 = f1.WritePage { tail_page with next_page_index_ := index } B)
    (h4 : f2.ReadPage O = .ok sentinel1)
    (e3 : f3 = f2.WritePage { sentinel1 with previous_page_index_ := index } O)
    (h5 : f3.ReadU64 (O + sizeofPage) = .ok count) :
    l.PushBack kPageSize a file index =
      (.ok (), f3.WriteU64 (addU64 count 1) (O + sizeofPage)) := by
  subst hO hA hB
  subst e1
  subst e2
  subst e3
  simp only [PageList.PushBack, h1, h2, h3, h4, PageList.GetPagesCount, GetCountFromSentinel, h5]

theorem Page.fits_set_next {p : Page} (h : p.fits) {n : Nat} (hn : n < wordMod) :
    ({ p with next_page_index_ := n } : Page).fits := by
  obtain ⟨a, b, c, -, e, f⟩ := h
  exact ⟨a, b, c, hn, e, f⟩

theorem Page.fits_set_prev {p : Page} (h : p.fits) {n : Nat} (hn : n < wordMod) :
    ({ p with previous_page_index_ := n } : Page).fits := by
  obtain ⟨a, b, -, d, e, f⟩ := h
  exact ⟨a, b, hn, d, e, f⟩

theorem Page.fits_set_links {p : Page} (h : p.fits) {m n : Nat} (hm : m < wordMod)
    (hn : n < wordMod) :
    ({ p with previous_page_index_ := m, next_page_index_ := n } : Page).fits := by
  obtain ⟨a, b, -, -, e, f⟩ := h
  exact ⟨a, b, hm, hn, e, f⟩

theorem File.GetSize_WritePage_inside {f : File} {off : Nat} (p : Page)
    (h : off + 48 ≤ f.GetSize) : (f.WritePage p off).GetSize = f.GetSize := by
  simp only [File.WritePage, File.GetSize_Write, length_encodePage]
  omega

theorem File.GetSize_WriteU64_inside {f : File} {off : Nat} (v : Nat)
    (h : off + 8 ≤ f.GetSize) : (f.WriteU64 v off).GetSize = f.GetSize := by
  simp only [File.WriteU64, File.GetSize_Write, length_encodeU64]
  omega

theorem File.ReadPage_WritePage_disjoint {f : File} {o : Nat} {p : Page}
    (h : f.ReadPage o = .ok p) (q : Page) (off : Nat) (hd : o + 48 ≤ off ∨ off + 48 ≤ o) :
    (f.WritePage q off).ReadPage o = .ok p :=
  File.ReadPage_Write_disjoint h _ _ (by rw [length_encodePage]; exact hd)

theorem File.ReadPage_WriteU64_disjoint {f : File} {o : Nat} {p : Page}
    (h : f.ReadPage o = .ok p) (v : Nat) (off : Nat) (hd : o + 48 ≤ off ∨ off + 8 ≤ o) :
    (f.WriteU64 v off).ReadPage o = .ok p :=
  File.ReadPage_Write_disjoint h _ _ (by rw [length_encodeU64]; exact hd)

theorem File.ReadU64_WritePage_disjoint {f : File} {o v : Nat}
    (h : f.ReadU64 o = .ok v) (q : Page) (off : Nat) (hd : o + 8 ≤ off ∨ off + 48 ≤ o) :
    (f.WritePage q off).ReadU64 o = .ok v :=
  File.ReadU64_Write_disjoint h _ _ (by rw [length_encodePage]; exact hd)

theorem File.ReadU64_WriteU64_disjoint {f : File} {o v : Nat}
    (h : f.ReadU64 o = .ok v) (w : Nat) (off : Nat) (hd : o + 8 ≤ off ∨ off + 8 ≤ o) :
    (f.WriteU64 w off).ReadU64 o = .ok v :=
  File.ReadU64_Write_disjoint h _ _ (by rw [length_encodeU64]; exact hd)

theorem Chain.WritePage_disjoint {kPageSize : Nat} {file : File} {classes : List (Nat × Bytes)}
    {last : Nat} (h : Chain kPageSize file classes last) (q : Page) (off : Nat)
    (hd : ∀ e ∈ classes, off + 48 ≤ kOrigin + e.1 * kPageSize ∨
      kOrigin + (e.1 + 1) * kPageSize ≤ off) :
    Chain kPageSize (file.WritePage q off) classes last :=
  Chain.Write_disjoint h _ _ (by rw [length_encodePage]; exact hd)

theorem Chain.WriteU64_disjoint {kPageSize : Nat} {file : File} {classes : List (Nat × Bytes)}
    {last : Nat} (h : Chain kPageSize file classes last) (v : Nat) (off : Nat)
    (hd : ∀ e ∈ classes, off + 8 ≤ kOrigin + e.1 * kPageSize ∨
      kOrigin + (e.1 + 1) * kPageSize ≤ off) :
    Chain kPageSize (file.WriteU64 v off) classes last :=
  Chain.Write_disjoint h _ _ (by rw [length_encodeU64]; exact hd)

/-- `PushBack` of the page `n` on an empty class list. -/
theorem PushBack_class_nil {kPageSize : Nat} {l : PageList} {a : PageAllocator} {file : File}
    {n : Nat} {page sentinel : Page}
    (hl : l.sentinel_offset_ = kClassListSentinelOffset)
    (ha : a.pagetable_offset_ = kOrigin)
    (hsize : kOrigin + (n + 1) * kPageSize ≤ file.GetSize) (hfits : file.GetSize < wordMod)
    (hps : sizeofClassHeader ≤ kPageSize)
    (hS : file.ReadPage kClassListSentinelOffset = .ok sentinel)
    (hprev : sentinel.previous_page_index_ = kDummyIndex)
    (hcount : file.ReadU64 kClassListCount = .ok 0)
    (hP : file.ReadPage (kOrigin + n * kPageSize) = .ok page) :
    ∃ file1, l.PushBack kPageSize a file n = (.ok (), file1) ∧ file1.GetSize = file.GetSize ∧
      file1.ReadPage kClassListSentinelOffset =
        .ok { sentinel with next_page_index_ := n, previous_page_index_ := n } ∧
      file1.ReadU64 kClassListCount = .ok 1 ∧
      file1.ReadPage (kOrigin + n * kPageSize) =
        .ok { page with previous_page_index_ := kDummyIndex, next_page_index_ := kDummyIndex } ∧
      (∀ o p, o + 48 ≤ kClassListSentinelOffset → file.ReadPage o = .ok p →
        file1.ReadPage o = .ok p) ∧
      (∀ o v, o + 8 ≤ kClassListSentinelOffset → file.ReadU64 o = .ok v →
        file1.ReadU64 o = .ok v) := by
  have hy := layout
  have hm := succ_mul_page n kPageSize
  have hn : n < kDummyIndex := index_lt_dummy (by omega) hsize hfits
  have hA : l.AddressOf kPageSize a n = kOrigin + n * kPageSize := by
    rw [AddressOf_eq (Nat.ne_of_lt hn) (by rw [ha]; omega), ha]
  have hD : l.AddressOf kPageSize a kDummyIndex = kClassListSentinelOffset := by
    rw [AddressOf_dummy, hl]
  have hSf := File.ReadPage_ok_fits hS
  have hPf := File.ReadPage_ok_fits hP
  have hd : kDummyIndex < wordMod := by omega
  have hnw : n < wordMod := by omega
  obtain ⟨f1, e1⟩ : ∃ f1, f1 = file.WritePage
      { page with previous_page_index_ := sentinel.previous_page_index_,
                  next_page_index_ := kDummyIndex }
      (kOrigin + n * kPageSize) := ⟨_, rfl⟩
  obtain ⟨f2, e2⟩ : ∃ f2, f2 = f1.WritePage { sentinel with next_page_index_ := n }
      kClassListSentinelOffset := ⟨_, rfl⟩
  obtain ⟨f3, e3⟩ : ∃ f3, f3 = f2.WritePage
      { ({ sentinel with next_page_index_ := n } : Page) with previous_page_index_ := n }
      kClassListSentinelOffset := ⟨_, rfl⟩
  have s1 : f1.GetSize = file.GetSize := by
    rw [e1]; exact File.GetSize_WritePage_inside _ (by omega)
  have s2 : f2.GetSize = file.GetSize := by
    rw [e2, ← s1]; exact File.GetSize_WritePage_inside _ (by omega)
  have s3 : f3.GetSize = file.GetSize := by
    rw [e3, ← s2]; exact File.GetSize_WritePage_inside _ (by omega)
  have r1 : f1.ReadPage kClassListSentinelOffset = .ok sentinel := by
    rw [e1]; exact File.ReadPage_WritePage_disjoint hS _ _ (Or.inl (by omega))
  have p1 : f1.ReadPage (kOrigin + n * kPageSize) =
      .ok { page with previous_page_index_ := kDummyIndex, next_page_index_ := kDummyIndex } := by
    rw [e1, hprev]
    exact File.ReadPage_WritePage_same _ (Page.fits_set_links hPf hd hd) _
  have r2 : f2.ReadPage kClassListSentinelOffset = .ok { sentinel with next_page_index_ := n } := by
    rw [e2]
    exact File.ReadPage_WritePage_same _ (Page.fits_set_next hSf hnw) _
  have r3 : f3.ReadPage kClassListSentinelOffset =
      .ok { sentinel with next_page_index_ := n, previous_page_index_ := n } := by
    rw [e3]
    exact File.ReadPage_WritePage_same _ (Page.fits_set_prev (Page.fits_set_next hSf hnw) hnw) _
  have c1 : f1.ReadU64 kClassListCount = .ok 0 := by
    rw [e1]; exact File.ReadU64_WritePage_disjoint hcount _ _ (Or.inl (by omega))
  have c2 : f2.ReadU64 kClassListCount = .ok 0 := by
    rw [e2]; exact File.ReadU64_WritePage_disjoint c1 _ _ (Or.inr (by omega))
  have c3 : f3.ReadU64 kClassListCount = .ok 0 := by
    rw [e3]; exact File.ReadU64_WritePage_disjoint c2 _ _ (Or.inr (by omega))
  have p2 := File.ReadPage_WritePage_disjoint p1 { sentinel with next_page_index_ := n }
    kClassListSentinelOffset (Or.inr (by omega))
  rw [← e2] at p2
  have p3 := File.ReadPage_WritePage_disjoint p2
    { sentinel with next_page_index_ := n, previous_page_index_ := n }
    kClassListSentinelOffset (Or.inr (by omega))
  rw [← e3] at p3
  have key : l.PushBack kPageSize a file n =
      (.ok (), f3.WriteU64 (addU64 0 1) (kClassListSentinelOffset + sizeofPage)) :=
    PushBack_eq_ok hl hA (by rw [hprev]; exact hD) hS hP e1 r1 e2 r2 e3 c3
  refine ⟨_, key, ?_, ?_, ?_, ?_, ?_, ?_⟩
  · rw [← s3]; exact File.GetSize_WriteU64_inside _ (by omega)
  · exact File.ReadPage_WriteU64_disjoint r3 _ _ (Or.inl (by omega))
  · exact File.ReadU64_WriteU64_same f3 (addU64 0 1) kClassListCount
  · exact File.ReadPage_WriteU64_disjoint p3 _ _ (Or.inr (by omega))
  · intro o p ho hp
    apply File.ReadPage_WriteU64_disjoint _ _ _ (Or.inl (by omega))
    rw [e3, e2, e1]
    apply File.ReadPage_WritePage_disjoint _ _ _ (Or.inl (by omega))
    apply File.ReadPage_WritePage_disjoint _ _ _ (Or.inl (by omega))
    exact File.ReadPage_WritePage_disjoint hp _ _ (Or.inl (by omega))
  · intro o v ho hv
    apply File.ReadU64_WriteU64_disjoint _ _ _ (Or.inl (by omega))
    rw [e3, e2, e1]
    apply File.ReadU64_WritePage_disjoint _ _ _ (Or.inl (by omega))
    apply File.ReadU64_WritePage_disjoint _ _ _ (Or.inl (by omega))
    exact File.ReadU64_WritePage_disjoint hv _ _ (Or.inl (by omega))

/-- `PushBack` of the page `n` on a class list whose tail is the page `t`. -/
theorem PushBack_class_concat {kPageSize : Nat} {l : PageList} {a : PageAllocator} {file : File}
    {n t : Nat} {st : Bytes} {classes : List (Nat × Bytes)} {page sentinel : Page}
    (hl : l.sentinel_offset_ = kClassListSentinelOffset)
    (ha : a.pagetable_offset_ = kOrigin)
    (hsize : kOrigin + (n + 1) * kPageSize ≤ file.GetSize) (hfits : file.GetSize < wordMod)
    (hps : sizeofClassHeader ≤ kPageSize)
    (hS : file.ReadPage kClassListSentinelOffset = .ok sentinel)
    (hprev : sentinel.previous_page_index_ = t)
    (hcount : file.ReadU64 kClassListCount = .ok (classes ++ [(t, st)]).length)
    (hlen : (classes ++ [(t, st)]).length < n + 1)
    (hchain : Chain kPageSize file (classes ++ [(t, st)]) kDummyIndex)
    (hsorted : ∀ e ∈ classes, e.1 < t) (htn : t < n)
    (hP : file.ReadPage (kOrigin + n * kPageSize) = .ok page) :
    ∃ file1, l.PushBack kPageSize a file n = (.ok (), file1) ∧ file1.GetSize = file.GetSize ∧
      file1.ReadPage kClassListSentinelOffset =
        .ok { sentinel with previous_page_index_ := n } ∧
      file1.ReadU64 kClassListCount = .ok ((classes ++ [(t, st)]).length + 1) ∧
      Chain kPageSize file1 (classes ++ [(t, st)]) n ∧
      file1.ReadPage (kOrigin + n * kPageSize) =
        .ok { page with previous_page_index_ := t, next_page_index_ := kDummyIndex } ∧
      (∀ o p, o + 48 ≤ kClassListSentinelOffset → file.ReadPage o = .ok p →
        file1.ReadPage o = .ok p) ∧
      (∀ o v, o + 8 ≤ kClassListSentinelOffset → file.ReadU64 o = .ok v →
        file1.ReadU64 o = .ok v) := by
  have hy := layout
  have hm := succ_mul_page n kPageSize
  have hmt := succ_mul_page t kPageSize
  have htl := mul_page_le (show t + 1 ≤ n by omega) kPageSize
  have hn : n < kDummyIndex := index_lt_dummy (by omega) hsize hfits
  have hnw : n < wordMod := by omega
  have hd : kDummyIndex < wordMod := by omega
  have htd : t ≠ kDummyIndex := by omega
  have hA : l.AddressOf kPageSize a n = kOrigin + n * kPageSize := by
    rw [AddressOf_eq (Nat.ne_of_lt hn) (by rw [ha]; omega), ha]
  have hB : l.AddressOf kPageSize a sentinel.previous_page_index_ = kOrigin + t * kPageSize := by
    rw [hprev, AddressOf_eq htd (by rw [ha]; omega), ha]
  have hSf := File.ReadPage_ok_fits hS
  have hPf := File.ReadPage_ok_fits hP
  obtain ⟨-, tail_page, hT⟩ := hchain.tail_page
  obtain ⟨f1, e1⟩ : ∃ f1, f1 = file.WritePage
      { page with previous_page_index_ := sentinel.previous_page_index_,
                  next_page_index_ := kDummyIndex }
      (kOrigin + n * kPageSize) := ⟨_, rfl⟩
  obtain ⟨f2, e2⟩ : ∃ f2, f2 = f1.WritePage { tail_page with next_page_index_ := n }
      (kOrigin + t * kPageSize) := ⟨_, rfl⟩
  obtain ⟨f3, e3⟩ : ∃ f3, f3 = f2.WritePage { sentinel with previous_page_index_ := n }
      kClassListSentinelOffset := ⟨_, rfl⟩
  have hbelow : ∀ e ∈ classes ++ [(t, st)], e.1 < n := by
    intro e he
    rcases List.mem_append.mp he with h | h
    · exact Nat.lt_trans (hsorted e h) htn
    · rw [List.mem_singleton.mp h]; exact htn
  have hreg : ∀ e ∈ classes ++ [(t, st)], kOrigin + (e.1 + 1) * kPageSize ≤ kOrigin + n * kPageSize :=
    fun e he => Nat.add_le_add_left (mul_page_le (hbelow e he) kPageSize) _
  have s1 : f1.GetSize = file.GetSize := by
    rw [e1]; exact File.GetSize_WritePage_inside _ (by omega)
  have s2 : f2.GetSize = file.GetSize := by
    rw [e2, ← s1]; exact File.GetSize_WritePage_inside _ (by omega)
  have s3 : f3.GetSize = file.GetSize := by
    rw [e3, ← s2]; exact File.GetSize_WritePage_inside _ (by omega)
  -- the sentinel
  have r1 : f1.ReadPage kClassListSentinelOffset = .ok sentinel := by
    rw [e1]; exact File.ReadPage_WritePage_disjoint hS _ _ (Or.inl (by omega))
  have r2 : f2.ReadPage kClassListSentinelOffset = .ok sentinel := by
    rw [e2]; exact File.ReadPage_WritePage_disjoint r1 _ _ (Or.inl (by omega))
  have r3 : f3.ReadPage kClassListSentinelOffset =
      .ok { sentinel with previous_page_index_ := n } := by
    rw [e3]
    exact File.ReadPage_WritePage_same _ (Page.fits_set_prev hSf hnw) _
  -- the tail page
  have t1 : f1.ReadPage (kOrigin + t * kPageSize) = .ok tail_page := by
    rw [e1]; exact File.ReadPage_WritePage_disjoint hT _ _ (Or.inl (by omega))
  -- the new page
  have p1 : f1.ReadPage (kOrigin + n * kPageSize) =
      .ok { page with previous_page_index_ := t, next_page_index_ := kDummyIndex } := by
    rw [e1, hprev]
    exact File.ReadPage_WritePage_same _ (Page.fits_set_links hPf (by omega) hd) _
  have p2 : f2.ReadPage (kOrigin + n * kPageSize) =
      .ok { page with previous_page_index_ := t, next_page_index_ := kDummyIndex } := by
    rw [e2]; exact File.ReadPage_WritePage_disjoint p1 _ _ (Or.inr (by omega))
  have p3 : f3.ReadPage (kOrigin + n * kPageSize) =
      .ok { page with previous_page_index_ := t, next_page_index_ := kDummyIndex } := by
    rw [e3]; exact File.ReadPage_WritePage_disjoint p2 _ _ (Or.inr (by omega))
  -- the count
  have c1 : f1.ReadU64 kClassListCount = .ok (classes ++ [(t, st)]).length := by
    rw [e1]; exact File.ReadU64_WritePage_disjoint hcount _ _ (Or.inl (by omega))
  have c2 : f2.ReadU64 kClassListCount = .ok (classes ++ [(t, st)]).length := by
    rw [e2]; exact File.ReadU64_WritePage_disjoint c1 _ _ (Or.inl (by omega))
  have c3 : f3.ReadU64 kClassListCount = .ok (classes ++ [(t, st)]).length := by
    rw [e3]; exact File.ReadU64_WritePage_disjoint c2 _ _ (Or.inr (by omega))
  -- the chain
  have g1 : Chain kPageSize f1 (classes ++ [(t, st)]) kDummyIndex := by
    rw [e1]
    exact Chain.WritePage_disjoint hchain _ _ (fun e he => Or.inr (hreg e he))
  have g2 : Chain kPageSize f2 (classes ++ [(t, st)]) n := by
    rw [e2]
    exact Chain.set_last g1 hsorted hnw t1
  have g3 : Chain kPageSize f3 (classes ++ [(t, st)]) n := by
    rw [e3]
    exact Chain.WritePage_disjoint g2 _ _ (fun e _ => Or.inl (by omega))
  have hadd : addU64 (classes ++ [(t, st)]).length 1 = (classes ++ [(t, st)]).length + 1 :=
    Nat.mod_eq_of_lt (by omega)
  have key : l.PushBack kPageSize a file n =
      (.ok (), f3.WriteU64 (addU64 (classes ++ [(t, st)]).length 1)
        (kClassListSentinelOffset + sizeofPage)) :=
    PushBack_eq_ok hl hA hB hS hP e1 t1 e2 r2 e3 c3
  rw [hadd] at key
  refine ⟨_, key, ?_, ?_, ?_, ?_, ?_, ?_, ?_⟩
  · rw [← s3]; exact File.GetSize_WriteU64_inside _ (by omega)
  · exact File.ReadPage_WriteU64_disjoint r3 _ _ (Or.inl (by omega))
  · have := File.ReadU64_WriteU64_same f3 ((classes ++ [(t, st)]).length + 1) kClassListCount
    rwa [Nat.mod_eq_of_lt (by omega)] at this
  · exact Chain.WriteU64_disjoint g3 _ _ (fun e _ => Or.inl (by omega))
  · exact File.ReadPage_WriteU64_disjoint p3 _ _ (Or.inr (by omega))
  · intro o p ho hp
    apply File.ReadPage_WriteU64_disjoint _ _ _ (Or.inl (by omega))
    rw [e3, e2, e1]
    apply File.ReadPage_WritePage_disjoint _ _ _ (Or.inl (by omega))
    apply File.ReadPage_WritePage_disjoint _ _ _ (Or.inl (by omega))
    exact File.ReadPage_WritePage_disjoint hp _ _ (Or.inl (by omega))
  · intro o v ho hv
    apply File.ReadU64_WriteU64_disjoint _ _ _ (Or.inl (by omega))
    rw [e3, e2, e1]
    apply File.ReadU64_WritePage_disjoint _ _ _ (Or.inl (by omega))
    apply File.ReadU64_WritePage_disjoint _ _ _ (Or.inl (by omega))
    exact File.ReadU64_WritePage_disjoint hv _ _ (Or.inl (by omega))

/-! ## One successful AddClass -/

theorem AddClass_eq_ok {kPageSize : Nat} {db db1 : Database} {c : Class} {index : Nat}
    {file2 : File} {header1 : ClassHeader}
    (hnot : db.class_map_.contains (ClassObject.ofClass c).ToString = false)
    (hsz : ¬ (ClassObject.ofClass c).GetSize > subU64 kPageSize sizeofClassHeader)
    (hA : db.AllocatePage kPageSize = (.ok index, db1))
    (hP : db1.class_list_.PushBack kPageSize db1.alloc_ db1.file_ index = (.ok (), file2))
    (hR : (ClassHeader.new index).ReadClassHeader kPageSize db1.superblock_.pagetable_offset_ file2 =
      .ok header1) :
    db.AddClass kPageSize c =
      (.ok (), Database.afterAddClass kPageSize db1 file2 header1 (ClassObject.ofClass c)) := by
  simp only [Database.AddClass, hnot, hsz, hA, hP, hR, Database.afterAddClass, if_false,
    Bool.false_eq_true]

/-- `PushBack` of the new page `n` on the class list of a handle opened in Write mode. -/
theorem PushBack_class {kPageSize : Nat} {l : PageList} {a : PageAllocator} {file : File}
    {n : Nat} {classes : List (Nat × Bytes)} {page sentinel : Page}
    (hl : l.sentinel_offset_ = kClassListSentinelOffset)
    (ha : a.pagetable_offset_ = kOrigin)
    (hsize : kOrigin + (n + 1) * kPageSize ≤ file.GetSize) (hfits : file.GetSize < wordMod)
    (hps : sizeofClassHeader ≤ kPageSize)
    (hS : file.ReadPage kClassListSentinelOffset = .ok sentinel)
    (hnext : sentinel.next_page_index_ = headIndex classes kDummyIndex)
    (hprev : sentinel.previous_page_index_ = lastIndex classes kDummyIndex)
    (hcount : file.ReadU64 kClassListCount = .ok classes.length)
    (hlen : classes.length ≤ n)
    (hchain : Chain kPageSize file classes kDummyIndex)
    (hsorted : classes.Pairwise (fun x y => x.1 < y.1)) (hbelow : ∀ e ∈ classes, e.1 < n)
    (hP : file.ReadPage (kOrigin + n * kPageSize) = .ok page) :
    ∃ file1 sentinel1, l.PushBack kPageSize a file n = (.ok (), file1) ∧
      file1.GetSize = file.GetSize ∧
      file1.ReadPage kClassListSentinelOffset = .ok sentinel1 ∧
      sentinel1.next_page_index_ = headIndex classes n ∧
      sentinel1.previous_page_index_ = n ∧
      file1.ReadU64 kClassListCount = .ok (classes.length + 1) ∧
      Chain kPageSize file1 classes n ∧
      file1.ReadPage (kOrigin + n * kPageSize) =
        .ok { page with previous_page_index_ := lastIndex classes kDummyIndex,
                        next_page_index_ := kDummyIndex } ∧
      (∀ o p, o + 48 ≤ kClassListSentinelOffset → file.ReadPage o = .ok p →
        file1.ReadPage o = .ok p) ∧
      (∀ o v, o + 8 ≤ kClassListSentinelOffset → file.ReadU64 o = .ok v →
        file1.ReadU64 o = .ok v) := by
  rcases List.eq_nil_or_concat classes with rfl | ⟨rest, ⟨t, st⟩, rfl⟩
  · obtain ⟨file1, h1, h2, h3, h4, h5, h6, h7⟩ :=
      PushBack_class_nil hl ha hsize hfits hps hS hprev hcount hP
    exact ⟨file1, _, h1, h2, h3, rfl, rfl, h4, trivial, h5, h6, h7⟩
  · simp only [List.concat_eq_append] at *
    rw [lastIndex_append_singleton] at hprev
    have hlt : ∀ e ∈ rest, e.1 < t := fun e he =>
      (List.pairwise_append.mp hsorted).2.2 e he (t, st) (List.mem_singleton_self _)
    have htn : t < n := hbelow (t, st) (List.mem_append_right _ (List.mem_singleton_self _))
    obtain ⟨file1, h1, h2, h3, h4, h5, h6, h7, h8⟩ :=
      PushBack_class_concat hl ha hsize hfits hps hS hprev hcount (Nat.lt_succ_of_le hlen)
        hchain hlt htn hP
    refine ⟨file1, _, h1, h2, h3, ?_, rfl, h4, h5, ?_, h7, h8⟩
    · show sentinel.next_page_index_ = _
      rw [hnext]
      exact headIndex_append_singleton _ _ _ _
    · rw [lastIndex_append_singleton]
      exact h6

theorem FramePage.refl (kPageSize n : Nat) (file : File) : FramePage kPageSize n file file :=
  ⟨rfl, fun _ _ _ h => h, fun _ _ _ h => h, fun _ _ _ h => h⟩

theorem FramePage.trans {kPageSize n : Nat} {f g h : File} (h1 : FramePage kPageSize n f g)
    (h2 : FramePage kPageSize n g h) : FramePage kPageSize n f h :=
  ⟨h2.1.trans h1.1, fun o p ho hp => h2.2.1 o p ho (h1.2.1 o p ho hp),
    fun o v ho hv => h2.2.2.1 o v ho (h1.2.2.1 o v ho hv),
    fun c l hc hch => h2.2.2.2 c l hc (h1.2.2.2 c l hc hch)⟩

/-- A write inside the page `n` of the file. -/
theorem FramePage.Write {kPageSize n : Nat} (file : File) (bs : Bytes) (off : Nat)
    (h1 : kOrigin + n * kPageSize ≤ off) (h2 : off + bs.length ≤ file.GetSize) :
    FramePage kPageSize n file (file.Write bs off) := by
  have hy := layout
  refine ⟨?_, ?_, ?_, ?_⟩
  · rw [File.GetSize_Write]; omega
  · intro o p ho hp
    exact File.ReadPage_Write_disjoint hp _ _ (Or.inl (by omega))
  · intro o v ho hv
    exact File.ReadU64_Write_disjoint hv _ _ (Or.inl (by omega))
  · intro classes last hc hch
    apply Chain.Write_disjoint hch _ _ (fun e he => Or.inr ?_)
    have := mul_page_le (show e.1 + 1 ≤ n from hc e he) kPageSize
    omega

theorem encodeClassHeader_take (h : ClassHeader) :
    (encodeClassHeader h).take 48 = encodePage h.toPage := by
  simp only [encodeClassHeader, List.append_assoc]
  exact List.take_left' (length_encodePage _)

theorem File.ReadPage_Write_encodeClassHeader (f : File) {h : ClassHeader} (hf : h.toPage.fits)
    (off : Nat) : (f.Write (encodeClassHeader h) off).ReadPage off = .ok h.toPage := by
  have h1 := readBytes_writeBytes_inside f.data off (encodeClassHeader h) 0 48
    (by rw [length_encodeClassHeader]; omega)
  rw [List.drop_zero, encodeClassHeader_take, Nat.add_zero] at h1
  have h2 : (f.Write (encodeClassHeader h) off).Read sizeofPage off = .ok (encodePage h.toPage) :=
    File.Read_of_readBytes h1
  simp only [File.ReadPage, h2, decodePage_encodePage hf]

theorem decodeClassHeader_toPage {f : File} {o : Nat} {bs : Bytes} {p : Page}
    (h1 : f.Read sizeofClassHeader o = .ok bs) (h2 : f.ReadPage o = .ok p) :
    (decodeClassHeader bs).toPage = p := by
  obtain ⟨x, hx, hp⟩ := File.ReadPage_eq_ok h2
  have e1 : readBytes f.data o (48 + 64) = some bs := by
    unfold File.Read at h1
    cases hr : readBytes f.data o sizeofClassHeader with
    | none => rw [hr] at h1; cases h1
    | some y => rw [hr] at h1; injection h1 with h1; subst h1; exact hr
  have e2 := readBytes_take e1
  have e3 : f.Read sizeofPage o = .ok (bs.take 48) := File.Read_of_readBytes e2
  rw [e3] at hx
  injection hx with hx
  rw [← hp, ← hx]
  exact (decodePage_take (Nat.le_refl 48)).symm

theorem subU64_page {kPageSize : Nat} (h1 : sizeofClassHeader ≤ kPageSize)
    (h2 : kPageSize < wordMod) : subU64 kPageSize sizeofClassHeader = kPageSize - sizeofClassHeader := by
  have hy := layout
  simp only [subU64]
  rw [hy.2.2.2.2.2.2.2.2.2.1] at h1 ⊢
  rw [hy.2.2.2.2.2.2.2.2.2.2.2.2.1] at h2 ⊢
  omega

theorem ClassMap.contains_map_swap (classes : List (Nat × Bytes)) (key : Bytes) :
    ClassMap.contains (classes.map (fun e => (e.2, e.1))) key = true ↔
      ∃ e ∈ classes, e.2 = key := by
  simp only [ClassMap.contains, List.any_eq_true, List.mem_map, decide_eq_true_eq]
  constructor
  · rintro ⟨x, ⟨e, he, rfl⟩, hx⟩
    exact ⟨e, he, hx⟩
  · rintro ⟨e, he, hx⟩
    exact ⟨_, ⟨e, he, rfl⟩, hx⟩

theorem ClassMap.emplace_of_not_contains {m : ClassMap} {key : Bytes}
    (h : m.contains key = false) (v : Nat) : m.emplace key v = m ++ [(key, v)] := by
  simp only [ClassMap.emplace, h, Bool.false_eq_true, if_false]

/-- The file a successful `AddClass` leaves, from the file after the `PushBack`. -/
theorem afterAddClass_file (kPageSize : Nat) (db1 : Database) (file2 : File)
    (header1 : ClassHeader) (c : ClassObject) (n previous : Nat)
    (hsb : db1.superblock_.pagetable_offset_ = kOrigin)
    (hidx : header1.index_ = n) (hprev : header1.previous_page_index_ = previous)
    (hnext : header1.next_page_index_ = kDummyIndex)
    (hfit : kOrigin + n * kPageSize + sizeofClassHeader < wordMod) :
    (Database.afterAddClass kPageSize db1 file2 header1 c).file_ =
      c.Write
        ((file2.Write (encodeClassHeader (classHeaderOf n previous 0))
          (kOrigin + n * kPageSize)).Write
            (encodeClassHeader (classHeaderOf n previous c.GetSize)) (kOrigin + n * kPageSize))
        (kOrigin + n * kPageSize + sizeofClassHeader) ∧
    (Database.afterAddClass kPageSize db1 file2 header1 c).class_map_ =
      db1.class_map_.emplace c.ToString n := by
  have hA : ∀ x, (classHeaderOf n previous x).toPage.GetPageAddress kPageSize kOrigin =
      kOrigin + n * kPageSize := fun x => GetPageAddress_eq (by
        show kOrigin + n * kPageSize < wordMod
        omega)
  have hG : Database.GetOffset kPageSize db1.superblock_ n sizeofClassHeader =
      kOrigin + n * kPageSize + sizeofClassHeader := by
    rw [GetOffset_eq (by rw [hsb]; exact hfit), hsb]
  have h0 : (header1.InitClassHeader kPageSize kOrigin file2 0).1 = classHeaderOf n previous 0 := by
    simp only [ClassHeader.InitClassHeader, classHeaderOf, hidx, hprev, hnext]
  have h1 : (header1.InitClassHeader kPageSize kOrigin file2 0).2 =
      file2.Write (encodeClassHeader (classHeaderOf n previous 0)) (kOrigin + n * kPageSize) := by
    have : (header1.InitClassHeader kPageSize kOrigin file2 0).2 =
        file2.Write (encodeClassHeader (header1.InitClassHeader kPageSize kOrigin file2 0).1)
          ((header1.InitClassHeader kPageSize kOrigin file2 0).1.toPage.GetPageAddress
            kPageSize kOrigin) := rfl
    rw [this, h0, hA]
  have h3 : ({ classHeaderOf n previous 0 with actual_size_ := c.GetSize } : ClassHeader) =
      classHeaderOf n previous c.GetSize := rfl
  simp only [Database.afterAddClass, hsb, h0, h1, h3, ClassHeader.WriteClassHeader, hA]
  refine ⟨?_, rfl⟩
  rw [show (classHeaderOf n previous 0).index_ = n from rfl,
    show (classHeaderOf n previous 0).first_free_ = sizeofClassHeader from rfl, hG]
  exact congrArg (fun x => c.Write ((file2.Write (encodeClassHeader (classHeaderOf n previous 0))
    (kOrigin + n * kPageSize)).Write (encodeClassHeader (classHeaderOf n previous c.GetSize)) x)
      (kOrigin + n * kPageSize + sizeofClassHeader)) (hA c.GetSize)

theorem Page.fits_classHeaderOf {n previous size : Nat} (hn : n < wordMod)
    (hp : previous < wordMod) (hs : size < wordMod) : (classHeaderOf n previous size).toPage.fits := by
  have hy := layout
  refine ⟨?_, hn, hp, ?_, ?_, hs⟩
  · show (3 : Nat) < wordMod
    omega
  · show kDummyIndex < wordMod
    omega
  · show sizeofClassHeader < wordMod
    omega

/-- A successful `AddClass` on a handle opened in Write mode: the class goes to the new page
`pages_count_`, appended to the class list. -/
theorem Inv.AddClass_ok {kPageSize : Nat} {db : Database} {classes : List (Nat × Bytes)}
    {c : Class} (h : Inv kPageSize db classes) (hps : sizeofClassHeader ≤ kPageSize)
    (hfit : db.file_.GetSize + kPageSize < wordMod)
    (hnot : db.class_map_.contains (ClassObject.ofClass c).ToString = false)
    (hsz : ¬ (ClassObject.ofClass c).GetSize > subU64 kPageSize sizeofClassHeader) :
    ∃ db1, db.AddClass kPageSize c = (.ok (), db1) ∧
      Inv kPageSize db1 (classes ++ [(db.alloc_.pages_count_, c.Serialize)]) ∧
      db1.alloc_.pages_count_ = db.alloc_.pages_count_ + 1 := by
  have hy := layout
  obtain ⟨hi, hnew⟩ := h.afterAllocate hps hfit
  have hm := succ_mul_page db.alloc_.pages_count_ kPageSize
  have hsize0 := h.size
  have hsize1 : (db.afterAllocate kPageSize).file_.GetSize =
      kOrigin + (db.alloc_.pages_count_ + 1) * kPageSize := hi.size
  have hfits1 := hi.fits
  rw [hsize0] at hnew
  obtain ⟨sentinel, hS, hSn, hSp⟩ := hi.class_sentinel
  obtain ⟨file2, sentinel1, hpush, hsz2, hS2, hS2n, hS2p, hcount2, hchain2, hpage2, hfr1, hfr2⟩ :=
    PushBack_class (l := (db.afterAllocate kPageSize).class_list_)
      (a := (db.afterAllocate kPageSize).alloc_) hi.class_list hi.alloc_origin
      (Nat.le_of_eq hsize1.symm) hfits1 hps hS hSn hSp hi.class_count h.length_le hi.chain
      h.sorted h.below hnew
  -- the header read back
  have hlen : (ClassObject.ofClass c).GetSize ≤ kPageSize - sizeofClassHeader := by
    rw [subU64_page hps (by omega)] at hsz
    omega
  have hlen' : sizeofClassHeader + sizeofWord + c.Serialize.length ≤ kPageSize := by
    simp only [ClassObject.GetSize, ClassObject.ofClass] at hlen
    omega
  have hnw : db.alloc_.pages_count_ < wordMod := by
    have := h.count_succ_lt hps hfit
    omega
  have haddr : (ClassHeader.new db.alloc_.pages_count_).toPage.GetPageAddress kPageSize
      (db.afterAllocate kPageSize).superblock_.pagetable_offset_ =
        kOrigin + db.alloc_.pages_count_ * kPageSize := by
    rw [hi.superblock_origin]
    exact GetPageAddress_eq (by
      show kOrigin + db.alloc_.pages_count_ * kPageSize < wordMod
      omega)
  obtain ⟨bs, hbs⟩ : ∃ bs, file2.Read sizeofClassHeader
      (kOrigin + db.alloc_.pages_count_ * kPageSize) = .ok bs :=
    File.Read_ok_of_le (by rw [hsz2, hsize1]; omega)
  have hread : (ClassHeader.new db.alloc_.pages_count_).ReadClassHeader kPageSize
      (db.afterAllocate kPageSize).superblock_.pagetable_offset_ file2 =
        .ok (decodeClassHeader bs) := by
    simp only [ClassHeader.ReadClassHeader, haddr, hbs]
  have htp := decodeClassHeader_toPage hbs hpage2
  have hadd := AddClass_eq_ok hnot hsz (h.AllocatePage_eq hps hfit) hpush hread
  obtain ⟨hfile, hmap⟩ := afterAddClass_file kPageSize (db.afterAllocate kPageSize) file2
    (decodeClassHeader bs) (ClassObject.ofClass c) db.alloc_.pages_count_
    (lastIndex classes kDummyIndex) hi.superblock_origin
    (by rw [htp]; rfl) (by rw [htp]) (by rw [htp]) (by omega)
  refine ⟨_, hadd, ?_, rfl⟩
  -- the stages of the file inside the new page
  obtain ⟨g1, e1⟩ : ∃ g1, g1 = file2.Write
      (encodeClassHeader (classHeaderOf db.alloc_.pages_count_ (lastIndex classes kDummyIndex) 0))
      (kOrigin + db.alloc_.pages_count_ * kPageSize) := ⟨_, rfl⟩
  obtain ⟨g2, e2⟩ : ∃ g2, g2 = g1.Write
      (encodeClassHeader (classHeaderOf db.alloc_.pages_count_ (lastIndex classes kDummyIndex)
        (ClassObject.ofClass c).GetSize))
      (kOrigin + db.alloc_.pages_count_ * kPageSize) := ⟨_, rfl⟩
  obtain ⟨g3, e3⟩ : ∃ g3, g3 = g2.WriteU64 c.Serialize.length
      (kOrigin + db.alloc_.pages_count_ * kPageSize + sizeofClassHeader) := ⟨_, rfl⟩
  obtain ⟨g4, e4⟩ : ∃ g4, g4 = g3.Write c.Serialize
      (kOrigin + db.alloc_.pages_count_ * kPageSize + sizeofClassHeader + sizeofWord) := ⟨_, rfl⟩
  have hg4 : (Database.afterAddClass kPageSize (db.afterAllocate kPageSize) file2
      (decodeClassHeader bs) (ClassObject.ofClass c)).file_ = g4 := by
    rw [hfile, e4, e3, e2, e1]
    rfl
  have F1 : FramePage kPageSize db.alloc_.pages_count_ file2 g1 := by
    rw [e1]
    exact FramePage.Write _ _ _ (Nat.le_refl _) (by rw [length_encodeClassHeader, hsz2, hsize1]; omega)
  have F2 : FramePage kPageSize db.alloc_.pages_count_ g1 g2 := by
    rw [e2]
    exact FramePage.Write _ _ _ (Nat.le_refl _)
      (by rw [length_encodeClassHeader, F1.1, hsz2, hsize1]; omega)
  have F3 : FramePage kPageSize db.alloc_.pages_count_ g2 g3 := by
    rw [e3]
    exact FramePage.Write _ _ _ (by omega)
      (by rw [length_encodeU64, F2.1, F1.1, hsz2, hsize1]; omega)
  have F4 : FramePage kPageSize db.alloc_.pages_count_ g3 g4 := by
    rw [e4]
    exact FramePage.Write _ _ _ (by omega)
      (by rw [F3.1, F2.1, F1.1, hsz2, hsize1]; omega)
  have F := (F1.trans F2).trans (F3.trans F4)
  have hprevfit : lastIndex classes kDummyIndex < wordMod := by
    rw [← hSp]
    exact (File.ReadPage_ok_fits hS).2.2.1
  have hpg2 : g2.ReadPage (kOrigin + db.alloc_.pages_count_ * kPageSize) =
      .ok (classHeaderOf db.alloc_.pages_count_ (lastIndex classes kDummyIndex)
        (ClassObject.ofClass c).GetSize).toPage := by
    rw [e2]
    exact File.ReadPage_Write_encodeClassHeader _
      (Page.fits_classHeaderOf hnw hprevfit (by omega)) _
  have hpg4 : g4.ReadPage (kOrigin + db.alloc_.pages_count_ * kPageSize) =
      .ok (classHeaderOf db.alloc_.pages_count_ (lastIndex classes kDummyIndex)
        (ClassObject.ofClass c).GetSize).toPage := by
    rw [e4, e3]
    apply File.ReadPage_Write_disjoint _ _ _ (Or.inl (by omega))
    exact File.ReadPage_WriteU64_disjoint hpg2 _ _ (Or.inl (by omega))
  have hobj : ClassObject.Read g4
      (kOrigin + db.alloc_.pages_count_ * kPageSize + sizeofClassHeader) =
        .ok { serialized_ := c.Serialize } := by
    rw [e4, e3]
    exact ClassObject.Read_after_Write g2 _ c.Serialize (by omega)
  have hg4size : g4.GetSize = kOrigin + (db.alloc_.pages_count_ + 1) * kPageSize := by
    rw [F.1, hsz2, hsize1]
  refine
    { superblock_origin := hi.superblock_origin
      alloc_origin := hi.alloc_origin
      free_list := hi.free_list
      class_list := hi.class_list
      size := ?_
      fits := ?_
      pages_count := ?_
      free_sentinel := ?_
      class_sentinel := ?_
      class_count := ?_
      chain := ?_
      sorted := ?_
      below := ?_
      length_le := ?_
      keys := ?_
      class_map := ?_ }
  · rw [hg4]; exact hg4size
  · rw [hg4, hg4size]; omega
  · rw [hg4]
    exact F.2.2.1 _ _ (by omega) (hfr2 _ _ (by omega) hi.pages_count)
  · obtain ⟨s, hs, hn⟩ := hi.free_sentinel
    rw [hg4]
    exact ⟨s, F.2.1 _ _ (by omega) (hfr1 _ _ (by omega) hs), hn⟩
  · rw [hg4]
    refine ⟨sentinel1, F.2.1 _ _ (by omega) hS2, ?_, ?_⟩
    · rw [hS2n, headIndex_concat]
    · rw [hS2p, lastIndex_append_singleton]
  · rw [hg4, List.length_append]
    exact F.2.2.1 _ _ (by omega) hcount2
  · rw [hg4]
    apply Chain.concat (F.2.2.2 _ _ h.below hchain2)
    exact ⟨by rw [hg4size], hlen', ⟨_, hpg4, rfl, rfl, rfl⟩, hobj, trivial⟩
  · exact List.pairwise_append.mpr ⟨h.sorted, List.pairwise_singleton _ _,
      fun x hx y hy => by rw [List.mem_singleton.mp hy]; exact h.below x hx⟩
  · intro e he
    rcases List.mem_append.mp he with hx | hx
    · exact Nat.lt_succ_of_lt (h.below e hx)
    · rw [List.mem_singleton.mp hx]; exact Nat.lt_succ_self _
  · rw [List.length_append]
    exact Nat.succ_le_succ h.length_le
  · rw [List.map_append, List.nodup_append]
    refine ⟨h.keys, List.nodup_singleton _, ?_⟩
    intro key hk hk1
    rw [List.mem_singleton.mp hk1] at hk
    obtain ⟨e, he, hek⟩ := List.mem_map.mp hk
    have hc : db.class_map_.contains (ClassObject.ofClass c).ToString = true := by
      rw [h.class_map]
      exact (ClassMap.contains_map_swap classes _).mpr ⟨e, he, hek⟩
    rw [hnot] at hc
    cases hc
  · rw [hmap]
    show (db.class_map_).emplace _ _ = _
    rw [ClassMap.emplace_of_not_contains hnot, h.class_map, List.map_append]
    rfl

/-! ## The errors of the lower layers -/

theorem File.Read_error {f : File} {n o : Nat} {e : Error} (h : f.Read n o = .error e) :
    e.lower = true := by
  unfold File.Read at h
  split at h
  · cases h
  · injection h with h
    rw [← h]
    rfl

theorem File.ReadU64_error {f : File} {o : Nat} {e : Error} (h : f.ReadU64 o = .error e) :
    e.lower = true := by
  unfold File.ReadU64 at h
  split at h
  · cases h
  · rename_i e1 h1
    injection h with h
    rw [← h]
    exact File.Read_error h1

theorem File.ReadPage_error {f : File} {o : Nat} {e : Error} (h : f.ReadPage o = .error e) :
    e.lower = true := by
  unfold File.ReadPage at h
  split at h
  · cases h
  · rename_i e1 h1
    injection h with h
    rw [← h]
    exact File.Read_error h1

theorem PageList.IsEmpty_error {l : PageList} {f : File} {e : Error}
    (h : l.IsEmpty f = .error e) : e.lower = true := by
  unfold PageList.IsEmpty at h
  split at h
  · cases h
  · rename_i e1 h1
    injection h with h
    rw [← h]
    exact File.ReadPage_error h1

theorem PageList.Back_error {l : PageList} {f : File} {e : Error}
    (h : l.Back f = .error e) : e.lower = true := by
  unfold PageList.Back at h
  split at h
  · rename_i e1 h1
    injection h with h
    rw [← h]
    exact PageList.IsEmpty_error h1
  · injection h with h
    rw [← h]
    rfl
  · split at h
    · cases h
    · rename_i e1 h1
      injection h with h
      rw [← h]
      exact File.ReadPage_error h1

theorem PageList.PushBack_error {kPageSize : Nat} {l : PageList} {a : PageAllocator} {f : File}
    {index : Nat} {e : Error} (h : (l.PushBack kPageSize a f index).1 = .error e) :
    e.lower = true := by
  unfold PageList.PushBack at h
  split at h
  · rename_i e1 h1
    injection h with h; rw [← h]; exact File.ReadPage_error h1
  · split at h
    · rename_i e1 h1
      injection h with h; rw [← h]; exact File.ReadPage_error h1
    · try simp only [] at h
      split at h
      · rename_i e1 h1
        injection h with h; rw [← h]; exact File.ReadPage_error h1
      · try simp only [] at h
        split at h
        · rename_i e1 h1
          injection h with h; rw [← h]; exact File.ReadPage_error h1
        · try simp only [] at h
          split at h
          · rename_i e1 h1
            injection h with h; rw [← h]; exact File.ReadU64_error h1
          · cases h

theorem PageList.PopBack_error {kPageSize : Nat} {l : PageList} {a : PageAllocator} {f : File}
    {e : Error} (h : (l.PopBack kPageSize a f).1 = .error e) : e.lower = true := by
  unfold PageList.PopBack at h
  split at h
  · rename_i e1 h1
    injection h with h; rw [← h]; exact PageList.Back_error h1
  · split at h
    · rename_i e1 h1
      injection h with h; rw [← h]; exact File.ReadPage_error h1
    · try simp only [] at h
      split at h
      · rename_i e1 h1
        injection h with h; rw [← h]; exact File.ReadPage_error h1
      · try simp only [] at h
        split at h
        · rename_i e1 h1
          injection h with h; rw [← h]; exact File.ReadPage_error h1
        · try simp only [] at h
          split at h
          · rename_i e1 h1
            injection h with h; rw [← h]; exact File.ReadU64_error h1
          · cases h

theorem PageAllocator.AllocatePage_error_lower {kPageSize : Nat} {a : PageAllocator} {f : File}
    {e : Error} (h : (a.AllocatePage kPageSize f).1 = .error e) : e.lower = true := by
  unfold PageAllocator.AllocatePage at h
  split at h
  · injection h with h; rw [← h]; rfl
  · cases h

theorem Database.AllocatePage_error {kPageSize : Nat} {db : Database} {e : Error}
    (h : (db.AllocatePage kPageSize).1 = .error e) : e.lower = true := by
  unfold Database.AllocatePage at h
  split at h
  · rename_i e1 h1
    injection h with h; rw [← h]; exact PageList.IsEmpty_error h1
  · split at h
    rename_i r a1 f1 h1
    have : (db.alloc_.AllocatePage kPageSize db.file_).1 = .error e := by rw [h1]; exact h
    exact PageAllocator.AllocatePage_error_lower this
  · split at h
    · rename_i e1 h1
      injection h with h; rw [← h]; exact PageList.Back_error h1
    · split at h
      · rename_i e1 f1 h1
        injection h with h; rw [← h]
        exact PageList.PopBack_error (by rw [h1])
      · cases h

theorem ClassHeader.ReadClassHeader_error {kPageSize : Nat} {this : ClassHeader} {pt : Nat}
    {f : File} {e : Error} (h : this.ReadClassHeader kPageSize pt f = .error e) :
    e.lower = true := by
  unfold ClassHeader.ReadClassHeader at h
  split at h
  · cases h
  · rename_i e1 h1
    injection h with h; rw [← h]; exact File.Read_error h1

/-! ## The outcomes of AddClass -/

theorem AddClass_of_contains {kPageSize : Nat} {db : Database} {c : Class}
    (h : db.class_map_.contains (ClassObject.ofClass c).ToString = true) :
    db.AddClass kPageSize c =
      (.error (.RuntimeError (str "Class already present in database")), db) := by
  simp only [Database.AddClass, h, if_true]

theorem AddClass_of_too_complex {kPageSize : Nat} {db : Database} {c : Class}
    (h : db.class_map_.contains (ClassObject.ofClass c).ToString = false)
    (hs : (ClassObject.ofClass c).GetSize > subU64 kPageSize sizeofClassHeader) :
    db.AddClass kPageSize c = (.error (.NotImplemented (str "Too complex class")), db) := by
  simp only [Database.AddClass, h, hs, if_true, if_false, Bool.false_eq_true]

theorem AddClass_error_lower {kPageSize : Nat} {db : Database} {c : Class} {e : Error}
    (hnot : db.class_map_.contains (ClassObject.ofClass c).ToString = false)
    (hsz : ¬ (ClassObject.ofClass c).GetSize > subU64 kPageSize sizeofClassHeader)
    (h : (db.AddClass kPageSize c).1 = .error e) : e.lower = true := by
  simp only [Database.AddClass, hnot, hsz, if_false, Bool.false_eq_true] at h
  split at h
  · rename_i e1 db1 h1
    injection h with h; rw [← h]
    exact Database.AllocatePage_error (by rw [h1])
  · split at h
    · rename_i e1 f2 h1
      injection h with h; rw [← h]
      exact PageList.PushBack_error (by rw [h1])
    · split at h
      · rename_i e1 h1
        injection h with h; rw [← h]
        exact ClassHeader.ReadClassHeader_error h1
      · cases h

/-! ## The invariant of a handle opened in Write mode -/

theorem Inv.fresh (kPageSize : Nat) (name : String) : Inv kPageSize (freshDatabase name) [] :=
  { superblock_origin := rfl
    alloc_origin := rfl
    free_list := rfl
    class_list := rfl
    size := by
      show freshBytes.length = kOrigin + 0 * kPageSize
      rw [length_freshBytes, Nat.zero_mul]
      rfl
    fits := by
      show freshBytes.length < wordMod
      rw [length_freshBytes]
      exact Nat.lt_of_lt_of_le (by omega) (Nat.le_of_eq layout.2.2.2.2.2.2.2.2.2.2.2.2.1.symm)
    pages_count := ReadU64_fresh_pages_count name
    free_sentinel := ⟨sentinelPage, ReadPage_fresh_free_sentinel name, rfl⟩
    class_sentinel := ⟨sentinelPage, ReadPage_fresh_class_sentinel name, rfl, rfl⟩
    class_count := ReadU64_fresh_class_count name
    chain := trivial
    sorted := List.Pairwise.nil
    below := fun _ he => by cases he
    length_le := Nat.zero_le _
    keys := List.nodup_nil
    class_map := rfl }

theorem Database.new_write (kPageSize : Nat) (file : File) :
    Database.new kPageSize file .kWrite =
      (.ok (freshDatabase file.filename), (freshDatabase file.filename).file_) :=
  Database.new_fresh kPageSize (OpenSuperblock_write file)

/-- One call on a handle opened in Write mode keeps the invariant and takes at most one
page; `AddClass` either throws and leaves the handle as it was, or succeeds and
appends the class on the new page. -/
theorem Inv.step {kPageSize : Nat} {db : Database} {classes : List (Nat × Bytes)}
    (h : Inv kPageSize db classes) (hps : sizeofClassHeader ≤ kPageSize)
    (hfit : db.file_.GetSize + kPageSize < wordMod) (op : Op) :
    ∃ classes1, Inv kPageSize (db.step kPageSize op) classes1 ∧
      (db.step kPageSize op).file_.GetSize ≤ db.file_.GetSize + kPageSize := by
  have hm := succ_mul_page db.alloc_.pages_count_ kPageSize
  cases op with
  | allocatePage =>
    refine ⟨classes, ?_, ?_⟩
    · show Inv kPageSize (db.AllocatePage kPageSize).2 classes
      rw [h.AllocatePage_eq hps hfit]
      exact (h.afterAllocate hps hfit).1
    · show (db.AllocatePage kPageSize).2.file_.GetSize ≤ _
      rw [h.AllocatePage_eq hps hfit, (h.afterAllocate hps hfit).1.size, h.size]
      show kOrigin + (db.alloc_.pages_count_ + 1) * kPageSize ≤ _
      omega
  | addClass c =>
    show ∃ classes1, Inv kPageSize (db.AddClass kPageSize c).2 classes1 ∧
      (db.AddClass kPageSize c).2.file_.GetSize ≤ _
    cases hc : db.class_map_.contains (ClassObject.ofClass c).ToString with
    | true =>
      rw [AddClass_of_contains hc]
      exact ⟨classes, h, Nat.le_add_right _ _⟩
    | false =>
      by_cases hs : (ClassObject.ofClass c).GetSize > subU64 kPageSize sizeofClassHeader
      · rw [AddClass_of_too_complex hc hs]
        exact ⟨classes, h, Nat.le_add_right _ _⟩
      · obtain ⟨db1, e1, hi, hn⟩ := h.AddClass_ok hps hfit hc hs
        rw [e1]
        refine ⟨_, hi, ?_⟩
        show db1.file_.GetSize ≤ _
        rw [hi.size, hn, h.size]
        omega

theorem Inv.run {kPageSize : Nat} (hps : sizeofClassHeader ≤ kPageSize) (ops : List Op) :
    ∀ (db : Database) (classes : List (Nat × Bytes)), Inv kPageSize db classes →
      db.file_.GetSize + ops.length * kPageSize < wordMod →
      ∃ classes1, Inv kPageSize (db.run kPageSize ops) classes1 := by
  induction ops with
  | nil => exact fun db classes h _ => ⟨classes, h⟩
  | cons op ops ih =>
    intro db classes h hfit
    have hm := succ_mul_page ops.length kPageSize
    rw [List.length_cons] at hfit
    obtain ⟨classes1, h1, hle⟩ := h.step hps (by omega) op
    exact ih _ classes1 h1 (by omega)

/-! ## Walking the class list -/

theorem ClassListEntriesLoop_chain {kPageSize : Nat} {db : Database}
    (hps : 0 < kPageSize) (hsb : db.superblock_.pagetable_offset_ = kOrigin)
    (hal : db.alloc_.pagetable_offset_ = kOrigin) (hfits : db.file_.GetSize < wordMod)
    (classes : List (Nat × Bytes)) :
    ∀ fuel, classes.length < fuel → Chain kPageSize db.file_ classes kDummyIndex →
      Database.ClassListEntriesLoop kPageSize db fuel (headIndex classes kDummyIndex) =
        .ok classes := by
  have hy := layout
  induction classes with
  | nil =>
    intro fuel hf _
    obtain ⟨k, rfl⟩ : ∃ k, fuel = k + 1 := ⟨fuel - 1, by omega⟩
    rw [Database.ClassListEntriesLoop]
    exact if_pos rfl
  | cons e rest ih =>
    intro fuel hf hch
    obtain ⟨k, rfl⟩ : ∃ k, fuel = k + 1 := ⟨fuel - 1, by omega⟩
    obtain ⟨h1, h2, ⟨p, hp, hp1, hp2, hp3⟩, h4, h5⟩ := hch
    have hm := succ_mul_page e.1 kPageSize
    have hne : e.1 ≠ kDummyIndex := Nat.ne_of_lt (index_lt_dummy hps h1 hfits)
    have hA : db.class_list_.AddressOf kPageSize db.alloc_ e.1 = kOrigin + e.1 * kPageSize := by
      rw [AddressOf_eq hne (by rw [hal]; omega), hal]
    have hG : Database.GetOffset kPageSize db.superblock_ e.1 sizeofClassHeader =
        kOrigin + e.1 * kPageSize + sizeofClassHeader := by
      rw [GetOffset_eq (by rw [hsb]; omega), hsb]
    have hrest := ih k (by simp only [List.length_cons] at hf; omega) h5
    rw [← hp3] at hrest
    rw [Database.ClassListEntriesLoop]
    simp only [headIndex, hne, if_false, PageList.IteratorTo, hA, hp, hp1, hp2, hG, h4, hrest,
      ClassObject.ToString]

theorem PrintFileLoop_chain {kPageSize : Nat} {db : Database}
    (hps : 0 < kPageSize) (hsb : db.superblock_.pagetable_offset_ = kOrigin)
    (hal : db.alloc_.pagetable_offset_ = kOrigin) (hfits : db.file_.GetSize < wordMod)
    (classes : List (Nat × Bytes)) :
    ∀ fuel out, classes.length < fuel → Chain kPageSize db.file_ classes kDummyIndex →
      Database.PrintFileLoop kPageSize db fuel (headIndex classes kDummyIndex) out =
        (.ok (), out ++ classes.map (fun e => printLine e.1 e.2)) := by
  have hy := layout
  induction classes with
  | nil =>
    intro fuel out hf _
    obtain ⟨k, rfl⟩ : ∃ k, fuel = k + 1 := ⟨fuel - 1, by omega⟩
    rw [Database.PrintFileLoop, List.map_nil, List.append_nil]
    exact if_pos rfl
  | cons e rest ih =>
    intro fuel out hf hch
    obtain ⟨k, rfl⟩ : ∃ k, fuel = k + 1 := ⟨fuel - 1, by omega⟩
    obtain ⟨h1, h2, ⟨p, hp, hp1, hp2, hp3⟩, h4, h5⟩ := hch
    have hm := succ_mul_page e.1 kPageSize
    have hne : e.1 ≠ kDummyIndex := Nat.ne_of_lt (index_lt_dummy hps h1 hfits)
    have hA : db.class_list_.AddressOf kPageSize db.alloc_ e.1 = kOrigin + e.1 * kPageSize := by
      rw [AddressOf_eq hne (by rw [hal]; omega), hal]
    have hG : Database.GetOffset kPageSize db.superblock_ e.1 sizeofClassHeader =
        kOrigin + e.1 * kPageSize + sizeofClassHeader := by
      rw [GetOffset_eq (by rw [hsb]; omega), hsb]
    have hrest := ih k (out ++ [printLine e.1 e.2])
      (by simp only [List.length_cons] at hf; omega) h5
    rw [← hp3] at hrest
    rw [Database.PrintFileLoop]
    simp only [headIndex, hne, if_false, PageList.IteratorTo, hA, hp, hp1, hp2, hG, h4, hrest,
      ClassObject.ToString, List.map_cons, List.append_assoc, List.singleton_append]

theorem ClassMap.contains_append_singleton (m : ClassMap) (k key : Bytes) (v : Nat) :
    ClassMap.contains (m ++ [(k, v)]) key = (m.contains key || decide (k = key)) := by
  simp only [ClassMap.contains, List.any_append, List.any_cons, List.any_nil, Bool.or_false]

theorem InitializeClassMapLoop_chain {kPageSize : Nat} {db : Database}
    (hps : 0 < kPageSize) (hsb : db.superblock_.pagetable_offset_ = kOrigin)
    (hal : db.alloc_.pagetable_offset_ = kOrigin) (hfits : db.file_.GetSize < wordMod)
    (classes : List (Nat × Bytes)) :
    ∀ fuel (m : ClassMap), classes.length < fuel →
      Chain kPageSize db.file_ classes kDummyIndex →
      (classes.map (fun e => e.2)).Nodup → (∀ e ∈ classes, m.contains e.2 = false) →
      Database.InitializeClassMapLoop kPageSize db.superblock_ db.class_list_ db.alloc_ db.file_
          fuel (headIndex classes kDummyIndex) m =
        .ok (m ++ classes.map (fun e => (e.2, e.1))) := by
  have hy := layout
  induction classes with
  | nil =>
    intro fuel m hf _ _ _
    obtain ⟨k, rfl⟩ : ∃ k, fuel = k + 1 := ⟨fuel - 1, by omega⟩
    rw [List.map_nil, List.append_nil]
    exact InitializeClassMapLoop_dummy kPageSize _ _ _ _ k m
  | cons e rest ih =>
    intro fuel m hf hch hnd hm
    obtain ⟨k, rfl⟩ : ∃ k, fuel = k + 1 := ⟨fuel - 1, by omega⟩
    obtain ⟨h1, h2, ⟨p, hp, hp1, hp2, hp3⟩, h4, h5⟩ := hch
    have hmul := succ_mul_page e.1 kPageSize
    have hne : e.1 ≠ kDummyIndex := Nat.ne_of_lt (index_lt_dummy hps h1 hfits)
    have hA : db.class_list_.AddressOf kPageSize db.alloc_ e.1 = kOrigin + e.1 * kPageSize := by
      rw [AddressOf_eq hne (by rw [hal]; omega), hal]
    have hG : Database.GetOffset kPageSize db.superblock_ e.1 sizeofClassHeader =
        kOrigin + e.1 * kPageSize + sizeofClassHeader := by
      rw [GetOffset_eq (by rw [hsb]; omega), hsb]
    rw [List.map_cons, List.nodup_cons] at hnd
    have hem : m.emplace e.2 e.1 = m ++ [(e.2, e.1)] :=
      ClassMap.emplace_of_not_contains (hm e (List.mem_cons_self _ _)) _
    have hrest := ih k (m ++ [(e.2, e.1)]) (by simp only [List.length_cons] at hf; omega) h5
      hnd.2 (fun x hx => by
        rw [ClassMap.contains_append_singleton, hm x (List.mem_cons_of_mem _ hx), Bool.false_or,
          decide_eq_false_iff_not]
        intro hex
        exact hnd.1 (List.mem_map.mpr ⟨x, hx, hex.symm⟩))
    rw [← hp3] at hrest
    rw [Database.InitializeClassMapLoop]
    simp only [headIndex, hne, if_false, PageList.IteratorTo, hA, hp, hp1, hp2, hG, h4,
      ClassObject.ToString, hem, hrest, List.map_cons, List.append_assoc, List.singleton_append]

theorem Inv.length_lt_walkFuel {kPageSize : Nat} {db : Database} {classes : List (Nat × Bytes)}
    (h : Inv kPageSize db classes) (hps : 0 < kPageSize) : classes.length < walkFuel db.file_ := by
  have h1 := h.length_le
  have h2 : db.alloc_.pages_count_ ≤ db.alloc_.pages_count_ * kPageSize :=
    Nat.le_mul_of_pos_right _ hps
  have h3 := h.size
  simp only [walkFuel]
  omega

/-- On a handle opened in Write mode the class list on disk and the class map agree. -/
theorem Inv.agreement {kPageSize : Nat} {db : Database} {classes : List (Nat × Bytes)}
    (h : Inv kPageSize db classes) (hps : 0 < kPageSize) :
    db.ClassListEntries kPageSize = .ok classes ∧
    db.class_map_.map (fun it => (it.2, it.1)) = classes ∧
    db.PrintAllClasses kPageSize .kFile = (.ok (), classes.map (fun e => printLine e.1 e.2)) ∧
    db.PrintAllClasses kPageSize .kCache =
      (.ok (), classes.map (fun e => printLine e.1 e.2)) ∧
    Database.InitializeClassMap kPageSize db.superblock_ db.class_list_ db.alloc_ db.file_ =
      .ok db.class_map_ := by
  obtain ⟨s, hs, hn, -⟩ := h.class_sentinel
  rw [← h.class_list] at hs
  refine ⟨?_, ?_, ?_, ?_, ?_⟩
  · simp only [Database.ClassListEntries, hs, hn]
    exact ClassListEntriesLoop_chain hps h.superblock_origin h.alloc_origin h.fits classes _
      (h.length_lt_walkFuel hps) h.chain
  · rw [h.class_map, List.map_map]
    exact List.map_id'' (fun e => rfl) classes
  · simp only [Database.PrintAllClasses, hs, hn]
    have := PrintFileLoop_chain hps h.superblock_origin h.alloc_origin h.fits classes _ []
      (h.length_lt_walkFuel hps) h.chain
    rwa [List.nil_append] at this
  · simp only [Database.PrintAllClasses, h.class_map, List.map_map]
    rfl
  · rw [InitializeClassMap_of_sentinel kPageSize _ _ _ _ s hs, hn, h.class_map]
    have := InitializeClassMapLoop_chain hps h.superblock_origin h.alloc_origin h.fits classes _ []
      (h.length_lt_walkFuel hps) h.chain h.keys (fun _ _ => rfl)
    rwa [List.nil_append] at this

/-! ## The class map after AddClass -/

theorem ClassMap.contains_append_self (m : ClassMap) (key : Bytes) (v : Nat) :
    ClassMap.contains (m ++ [(key, v)]) key = true := by
  simp only [ClassMap.contains, List.any_append, List.any_cons, decide_True, List.any_nil,
    Bool.or_false, Bool.or_true]

theorem ClassMap.contains_emplace (m : ClassMap) (key : Bytes) (v : Nat) :
    (m.emplace key v).contains key = true := by
  unfold ClassMap.emplace
  split
  · assumption
  · exact ClassMap.contains_append_self m key v

theorem AddClass_ok_contains {kPageSize : Nat} {db db1 : Database} {c : Class}
    (h : db.AddClass kPageSize c = (.ok (), db1)) :
    db1.class_map_.contains (ClassObject.ofClass c).ToString = true := by
  unfold Database.AddClass at h
  simp only [] at h
  split at h
  · cases h
  · split at h
    · cases h
    · split at h
      · cases h
      · split at h
        · cases h
        · split at h
          · cases h
          · simp only [Prod.mk.injEq, true_and] at h
            rw [← h]
            exact ClassMap.contains_emplace _ _ _

/-! ## AddClass and the handle opened in Write mode -/

/-- C3. After a database is opened in `Write` mode, and after every sequence of `AddClass`
calls (whatever their outcome) and page allocations on the handle,
`pagetable_offset_ + pages_count_ * kPageSize` is the size of the file, where
`pages_count_` is the allocator's counter and also the value stored at
`kPagesCountOffset`; so `(file_size - pagetable_offset_) % kPageSize = 0`, also
in the 64-bit arithmetic of the allocator.  A page holds a class header and
the file stays below `2 ^ 64` bytes. -/
theorem size_invariant (kPageSize : Nat) (hps : sizeofClassHeader ≤ kPageSize) (file : File) :
    ∃ db0, Database.new kPageSize file .kWrite = (.ok db0, db0.file_) ∧
      ∀ ops : List Op, db0.file_.GetSize + ops.length * kPageSize < wordMod →
        (db0.run kPageSize ops).alloc_.pagetable_offset_ +
            (db0.run kPageSize ops).alloc_.pages_count_ * kPageSize =
          (db0.run kPageSize ops).file_.GetSize ∧
        (db0.run kPageSize ops).file_.ReadU64 kPagesCountOffset =
          .ok (db0.run kPageSize ops).alloc_.pages_count_ ∧
        (db0.run kPageSize ops).superblock_.pagetable_offset_ =
          (db0.run kPageSize ops).alloc_.pagetable_offset_ ∧
        ((db0.run kPageSize ops).file_.GetSize -
          (db0.run kPageSize ops).alloc_.pagetable_offset_) % kPageSize = 0 ∧
        subU64 (db0.run kPageSize ops).file_.GetSize
          (db0.run kPageSize ops).alloc_.pagetable_offset_ % kPageSize = 0 := by
  refine ⟨freshDatabase file.filename, Database.new_write kPageSize file, fun ops hfit => ?_⟩
  obtain ⟨classes, h⟩ := Inv.run hps ops _ [] (Inv.fresh kPageSize file.filename) hfit
  refine ⟨?_, h.pages_count, ?_, ?_, ?_⟩
  · rw [h.alloc_origin, h.size]
  · rw [h.alloc_origin, h.superblock_origin]
  · rw [h.alloc_origin, h.size, Nat.add_sub_cancel_left]
    exact Nat.mul_mod_left _ _
  · rw [h.alloc_origin]
    exact subU64_origin h.size h.fits

theorem Database.new_write_eq {kPageSize : Nat} {file : File} {db0 : Database} {file1 : File}
    (h : Database.new kPageSize file .kWrite = (.ok db0, file1)) :
    db0 = freshDatabase file.filename := by
  rw [Database.new_write] at h
  simp only [Prod.mk.injEq, Except.ok.injEq] at h
  exact h.1.symm

theorem freshDatabase_size (name : String) : (freshDatabase name).file_.GetSize = 136 :=
  length_freshBytes

/-- Witness of C3: page size 4096, an empty file, then `AddClass(person)` and an allocation. -/
theorem size_invariant_witness :
    sizeofClassHeader ≤ 4096 ∧
    ∃ db0, Database.new 4096 { filename := "test.data", data := [] } .kWrite =
        (.ok db0, db0.file_) ∧
      db0.file_.GetSize + [Op.addClass personClass, Op.allocatePage].length * 4096 < wordMod ∧
      (db0.run 4096 [Op.addClass personClass, Op.allocatePage]).alloc_.pagetable_offset_ +
          (db0.run 4096 [Op.addClass personClass, Op.allocatePage]).alloc_.pages_count_ * 4096 =
        (db0.run 4096 [Op.addClass personClass, Op.allocatePage]).file_.GetSize := by
  obtain ⟨db0, h0, h⟩ :=
    size_invariant 4096 (Nat.le_of_lt_succ (by decide)) { filename := "test.data", data := [] }
  have hfit : db0.file_.GetSize + [Op.addClass personClass, Op.allocatePage].length * 4096 <
      wordMod := by
    rw [Database.new_write_eq h0, freshDatabase_size]
    have hy := layout
    simp only [List.length_cons, List.length_nil]
    omega
  exact ⟨Nat.le_of_lt_succ (by decide), db0, h0, hfit, (h _ hfit).1⟩

theorem Database.AllocatePage_class_map (kPageSize : Nat) (db : Database) :
    (db.AllocatePage kPageSize).2.class_map_ = db.class_map_ := by
  unfold Database.AllocatePage
  split
  · rfl
  · split
    rfl
  · split
    · rfl
    · split
      · rfl
      · rfl

theorem ClassMap.contains_append_left {m : ClassMap} {key : Bytes}
    (h : m.contains key = true) (n : ClassMap) : ClassMap.contains (m ++ n) key = true := by
  simp only [ClassMap.contains, List.any_append, Bool.or_eq_true] at h ⊢
  exact Or.inl h

theorem ClassMap.contains_emplace_of_contains {m : ClassMap} {key : Bytes}
    (h : m.contains key = true) (k : Bytes) (v : Nat) : (m.emplace k v).contains key = true := by
  unfold ClassMap.emplace
  split
  · exact h
  · exact ClassMap.contains_append_left h _

theorem AddClass_class_map_contains {kPageSize : Nat} {db : Database} {key : Bytes}
    (h : db.class_map_.contains key = true) (c : Class) :
    (db.AddClass kPageSize c).2.class_map_.contains key = true := by
  have hA := Database.AllocatePage_class_map kPageSize db
  unfold Database.AddClass
  simp only []
  split
  · exact h
  · split
    · exact h
    · split
      · rename_i e1 db1 h1
        rw [h1] at hA
        show db1.class_map_.contains key = true
        rw [show db1.class_map_ = db.class_map_ from hA]
        exact h
      · rename_i index db1 h1
        rw [h1] at hA
        have hA' : db1.class_map_ = db.class_map_ := hA
        split
        · show db1.class_map_.contains key = true
          rw [hA']
          exact h
        · split
          · show db1.class_map_.contains key = true
            rw [hA']
            exact h
          · apply ClassMap.contains_emplace_of_contains
            rw [hA']
            exact h

theorem Database.run_class_map_contains {kPageSize : Nat} {key : Bytes} (ops : List Op) :
    ∀ db : Database, db.class_map_.contains key = true →
      (db.run kPageSize ops).class_map_.contains key = true := by
  induction ops with
  | nil => exact fun db h => h
  | cons op ops ih =>
    intro db h
    apply ih
    cases op with
    | addClass c => exact AddClass_class_map_contains h c
    | allocatePage =>
      show (db.AllocatePage kPageSize).2.class_map_.contains key = true
      rw [Database.AllocatePage_class_map]
      exact h

theorem lower_class_present :
    (Error.RuntimeError (str "Class already present in database")).lower = false := by decide

theorem lower_not_implemented (msg : Bytes) : (Error.NotImplemented msg).lower = false := rfl

theorem personClass_size : (ClassObject.ofClass personClass).GetSize = 74 := by decide

/-- The scenario S4/S5: `person` added twice to a fresh database. -/
theorem AddClass_person_twice {kPageSize : Nat}
    (hps : sizeofClassHeader + (ClassObject.ofClass personClass).GetSize ≤ kPageSize)
    (hfit : kOrigin + kPageSize < wordMod) (name : String) :
    ∃ db1, (freshDatabase name).AddClass kPageSize personClass = (.ok (), db1) ∧
      Inv kPageSize db1 [(0, personClass.Serialize)] ∧
      db1.AddClass kPageSize personClass =
        (.error (.RuntimeError (str "Class already present in database")), db1) := by
  have hy := layout
  have h0 := Inv.fresh kPageSize name
  have hsz : ¬ (ClassObject.ofClass personClass).GetSize > subU64 kPageSize sizeofClassHeader := by
    rw [subU64_page (by omega) (by omega)]
    omega
  obtain ⟨db1, e1, hi, -⟩ := h0.AddClass_ok (c := personClass) (by omega)
    (by rw [h0.size]; show kOrigin + 0 * kPageSize + kPageSize < wordMod; omega) rfl hsz
  refine ⟨db1, e1, hi, AddClass_of_contains ?_⟩
  rw [hi.class_map]
  exact ClassMap.contains_append_self [] _ _

/-- C4. `AddClass` throws `RuntimeError("Class already present in database")` exactly when the
canonical string of the class is a key of the class map; the handle (file, class
list count, allocator, class map) is then as before the call; a class added
successfully is a key afterwards and stays one through every later call on the
handle, so adding it again throws; and `person` added twice to a fresh database
succeeds once, throws once and leaves the class list count 1. -/
theorem AddClass_duplicate_iff (kPageSize : Nat) :
    (∀ (db : Database) (c : Class),
      ((db.AddClass kPageSize c).1 =
          .error (.RuntimeError (str "Class already present in database")) ↔
        db.class_map_.contains (ClassObject.ofClass c).ToString = true) ∧
      (db.class_map_.contains (ClassObject.ofClass c).ToString = true →
        (db.AddClass kPageSize c).2 = db ∧
        (db.AddClass kPageSize c).2.class_list_.GetPagesCount (db.AddClass kPageSize c).2.file_ =
          db.class_list_.GetPagesCount db.file_) ∧
      (∀ db1, db.AddClass kPageSize c = (.ok (), db1) →
        db1.class_map_.contains (ClassObject.ofClass c).ToString = true ∧
        ∀ ops : List Op, (db1.run kPageSize ops).AddClass kPageSize c =
          (.error (.RuntimeError (str "Class already present in database")),
            db1.run kPageSize ops))) ∧
    (sizeofClassHeader + (ClassObject.ofClass personClass).GetSize ≤ kPageSize →
      kOrigin + kPageSize < wordMod → ∀ file : File,
      ∃ db0 db1, Database.new kPageSize file .kWrite = (.ok db0, db0.file_) ∧
        db0.AddClass kPageSize personClass = (.ok (), db1) ∧
        db1.AddClass kPageSize personClass =
          (.error (.RuntimeError (str "Class already present in database")), db1) ∧
        db1.class_list_.GetPagesCount db1.file_ = .ok 1) := by
  refine ⟨fun db c => ⟨⟨fun h => ?_, fun h => ?_⟩, fun h => ?_, fun db1 h => ?_⟩,
    fun hps hfit file => ?_⟩
  · cases hc : db.class_map_.contains (ClassObject.ofClass c).ToString with
    | true => rfl
    | false =>
      exfalso
      by_cases hs : (ClassObject.ofClass c).GetSize > subU64 kPageSize sizeofClassHeader
      · rw [AddClass_of_too_complex hc hs] at h
        cases h
      · have := AddClass_error_lower hc hs h
        rw [lower_class_present] at this
        cases this
  · rw [AddClass_of_contains h]
  · rw [AddClass_of_contains h]
    exact ⟨rfl, rfl⟩
  · have hk := AddClass_ok_contains h
    exact ⟨hk, fun ops => AddClass_of_contains (Database.run_class_map_contains ops db1 hk)⟩
  · obtain ⟨db1, e1, hi, e2⟩ := AddClass_person_twice hps hfit file.filename
    refine ⟨_, db1, Database.new_write kPageSize file, e1, e2, ?_⟩
    have := hi.class_count
    rw [PageList.GetPagesCount, hi.class_list]
    exact this

/-- Witness of C4: `person` added twice to a fresh database with pages of 4096 bytes. -/
theorem AddClass_duplicate_iff_witness :
    sizeofClassHeader + (ClassObject.ofClass personClass).GetSize ≤ 4096 ∧
    kOrigin + 4096 < wordMod ∧
    ∃ db0 db1, Database.new 4096 { filename := "test.data", data := [] } .kWrite =
        (.ok db0, db0.file_) ∧
      db0.AddClass 4096 personClass = (.ok (), db1) ∧
      db1.AddClass 4096 personClass =
        (.error (.RuntimeError (str "Class already present in database")), db1) ∧
      db1.class_list_.GetPagesCount db1.file_ = .ok 1 := by
  have hy := layout
  have hp := personClass_size
  have h1 : sizeofClassHeader + (ClassObject.ofClass personClass).GetSize ≤ 4096 := by omega
  have h2 : kOrigin + 4096 < wordMod := by omega
  exact ⟨h1, h2, (AddClass_duplicate_iff 4096).2 h1 h2 { filename := "test.data", data := [] }⟩

/-- C5. For a class whose canonical string is not a key of the class map, `AddClass` throws
`NotImplemented("Too complex class")` (or any `NotImplemented`) exactly when the
size of the descriptor exceeds `kPageSize - sizeof(ClassHeader)`, computed in
64-bit arithmetic as in the code; the handle (file, class list count,
allocator, class map) is then as before the call. -/
theorem AddClass_too_complex_iff (kPageSize : Nat) (db : Database) (c : Class)
    (hnot : db.class_map_.contains (ClassObject.ofClass c).ToString = false) :
    ((db.AddClass kPageSize c).1 = .error (.NotImplemented (str "Too complex class")) ↔
      (ClassObject.ofClass c).GetSize > subU64 kPageSize sizeofClassHeader) ∧
    (∀ msg, (db.AddClass kPageSize c).1 = .error (.NotImplemented msg) →
      (ClassObject.ofClass c).GetSize > subU64 kPageSize sizeofClassHeader) ∧
    ((ClassObject.ofClass c).GetSize > subU64 kPageSize sizeofClassHeader →
      (db.AddClass kPageSize c).2 = db ∧
      (db.AddClass kPageSize c).2.class_list_.GetPagesCount (db.AddClass kPageSize c).2.file_ =
        db.class_list_.GetPagesCount db.file_) ∧
    (sizeofClassHeader ≤ kPageSize → kPageSize < wordMod →
      subU64 kPageSize sizeofClassHeader = kPageSize - sizeofClassHeader) := by
  have key : ∀ msg, (db.AddClass kPageSize c).1 = .error (.NotImplemented msg) →
      (ClassObject.ofClass c).GetSize > subU64 kPageSize sizeofClassHeader := by
    intro msg h
    by_cases hs : (ClassObject.ofClass c).GetSize > subU64 kPageSize sizeofClassHeader
    · exact hs
    · have := AddClass_error_lower hnot hs h
      rw [lower_not_implemented] at this
      cases this
  refine ⟨⟨key _, fun hs => ?_⟩, key, fun hs => ?_, fun h1 h2 => subU64_page h1 h2⟩
  · rw [AddClass_of_too_complex hnot hs]
  · rw [AddClass_of_too_complex hnot hs]
    exact ⟨rfl, rfl⟩

/-- Witness of C5: `person` on a fresh database with pages of 128 bytes. -/
theorem AddClass_too_complex_iff_witness :
    (freshDatabase "test.data").class_map_.contains (ClassObject.ofClass personClass).ToString =
      false ∧
    (ClassObject.ofClass personClass).GetSize > subU64 128 sizeofClassHeader ∧
    ((freshDatabase "test.data").AddClass 128 personClass).1 =
      .error (.NotImplemented (str "Too complex class")) := by
  have hs : (ClassObject.ofClass personClass).GetSize > subU64 128 sizeofClassHeader := by
    rw [personClass_size]
    decide
  exact ⟨rfl, hs, (AddClass_too_complex_iff 128 (freshDatabase "test.data") personClass rfl).1.mpr hs⟩

theorem Database.run_singleton (kPageSize : Nat) (db : Database) (op : Op) :
    db.run kPageSize [op] = db.step kPageSize op := rfl

theorem Database.step_addClass (kPageSize : Nat) (db : Database) (c : Class) :
    db.step kPageSize (Op.addClass c) = (db.AddClass kPageSize c).2 := rfl

theorem printLine_person :
    printLine 0 personClass.Serialize =
      str "[0] : _struct@person_<_string@name__string@surname__int@age__bool@male_>" := by
  decide

/-- C6. After a database is opened in `Write` mode and after every sequence of `AddClass`
calls, walking the class list and reading the descriptor at
`(index_, first_free_)` of each page succeeds and yields the pairs of the class
map, as a multiset; `PrintAllClasses(kFile)` and `PrintAllClasses(kCache)` both
succeed and print the same lines, up to order; `InitializeClassMap` run on the
file rebuilds the class map of the handle; with the single class `person` both
print modes give exactly the line `[0] : _struct@person_<...>`.  A page holds a
class header and the file stays below `2 ^ 64` bytes. -/
theorem cache_disk_agreement (kPageSize : Nat) (hps : sizeofClassHeader ≤ kPageSize)
    (file : File) :
    ∃ db0, Database.new kPageSize file .kWrite = (.ok db0, db0.file_) ∧
      (∀ cs : List Class, db0.file_.GetSize + cs.length * kPageSize < wordMod →
        ∃ entries lines,
          (db0.run kPageSize (cs.map Op.addClass)).ClassListEntries kPageSize = .ok entries ∧
          entries.Perm
            ((db0.run kPageSize (cs.map Op.addClass)).class_map_.map (fun it => (it.2, it.1))) ∧
          (db0.run kPageSize (cs.map Op.addClass)).PrintAllClasses kPageSize .kFile =
            (.ok (), lines) ∧
          ((db0.run kPageSize (cs.map Op.addClass)).PrintAllClasses kPageSize .kCache).1 =
            .ok () ∧
          lines.Perm
            ((db0.run kPageSize (cs.map Op.addClass)).PrintAllClasses kPageSize .kCache).2 ∧
          Database.InitializeClassMap kPageSize
              (db0.run kPageSize (cs.map Op.addClass)).superblock_
              (db0.run kPageSize (cs.map Op.addClass)).class_list_
              (db0.run kPageSize (cs.map Op.addClass)).alloc_
              (db0.run kPageSize (cs.map Op.addClass)).file_ =
            .ok (db0.run kPageSize (cs.map Op.addClass)).class_map_) ∧
      (sizeofClassHeader + (ClassObject.ofClass personClass).GetSize ≤ kPageSize →
        kOrigin + kPageSize < wordMod →
        (db0.run kPageSize [Op.addClass personClass]).PrintAllClasses kPageSize .kFile =
          (.ok (),
            [str "[0] : _struct@person_<_string@name__string@surname__int@age__bool@male_>"]) ∧
        (db0.run kPageSize [Op.addClass personClass]).PrintAllClasses kPageSize .kCache =
          (.ok (),
            [str "[0] : _struct@person_<_string@name__string@surname__int@age__bool@male_>"])) := by
  have hy := layout
  refine ⟨freshDatabase file.filename, Database.new_write kPageSize file, fun cs hfit => ?_,
    fun hp hfit => ?_⟩
  · obtain ⟨classes, h⟩ := Inv.run hps (cs.map Op.addClass) _ []
      (Inv.fresh kPageSize file.filename) (by rw [List.length_map]; exact hfit)
    obtain ⟨h1, h2, h3, h4, h5⟩ := h.agreement (by omega)
    refine ⟨classes, _, h1, ?_, h3, ?_, ?_, h5⟩
    · rw [h2]
    · rw [h4]
    · rw [h4]
  · obtain ⟨db1, e1, hi, -⟩ := AddClass_person_twice hp hfit file.filename
    have hrun : (freshDatabase file.filename).run kPageSize [Op.addClass personClass] = db1 := by
      rw [Database.run_singleton, Database.step_addClass, e1]
    obtain ⟨-, -, h3, h4, -⟩ := hi.agreement (by omega)
    rw [hrun, h3, h4]
    simp only [List.map_cons, List.map_nil, printLine_person, and_self]

/-- Witness of C6: page size 4096, an empty file and the single class `person`. -/
theorem cache_disk_agreement_witness :
    sizeofClassHeader ≤ 4096 ∧
    ∃ db0, Database.new 4096 { filename := "test.data", data := [] } .kWrite =
        (.ok db0, db0.file_) ∧
      db0.file_.GetSize + [personClass].length * 4096 < wordMod ∧
      (∃ entries, (db0.run 4096 ([personClass].map Op.addClass)).ClassListEntries 4096 =
          .ok entries ∧
        entries.Perm ((db0.run 4096 ([personClass].map Op.addClass)).class_map_.map
          (fun it => (it.2, it.1)))) ∧
      (db0.run 4096 [Op.addClass personClass]).PrintAllClasses 4096 .kFile =
        (.ok (),
          [str "[0] : _struct@person_<_string@name__string@surname__int@age__bool@male_>"]) ∧
      (db0.run 4096 [Op.addClass personClass]).PrintAllClasses 4096 .kCache =
        (.ok (),
          [str "[0] : _struct@person_<_string@name__string@surname__int@age__bool@male_>"]) := by
  obtain ⟨db0, h0, h1, h2⟩ :=
    cache_disk_agreement 4096 (Nat.le_of_lt_succ (by decide))
      { filename := "test.data", data := [] }
  have hy := layout
  have hp := personClass_size
  have hfit : db0.file_.GetSize + [personClass].length * 4096 < wordMod := by
    rw [Database.new_write_eq h0, freshDatabase_size]
    simp only [List.length_cons, List.length_nil]
    omega
  obtain ⟨entries, lines, e1, e2, -⟩ := h1 [personClass] hfit
  exact ⟨by omega, db0, h0, hfit, ⟨entries, e1, e2⟩, h2 (by omega) (by omega)⟩

/-! ## The magic check -/

theorem File.ReadU64_zero_eq (file : File) :
    file.ReadU64 0 = if 8 ≤ file.GetSize then .ok (decodeU64 (file.data.take 8))
      else .error (.BadArgument (str "Read out of file bounds")) := by
  simp only [File.ReadU64, File.Read, readBytes, File.GetSize, Nat.zero_add, List.drop_zero]
  by_cases h : 8 ≤ file.data.length
  · simp only [h, if_true]
  · simp only [h, if_false]

/-- C11: `Superblock::CheckConsistency` succeeds exactly when the file holds at least 8 bytes
and the 64-bit word at offset 0 is `kMagic = 0xDEADBEEF`; every other outcome,
a failed read included, is the `StructureError` of the method and no other kind
of error.  The method returns no file: it reads and never writes, and
`WriteSuperblock`, which runs it first, hands back the file untouched when it fails. -/
theorem CheckConsistency_iff (file : File) :
    kMagic = 0xDEADBEEF ∧
    (Superblock.CheckConsistency file = .ok () ↔
      8 ≤ file.GetSize ∧ decodeU64 (file.data.take 8) = kMagic) ∧
    (Superblock.CheckConsistency file ≠ .ok () →
      Superblock.CheckConsistency file = .error (.StructureError (cantOpenMsg file))) ∧
    (∀ e, Superblock.CheckConsistency file = .error e → e.isStructureError = true) ∧
    (∀ (this : Superblock) e, Superblock.CheckConsistency file = .error e →
      this.WriteSuperblock file = (.error e, file)) := by
  refine ⟨rfl, ?_, ?_, ?_, ?_⟩
  · rw [Superblock.CheckConsistency, File.ReadU64_zero_eq]
    by_cases h : 8 ≤ file.GetSize
    · rw [if_pos h]
      by_cases hm : decodeU64 (file.data.take 8) = kMagic
      · simp [hm, h]
      · simp [hm, h]
    · rw [if_neg h]
      simp [h]
  · intro hne
    rw [Superblock.CheckConsistency] at hne ⊢
    cases hr : file.ReadU64 0 with
    | error e => rfl
    | ok magic =>
      rw [hr] at hne
      simp only [] at hne ⊢
      by_cases hm : magic = kMagic
      · simp [hm] at hne
      · simp [hm]
  · intro e he
    rw [Superblock.CheckConsistency] at he
    cases hr : file.ReadU64 0 with
    | error e1 =>
      rw [hr] at he
      simp only [Except.error.injEq] at he
      subst he
      rfl
    | ok magic =>
      rw [hr] at he
      simp only [] at he
      by_cases hm : magic = kMagic
      · simp [hm] at he
      · simp only [ne_eq, hm, not_false_eq_true, if_true, Except.error.injEq] at he
        subst he
        rfl
  · intro this e he
    simp only [Superblock.WriteSuperblock, he]

/-! ## The descriptor round trip -/

theorem personMoneyClass_Serialize :
    personMoneyClass.Serialize =
      str "_struct@person_<_string@name__string@surname__int@age__unsignedlong@money_>" := by
  decide

/-- C16: a class descriptor written at an offset is read back from that offset: for every class
whose canonical string is shorter than 2^64 bytes, every file and every offset,
reading a fresh `ClassObject` at `o` after `ClassObject(C).Write(file, o)` succeeds and
its `ToString()` is the canonical string of `C`. -/
theorem ClassObject_round_trip (file : File) (o : Nat) (c : Class)
    (hs : c.Serialize.length < wordMod) :
    ∃ read_class, ClassObject.Read ((ClassObject.ofClass c).Write file o) o = .ok read_class ∧
      read_class.ToString = (ClassObject.ofClass c).ToString ∧
      read_class.ToString = c.Serialize :=
  ⟨_, ClassObject.Read_after_Write file o c.Serialize hs, rfl, rfl⟩

theorem ClassObject_round_trip_witness :
    personMoneyClass.Serialize.length < wordMod ∧
    (ClassObject.ofClass personMoneyClass).ToString =
      str "_struct@person_<_string@name__string@surname__int@age__unsignedlong@money_>" ∧
    ∃ read_class,
      ClassObject.Read ((ClassObject.ofClass personMoneyClass).Write
        (File.Clear { filename := "test.data", data := [] }) 1488) 1488 = .ok read_class ∧
      read_class.ToString = (ClassObject.ofClass personMoneyClass).ToString ∧
      read_class.ToString = personMoneyClass.Serialize :=
  have hs : personMoneyClass.Serialize.length < wordMod := by
    rw [personMoneyClass_Serialize]; decide
  ⟨hs, personMoneyClass_Serialize,
    ClassObject_round_trip (File.Clear { filename := "test.data", data := [] }) 1488
      personMoneyClass hs⟩

/-! ## Whole pages -/

theorem encodeU64_decodeU64 (bs : Bytes) (h : bs.length = 8) : encodeU64 (decodeU64 bs) = bs := by
  match bs, h with
  | [b0, b1, b2, b3, b4, b5, b6, b7], _ =>
    have h0 := b0.isLt
    have h1 := b1.isLt
    have h2 := b2.isLt
    have h3 := b3.isLt
    have h4 := b4.isLt
    have h5 := b5.isLt
    have h6 := b6.isLt
    have h7 := b7.isLt
    simp only [encodeU64, decodeU64, byteAt, List.cons.injEq, and_true]
    refine ⟨?_, ?_, ?_, ?_, ?_, ?_, ?_, ?_⟩ <;> apply Fin.ext <;> norm_num <;> omega

theorem encodeU64_wordAt (bs : Bytes) (k : Nat) (h : 8 * k + 8 ≤ bs.length) :
    encodeU64 (wordAt bs k) = (bs.drop (8 * k)).take 8 := by
  apply encodeU64_decodeU64
  simp only [List.length_take, List.length_drop]
  omega

theorem take_append_drop_word (bs : Bytes) (k : Nat) :
    (bs.drop (8 * k)).take 8 ++ bs.drop (8 * (k + 1)) = bs.drop (8 * k) := by
  have e : 8 * (k + 1) = 8 * k + 8 := by omega
  rw [e, ← List.drop_drop, List.take_append_drop]

theorem encodePage_decodePage (bs : Bytes) (h : bs.length = 48) :
    encodePage (decodePage bs) = bs := by
  simp only [encodePage, decodePage]
  rw [encodeU64_wordAt bs 0 (by omega), encodeU64_wordAt bs 1 (by omega),
    encodeU64_wordAt bs 2 (by omega), encodeU64_wordAt bs 3 (by omega),
    encodeU64_wordAt bs 4 (by omega), encodeU64_wordAt bs 5 (by omega)]
  have h6 : bs.drop (8 * 6) = [] := List.drop_of_length_le (by omega)
  have e5 := take_append_drop_word bs 5
  rw [h6, List.append_nil] at e5
  rw [e5]
  simp only [List.append_assoc]
  rw [take_append_drop_word bs 4, take_append_drop_word bs 3, take_append_drop_word bs 2,
    take_append_drop_word bs 1, take_append_drop_word bs 0]
  rfl

theorem File.ReadPageData_eq_ok {kPageSize : Nat} {f : File} {o : Nat} {d : PageData}
    (h : f.ReadPageData kPageSize o = .ok d) :
    ∃ x, f.Read kPageSize o = .ok x ∧ d = PageData.mk (decodePage (x.take sizeofPage))
      (x.drop sizeofPage) := by
  unfold File.ReadPageData at h
  cases hr : f.Read kPageSize o with
  | error e => rw [hr] at h; cases h
  | ok x => rw [hr] at h; injection h with h; exact ⟨x, rfl, h.symm⟩

theorem File.ReadPageData_ok_of_le {kPageSize : Nat} {f : File} {o : Nat}
    (h : o + kPageSize ≤ f.GetSize) : ∃ d, f.ReadPageData kPageSize o = .ok d := by
  obtain ⟨x, hx⟩ := File.Read_ok_of_le h
  refine ⟨PageData.mk (decodePage (x.take sizeofPage)) (x.drop sizeofPage), ?_⟩
  simp only [File.ReadPageData, hx]

theorem File.ReadPageData_ok_length {kPageSize : Nat} {f : File} {o : Nat} {d : PageData}
    (hp : 48 ≤ kPageSize) (h : f.ReadPageData kPageSize o = .ok d) :
    o + kPageSize ≤ f.GetSize ∧ 48 + d.bytes.length = kPageSize ∧ d.page_header.fits := by
  obtain ⟨x, hx, hd⟩ := File.ReadPageData_eq_ok h
  obtain ⟨h1, h2⟩ := File.le_of_Read_ok hx
  subst hd
  refine ⟨h1, ?_, decodePage_fits _⟩
  simp only [List.length_drop, sizeofPage]
  omega

theorem File.ReadPageData_ReadPage {kPageSize : Nat} {f : File} {o : Nat} {d : PageData}
    (hp : 48 ≤ kPageSize) (h : f.ReadPageData kPageSize o = .ok d) :
    f.ReadPage o = .ok d.page_header := by
  obtain ⟨x, hx, hd⟩ := File.ReadPageData_eq_ok h
  subst hd
  unfold File.Read at hx
  cases hr : readBytes f.data o kPageSize with
  | none => rw [hr] at hx; cases hx
  | some y =>
    rw [hr] at hx
    injection hx with hx
    subst hx
    have e : kPageSize = 48 + (kPageSize - 48) := by omega
    rw [e] at hr
    have := readBytes_take hr
    simp only [File.ReadPage, File.Read, sizeofPage, this]

theorem File.ReadPageData_WritePageData_same {kPageSize : Nat} (f : File) {d : PageData}
    (hf : d.page_header.fits) (hl : 48 + d.bytes.length = kPageSize) (off : Nat) :
    (f.WritePageData d off).ReadPageData kPageSize off = .ok d := by
  have h := File.Read_Write_same f (encodePage d.page_header ++ d.bytes) off
  rw [List.length_append, length_encodePage, hl] at h
  simp only [File.ReadPageData, File.WritePageData, h, sizeofPage]
  rw [List.take_left' (length_encodePage _), List.drop_left' (length_encodePage _),
    decodePage_encodePage hf]

theorem File.ReadPageData_Write_disjoint {kPageSize : Nat} {f : File} {o : Nat} {d : PageData}
    (h : f.ReadPageData kPageSize o = .ok d) (bs : Bytes) (off : Nat)
    (hd : o + kPageSize ≤ off ∨ off + bs.length ≤ o) :
    (f.Write bs off).ReadPageData kPageSize o = .ok d := by
  obtain ⟨x, hx, hv⟩ := File.ReadPageData_eq_ok h
  simp only [File.ReadPageData, File.Read_Write_disjoint hx bs off hd, hv]

theorem writeBytes_of_readBytes {f : Bytes} {o n : Nat} {x : Bytes}
    (h : readBytes f o n = some x) : writeBytes f o x = f := by
  obtain ⟨hl, hle, hx⟩ := getElem?_of_readBytes h
  apply List.ext_getElem?
  intro i
  rw [getElem?_writeBytes]
  by_cases h1 : i < o
  · rw [if_pos h1, if_pos (by omega)]
  · rw [if_neg h1]
    by_cases h2 : i < o + x.length
    · rw [if_pos h2, ← hx (i - o) (by omega)]
      congr 1; omega
    · rw [if_neg h2]

theorem writeBytes_writeBytes_same (f : Bytes) (o : Nat) (x y : Bytes)
    (hl : x.length = y.length) :
    writeBytes (writeBytes f o x) o y = writeBytes f o y := by
  apply List.ext_getElem?
  intro i
  rw [getElem?_writeBytes, getElem?_writeBytes, getElem?_writeBytes, length_writeBytes, hl]
  by_cases h1 : i < o
  · simp only [if_pos h1]
    by_cases h2 : i < f.length
    · rw [if_pos h2, if_pos (by omega)]
    · rw [if_neg h2]
      split <;> rfl
  · simp only [if_neg h1]
    by_cases h2 : i < o + y.length
    · simp only [if_pos h2]
    · simp only [if_neg h2]

theorem writeBytes_comm (f : Bytes) (a b : Nat) (x y : Bytes)
    (ha : a + x.length ≤ f.length) (hb : b + y.length ≤ f.length)
    (hd : a + x.length ≤ b ∨ b + y.length ≤ a) :
    writeBytes (writeBytes f a x) b y = writeBytes (writeBytes f b y) a x := by
  apply List.ext_getElem?
  intro i
  have e1 : max f.length (a + x.length) = f.length := Nat.max_eq_left ha
  have e2 : max f.length (b + y.length) = f.length := Nat.max_eq_left hb
  simp only [getElem?_writeBytes, length_writeBytes, e1, e2]
  by_cases h1 : i < a <;> by_cases h2 : i < b <;> by_cases h3 : i < a + x.length <;>
    by_cases h4 : i < b + y.length <;> by_cases h5 : i < f.length <;>
    simp only [h1, h2, h3, h4, h5, if_true, if_false] <;>
    first
      | rfl
      | omega

/-! ## PageAllocator::SwapPages -/

theorem File.WritePageData_of_ReadPageData {kPageSize : Nat} {f : File} {o : Nat} {d : PageData}
    (hp : 48 ≤ kPageSize) (h : f.ReadPageData kPageSize o = .ok d) : f.WritePageData d o = f := by
  obtain ⟨x, hx, hd⟩ := File.ReadPageData_eq_ok h
  subst hd
  obtain ⟨h1, h2⟩ := File.le_of_Read_ok hx
  have e : encodePage (decodePage (x.take sizeofPage)) ++ x.drop sizeofPage = x := by
    rw [encodePage_decodePage _ (by simp only [List.length_take, sizeofPage]; omega),
      List.take_append_drop]
  unfold File.Read at hx
  cases hr : readBytes f.data o kPageSize with
  | none => rw [hr] at hx; cases hx
  | some y =>
    rw [hr] at hx
    injection hx with hx
    subst hx
    simp only [File.WritePageData, File.Write, e, writeBytes_of_readBytes hr]

theorem File.Write_Write_same (f : File) (o : Nat) (x y : Bytes) (hl : x.length = y.length) :
    (f.Write x o).Write y o = f.Write y o := by
  simp only [File.Write, writeBytes_writeBytes_same f.data o x y hl]

theorem File.Write_comm (f : File) (a b : Nat) (x y : Bytes)
    (ha : a + x.length ≤ f.GetSize) (hb : b + y.length ≤ f.GetSize)
    (hd : a + x.length ≤ b ∨ b + y.length ≤ a) :
    (f.Write x a).Write y b = (f.Write y b).Write x a := by
  simp only [File.Write, writeBytes_comm f.data a b x y ha hb hd]

theorem File.getElem?_Write_outside (f : File) (bs : Bytes) (off i : Nat)
    (ho : off ≤ f.GetSize) (hi : i < off ∨ off + bs.length ≤ i) :
    (f.Write bs off).data[i]? = f.data[i]? := by
  simp only [File.Write, getElem?_writeBytes]
  simp only [File.GetSize] at ho
  rcases hi with hi | hi
  · rw [if_pos hi, if_pos (by omega)]
  · rw [if_neg (by omega), if_neg (by omega)]

theorem PageData.withLinksOf_self (d : PageData) : d.withLinksOf d = d := rfl

theorem PageData.withLinksOf_back (d e : PageData) :
    (d.withLinksOf e).withLinksOf (e.withLinksOf d) = d := rfl

theorem PageData.withLinksOf_fits {d e : PageData} (hd : d.page_header.fits)
    (he : e.page_header.fits) : (d.withLinksOf e).page_header.fits :=
  ⟨hd.1, he.2.1, he.2.2.1, he.2.2.2.1, hd.2.2.2.2.1, hd.2.2.2.2.2⟩

theorem PageData.length_withLinksOf (d e : PageData) :
    (encodePage (d.withLinksOf e).page_header ++ (d.withLinksOf e).bytes).length =
      48 + d.bytes.length := by
  simp only [List.length_append, length_encodePage, PageData.withLinksOf]

/-- The call `SwapPages(first, second)` on two slots that lie in the file and store their own
index: each page read is written to the slot of the other with the index and the
links of that slot. -/
theorem SwapPages_eq_ok {kPageSize : Nat} {a : PageAllocator} {file : File} {first second : Nat}
    {d1 d2 : PageData} (hs : file.GetSize < wordMod)
    (hg1 : first ≤ a.pages_count_) (hg2 : second ≤ a.pages_count_)
    (h1 : file.ReadPageData kPageSize (a.pagetable_offset_ + first * kPageSize) = .ok d1)
    (h2 : file.ReadPageData kPageSize (a.pagetable_offset_ + second * kPageSize) = .ok d2)
    (hi1 : d1.page_header.index_ = first) (hi2 : d2.page_header.index_ = second) :
    a.SwapPages kPageSize file first second =
      (.ok (), (file.WritePageData (d1.withLinksOf d2)
          (a.pagetable_offset_ + second * kPageSize)).WritePageData (d2.withLinksOf d1)
        (a.pagetable_offset_ + first * kPageSize)) := by
  obtain ⟨x1, hx1, -⟩ := File.ReadPageData_eq_ok h1
  obtain ⟨x2, hx2, -⟩ := File.ReadPageData_eq_ok h2
  have hl1 := (File.le_of_Read_ok hx1).1
  have hl2 := (File.le_of_Read_ok hx2).1
  have hA : addU64 a.pagetable_offset_ (mulU64 first kPageSize) =
      a.pagetable_offset_ + first * kPageSize :=
    @GetPageAddress_eq kPageSize (Page.new first) a.pagetable_offset_
      (show a.pagetable_offset_ + first * kPageSize < wordMod by omega)
  have hB : addU64 a.pagetable_offset_ (mulU64 second kPageSize) =
      a.pagetable_offset_ + second * kPageSize :=
    @GetPageAddress_eq kPageSize (Page.new second) a.pagetable_offset_
      (show a.pagetable_offset_ + second * kPageSize < wordMod by omega)
  unfold PageAllocator.SwapPages
  rw [if_neg (by omega)]
  simp only [Page.GetPageAddress, Page.new, hA, hB, h1, h2, hi1, hi2, PageData.withLinksOf]

theorem page_disjoint {first second : Nat} (hne : first ≠ second) (origin kPageSize : Nat) :
    origin + first * kPageSize + kPageSize ≤ origin + second * kPageSize ∨
      origin + second * kPageSize + kPageSize ≤ origin + first * kPageSize := by
  rcases Nat.lt_or_gt_of_ne hne with h | h
  · left
    have := mul_page_le (show first + 1 ≤ second by omega) kPageSize
    have := succ_mul_page first kPageSize
    omega
  · right
    have := mul_page_le (show second + 1 ≤ first by omega) kPageSize
    have := succ_mul_page second kPageSize
    omega

/-- The two slots after the writes of `SwapPages`: each holds the page of the other with its
own index and links, and the file has the size it had. -/
theorem SwapPages_reads {kPageSize : Nat} {origin : Nat} {file : File} {first second : Nat}
    {d1 d2 : PageData} (hp : 48 ≤ kPageSize)
    (h1 : file.ReadPageData kPageSize (origin + first * kPageSize) = .ok d1)
    (h2 : file.ReadPageData kPageSize (origin + second * kPageSize) = .ok d2)
    (hne : first ≠ second) :
    ((file.WritePageData (d1.withLinksOf d2) (origin + second * kPageSize)).WritePageData
        (d2.withLinksOf d1) (origin + first * kPageSize)).ReadPageData kPageSize
        (origin + first * kPageSize) = .ok (d2.withLinksOf d1) ∧
    ((file.WritePageData (d1.withLinksOf d2) (origin + second * kPageSize)).WritePageData
        (d2.withLinksOf d1) (origin + first * kPageSize)).ReadPageData kPageSize
        (origin + second * kPageSize) = .ok (d1.withLinksOf d2) ∧
    ((file.WritePageData (d1.withLinksOf d2) (origin + second * kPageSize)).WritePageData
        (d2.withLinksOf d1) (origin + first * kPageSize)).GetSize = file.GetSize := by
  obtain ⟨hl1, hb1, hf1⟩ := File.ReadPageData_ok_length hp h1
  obtain ⟨hl2, hb2, hf2⟩ := File.ReadPageData_ok_length hp h2
  have hd := page_disjoint hne origin kPageSize
  refine ⟨?_, ?_, ?_⟩
  · exact File.ReadPageData_WritePageData_same _ (PageData.withLinksOf_fits hf2 hf1) hb2 _
  · have h := @File.ReadPageData_WritePageData_same kPageSize file (d1.withLinksOf d2)
      (PageData.withLinksOf_fits hf1 hf2) hb1 (origin + second * kPageSize)
    apply File.ReadPageData_Write_disjoint h
    rw [PageData.length_withLinksOf]
    omega
  · simp only [File.WritePageData, File.GetSize_Write, PageData.length_withLinksOf]
    omega

/-- Writing back what `SwapPages` wrote, the other way round, restores the file. -/
theorem SwapPages_writes_back {kPageSize : Nat} {origin : Nat} {file : File} {first second : Nat}
    {d1 d2 : PageData} (hp : 48 ≤ kPageSize)
    (h1 : file.ReadPageData kPageSize (origin + first * kPageSize) = .ok d1)
    (h2 : file.ReadPageData kPageSize (origin + second * kPageSize) = .ok d2)
    (hne : first ≠ second) :
    ((((file.WritePageData (d1.withLinksOf d2) (origin + second * kPageSize)).WritePageData
        (d2.withLinksOf d1) (origin + first * kPageSize)).WritePageData d2
        (origin + second * kPageSize)).WritePageData d1 (origin + first * kPageSize)) = file := by
  obtain ⟨hl1, hb1, hf1⟩ := File.ReadPageData_ok_length hp h1
  obtain ⟨hl2, hb2, hf2⟩ := File.ReadPageData_ok_length hp h2
  have hd := page_disjoint hne origin kPageSize
  have e1 := PageData.length_withLinksOf d1 d2
  have e2 := PageData.length_withLinksOf d2 d1
  have e3 : (encodePage d2.page_header ++ d2.bytes).length = 48 + d2.bytes.length := by
    simp only [List.length_append, length_encodePage]
  have e4 : (encodePage d1.page_header ++ d1.bytes).length = 48 + d1.bytes.length := by
    simp only [List.length_append, length_encodePage]
  simp only [File.WritePageData] at e1 e2 ⊢
  have w2 := File.WritePageData_of_ReadPageData hp h2
  have w1 := File.WritePageData_of_ReadPageData hp h1
  simp only [File.WritePageData] at w1 w2
  have s1 := File.Write_comm file (origin + second * kPageSize) (origin + first * kPageSize)
    (encodePage (d1.withLinksOf d2).page_header ++ (d1.withLinksOf d2).bytes)
    (encodePage (d2.withLinksOf d1).page_header ++ (d2.withLinksOf d1).bytes)
    (by omega) (by omega) (by omega)
  have s2 := File.Write_Write_same
    (file.Write (encodePage (d2.withLinksOf d1).page_header ++ (d2.withLinksOf d1).bytes)
      (origin + first * kPageSize)) (origin + second * kPageSize)
    (encodePage (d1.withLinksOf d2).page_header ++ (d1.withLinksOf d2).bytes)
    (encodePage d2.page_header ++ d2.bytes) (by omega)
  have s3 := File.Write_comm file (origin + first * kPageSize) (origin + second * kPageSize)
    (encodePage (d2.withLinksOf d1).page_header ++ (d2.withLinksOf d1).bytes)
    (encodePage d2.page_header ++ d2.bytes)
    (by omega) (by omega) (by omega)
  have s4 := File.Write_Write_same file (origin + first * kPageSize)
    (encodePage (d2.withLinksOf d1).page_header ++ (d2.withLinksOf d1).bytes)
    (encodePage d1.page_header ++ d1.bytes) (by omega)
  rw [s1, s2, s3, w2, s4, w1]

set_option maxRecDepth 100000 in
theorem swapFile_size : swapFile.GetSize = 264 := by decide

set_option maxRecDepth 100000 in
theorem swapFile_read_A : swapFile.ReadPageData 64 136 = .ok swapPageA := by rfl

set_option maxRecDepth 100000 in
theorem swapFile_read_B : swapFile.ReadPageData 64 200 = .ok swapPageB := by rfl

theorem SwapPages_of_guard (kPageSize : Nat) (a : PageAllocator) (file : File)
    (first second : Nat) (h : first > a.pages_count_ ∨ second > a.pages_count_) :
    a.SwapPages kPageSize file first second =
      (.error (.BadArgument
        (str "The page index exceedes pages count: " ++ decimal a.pages_count_)), file) := by
  unfold PageAllocator.SwapPages
  rw [if_pos h]

set_option maxRecDepth 100000 in
/-- C12, the code at the failing input.  The guard of `SwapPages` is
`first > pages_count_ || second > pages_count_`: it rejects an index above the count
with `BadArgument` and leaves the file alone, but an index equal to the count
passes it.  On a file of two pages of 64 bytes with `pages_count_ = 2`,
`SwapPages(2, 0)` is not stopped by the guard: the code goes on to read a page
at offset 264, the end of the file, and what leaves the method is the error
of that read, not the error of the guard.  With a count of 1 over the same
file, `SwapPages(1, 0)` passes the guard, succeeds and rewrites both slots. -/
theorem SwapPages_guard_off_by_one :
    (∀ (kPageSize : Nat) (a : PageAllocator) (file : File) (first second : Nat),
      first > a.pages_count_ ∨ second > a.pages_count_ →
      a.SwapPages kPageSize file first second =
        (.error (.BadArgument
          (str "The page index exceedes pages count: " ++ decimal a.pages_count_)), file)) ∧
    swapAllocator.pages_count_ = 2 ∧
    swapFile.GetSize = 136 + 2 * 64 ∧
    (Page.new 2).GetPageAddress 64 swapAllocator.pagetable_offset_ = 264 ∧
    swapAllocator.SwapPages 64 swapFile 2 0 =
      (.error (.BadArgument (str "Read out of file bounds")), swapFile) ∧
    str "Read out of file bounds" ≠
      str "The page index exceedes pages count: " ++ decimal swapAllocator.pages_count_ ∧
    (PageAllocator.SwapPages 64 { pagetable_offset_ := 136, pages_count_ := 1 } swapFile 1 0).1 =
      .ok () ∧
    (PageAllocator.SwapPages 64 { pagetable_offset_ := 136, pages_count_ := 1 } swapFile 1 0).2 ≠
      swapFile :=
  ⟨SwapPages_of_guard, rfl, by decide, by decide, by rfl, by decide, by rfl, by decide⟩

set_option maxRecDepth 100000 in
/-- C13, counterexample.  On a file of two pages of 64 bytes, slot 0 holding a class header
page with links (DUMMY, 1) and a payload of 7s and slot 1 an empty page with
links (0, DUMMY) and a payload of 9s, `SwapPages(0, 1)` succeeds and slot 0 then
stores index 0 and the links (DUMMY, 1) it had, not those of slot 1, while its
type, its `actual_size_` and its payload are those slot 1 had: the payload did
not stay in place. -/
theorem SwapPages_payload_moves :
    swapFile.ReadPageData 64 136 = .ok swapPageA ∧
    swapFile.ReadPageData 64 200 = .ok swapPageB ∧
    (swapAllocator.SwapPages 64 swapFile 0 1).1 = .ok () ∧
    ∃ d, (swapAllocator.SwapPages 64 swapFile 0 1).2.ReadPageData 64 136 = .ok d ∧
      d.page_header.index_ = 0 ∧
      d.page_header.index_ ≠ swapPageB.page_header.index_ ∧
      d.page_header.previous_page_index_ ≠ swapPageB.page_header.previous_page_index_ ∧
      d.page_header.next_page_index_ ≠ swapPageB.page_header.next_page_index_ ∧
      d.page_header.type_ ≠ swapPageA.page_header.type_ ∧
      d.page_header.actual_size_ ≠ swapPageA.page_header.actual_size_ ∧
      d.bytes ≠ swapPageA.bytes ∧
      d.bytes = swapPageB.bytes :=
  ⟨by rfl, by rfl, by rfl, swapPageB.withLinksOf swapPageA, by rfl, by rfl, by decide, by decide,
    by decide, by decide, by decide, by decide, by rfl⟩

/-- C13, amended.  For distinct indices below the count whose slots lie in the file and store
their own index, `SwapPages(first, second)` succeeds, each slot keeps the index and
the two links it stored, and the remaining header fields (type, `first_free_`,
`actual_size_`) and the payload bytes of the two slots are exchanged. -/
theorem SwapPages_exchanges_contents (kPageSize : Nat) (a : PageAllocator) (file : File)
    (first second : Nat) (d1 d2 : PageData)
    (hp : 48 ≤ kPageSize) (hs : file.GetSize < wordMod)
    (hg1 : first < a.pages_count_) (hg2 : second < a.pages_count_) (hne : first ≠ second)
    (h1 : file.ReadPageData kPageSize (a.pagetable_offset_ + first * kPageSize) = .ok d1)
    (h2 : file.ReadPageData kPageSize (a.pagetable_offset_ + second * kPageSize) = .ok d2)
    (hi1 : d1.page_header.index_ = first) (hi2 : d2.page_header.index_ = second) :
    (a.SwapPages kPageSize file first second).1 = .ok () ∧
    ∃ e1 e2,
      (a.SwapPages kPageSize file first second).2.ReadPageData kPageSize
        (a.pagetable_offset_ + first * kPageSize) = .ok e1 ∧
      (a.SwapPages kPageSize file first second).2.ReadPageData kPageSize
        (a.pagetable_offset_ + second * kPageSize) = .ok e2 ∧
      e1.page_header.index_ = first ∧
      e1.page_header.previous_page_index_ = d1.page_header.previous_page_index_ ∧
      e1.page_header.next_page_index_ = d1.page_header.next_page_index_ ∧
      e1.page_header.type_ = d2.page_header.type_ ∧
      e1.page_header.first_free_ = d2.page_header.first_free_ ∧
      e1.page_header.actual_size_ = d2.page_header.actual_size_ ∧
      e1.bytes = d2.bytes ∧
      e2.page_header.index_ = second ∧
      e2.page_header.previous_page_index_ = d2.page_header.previous_page_index_ ∧
      e2.page_header.next_page_index_ = d2.page_header.next_page_index_ ∧
      e2.page_header.type_ = d1.page_header.type_ ∧
      e2.page_header.first_free_ = d1.page_header.first_free_ ∧
      e2.page_header.actual_size_ = d1.page_header.actual_size_ ∧
      e2.bytes = d1.bytes := by
  have he := SwapPages_eq_ok hs (Nat.le_of_lt hg1) (Nat.le_of_lt hg2) h1 h2 hi1 hi2
  obtain ⟨r1, r2, -⟩ := SwapPages_reads hp h1 h2 hne
  rw [he]
  exact ⟨rfl, d2.withLinksOf d1, d1.withLinksOf d2, r1, r2, hi1, rfl, rfl, rfl, rfl, rfl, rfl,
    hi2, rfl, rfl, rfl, rfl, rfl, rfl⟩

set_option maxRecDepth 100000 in
theorem SwapPages_exchanges_contents_witness :
    48 ≤ 64 ∧ swapFile.GetSize < wordMod ∧ 0 < swapAllocator.pages_count_ ∧
    1 < swapAllocator.pages_count_ ∧ 0 ≠ 1 ∧
    swapFile.ReadPageData 64 (swapAllocator.pagetable_offset_ + 0 * 64) = .ok swapPageA ∧
    swapFile.ReadPageData 64 (swapAllocator.pagetable_offset_ + 1 * 64) = .ok swapPageB ∧
    swapPageA.page_header.index_ = 0 ∧ swapPageB.page_header.index_ = 1 ∧
    (swapAllocator.SwapPages 64 swapFile 0 1).1 = .ok () ∧
    ∃ e1 e2,
      (swapAllocator.SwapPages 64 swapFile 0 1).2.ReadPageData 64
        (swapAllocator.pagetable_offset_ + 0 * 64) = .ok e1 ∧
      (swapAllocator.SwapPages 64 swapFile 0 1).2.ReadPageData 64
        (swapAllocator.pagetable_offset_ + 1 * 64) = .ok e2 ∧
      e1.page_header.index_ = 0 ∧
      e1.page_header.previous_page_index_ = swapPageA.page_header.previous_page_index_ ∧
      e1.page_header.next_page_index_ = swapPageA.page_header.next_page_index_ ∧
      e1.page_header.type_ = swapPageB.page_header.type_ ∧
      e1.page_header.first_free_ = swapPageB.page_header.first_free_ ∧
      e1.page_header.actual_size_ = swapPageB.page_header.actual_size_ ∧
      e1.bytes = swapPageB.bytes ∧
      e2.page_header.index_ = 1 ∧
      e2.page_header.previous_page_index_ = swapPageB.page_header.previous_page_index_ ∧
      e2.page_header.next_page_index_ = swapPageB.page_header.next_page_index_ ∧
      e2.page_header.type_ = swapPageA.page_header.type_ ∧
      e2.page_header.first_free_ = swapPageA.page_header.first_free_ ∧
      e2.page_header.actual_size_ = swapPageA.page_header.actual_size_ ∧
      e2.bytes = swapPageA.bytes :=
  have hs : swapFile.GetSize < wordMod := by rw [swapFile_size]; decide
  ⟨by decide, hs, by decide, by decide, by decide, swapFile_read_A, swapFile_read_B, rfl, rfl,
    SwapPages_exchanges_contents 64 swapAllocator swapFile 0 1 swapPageA swapPageB (by decide) hs
      (by decide) (by decide) (by decide) swapFile_read_A swapFile_read_B rfl rfl⟩

theorem SwapPages_same {kPageSize : Nat} {a : PageAllocator} {file : File} {first : Nat}
    {d1 : PageData} (hp : 48 ≤ kPageSize) (hs : file.GetSize < wordMod)
    (hg1 : first ≤ a.pages_count_)
    (h1 : file.ReadPageData kPageSize (a.pagetable_offset_ + first * kPageSize) = .ok d1)
    (hi1 : d1.page_header.index_ = first) :
    a.SwapPages kPageSize file first first = (.ok (), file) := by
  rw [SwapPages_eq_ok hs hg1 hg1 h1 h1 hi1 hi1, PageData.withLinksOf_self,
    File.WritePageData_of_ReadPageData hp h1, File.WritePageData_of_ReadPageData hp h1]

theorem SwapPages_twice {kPageSize : Nat} {a : PageAllocator} {file : File} {first second : Nat}
    {d1 d2 : PageData} (hp : 48 ≤ kPageSize) (hs : file.GetSize < wordMod)
    (hg1 : first ≤ a.pages_count_) (hg2 : second ≤ a.pages_count_)
    (h1 : file.ReadPageData kPageSize (a.pagetable_offset_ + first * kPageSize) = .ok d1)
    (h2 : file.ReadPageData kPageSize (a.pagetable_offset_ + second * kPageSize) = .ok d2)
    (hi1 : d1.page_header.index_ = first) (hi2 : d2.page_header.index_ = second) :
    a.SwapPages kPageSize (a.SwapPages kPageSize file first second).2 first second =
      (.ok (), file) := by
  by_cases hne : first = second
  · subst hne
    rw [SwapPages_same hp hs hg1 h1 hi1]
    exact SwapPages_same hp hs hg1 h1 hi1
  · obtain ⟨r1, r2, r3⟩ := SwapPages_reads hp h1 h2 hne
    rw [SwapPages_eq_ok hs hg1 hg2 h1 h2 hi1 hi2]
    rw [SwapPages_eq_ok (by rw [r3]; exact hs) hg1 hg2 r1 r2 hi1 hi2, PageData.withLinksOf_back,
      PageData.withLinksOf_back]
    exact congrArg _ (SwapPages_writes_back hp h1 h2 hne)

theorem SwapPages_outside {kPageSize : Nat} {a : PageAllocator} {file : File}
    {first second : Nat} {d1 d2 : PageData} (hp : 48 ≤ kPageSize) (hs : file.GetSize < wordMod)
    (hg1 : first ≤ a.pages_count_) (hg2 : second ≤ a.pages_count_)
    (h1 : file.ReadPageData kPageSize (a.pagetable_offset_ + first * kPageSize) = .ok d1)
    (h2 : file.ReadPageData kPageSize (a.pagetable_offset_ + second * kPageSize) = .ok d2)
    (hi1 : d1.page_header.index_ = first) (hi2 : d2.page_header.index_ = second) (i : Nat)
    (ho1 : i < a.pagetable_offset_ + first * kPageSize ∨
      a.pagetable_offset_ + first * kPageSize + kPageSize ≤ i)
    (ho2 : i < a.pagetable_offset_ + second * kPageSize ∨
      a.pagetable_offset_ + second * kPageSize + kPageSize ≤ i) :
    (a.SwapPages kPageSize file first second).2.data[i]? = file.data[i]? := by
  obtain ⟨hl1, hb1, hf1⟩ := File.ReadPageData_ok_length hp h1
  obtain ⟨hl2, hb2, hf2⟩ := File.ReadPageData_ok_length hp h2
  rw [SwapPages_eq_ok hs hg1 hg2 h1 h2 hi1 hi2]
  simp only [File.WritePageData]
  rw [File.getElem?_Write_outside _ _ _ _ (by simp only [File.GetSize_Write]; omega)
      (by rw [PageData.length_withLinksOf]; omega),
    File.getElem?_Write_outside _ _ _ _ (by omega) (by rw [PageData.length_withLinksOf]; omega)]

/-- C20: `SwapPages` keeps slot identities and is an involution.  For two indices below the
count whose slots lie in the file and store their own index, `SwapPages(first, second)`
succeeds; afterwards each slot stores the index and the two links it stored before
and the type, `first_free_`, `actual_size_` and payload bytes the other slot held; the
file keeps its size and every byte outside the two pages; with `first = second`
the file is unchanged; and a second `SwapPages(first, second)` succeeds and gives back
the file byte for byte. -/
theorem SwapPages_involution (kPageSize : Nat) (a : PageAllocator) (file : File)
    (first second : Nat) (d1 d2 : PageData)
    (hp : 48 ≤ kPageSize) (hs : file.GetSize < wordMod)
    (hg1 : first < a.pages_count_) (hg2 : second < a.pages_count_)
    (h1 : file.ReadPageData kPageSize (a.pagetable_offset_ + first * kPageSize) = .ok d1)
    (h2 : file.ReadPageData kPageSize (a.pagetable_offset_ + second * kPageSize) = .ok d2)
    (hi1 : d1.page_header.index_ = first) (hi2 : d2.page_header.index_ = second) :
    (a.SwapPages kPageSize file first second).1 = .ok () ∧
    (∃ e1 e2,
      (a.SwapPages kPageSize file first second).2.ReadPageData kPageSize
        (a.pagetable_offset_ + first * kPageSize) = .ok e1 ∧
      (a.SwapPages kPageSize file first second).2.ReadPageData kPageSize
        (a.pagetable_offset_ + second * kPageSize) = .ok e2 ∧
      e1.page_header.index_ = first ∧
      e1.page_header.previous_page_index_ = d1.page_header.previous_page_index_ ∧
      e1.page_header.next_page_index_ = d1.page_header.next_page_index_ ∧
      e1.page_header.type_ = d2.page_header.type_ ∧
      e1.page_header.first_free_ = d2.page_header.first_free_ ∧
      e1.page_header.actual_size_ = d2.page_header.actual_size_ ∧
      e1.bytes = d2.bytes ∧
      e2.page_header.index_ = second ∧
      e2.page_header.previous_page_index_ = d2.page_header.previous_page_index_ ∧
      e2.page_header.next_page_index_ = d2.page_header.next_page_index_ ∧
      e2.page_header.type_ = d1.page_header.type_ ∧
      e2.page_header.first_free_ = d1.page_header.first_free_ ∧
      e2.page_header.actual_size_ = d1.page_header.actual_size_ ∧
      e2.bytes = d1.bytes) ∧
    (a.SwapPages kPageSize file first second).2.GetSize = file.GetSize ∧
    (∀ i, (i < a.pagetable_offset_ + first * kPageSize ∨
        a.pagetable_offset_ + first * kPageSize + kPageSize ≤ i) →
      (i < a.pagetable_offset_ + second * kPageSize ∨
        a.pagetable_offset_ + second * kPageSize + kPageSize ≤ i) →
      (a.SwapPages kPageSize file first second).2.data[i]? = file.data[i]?) ∧
    (first = second → (a.SwapPages kPageSize file first second).2 = file) ∧
    a.SwapPages kPageSize (a.SwapPages kPageSize file first second).2 first second =
      (.ok (), file) := by
  have hg1 := Nat.le_of_lt hg1
  have hg2 := Nat.le_of_lt hg2
  refine ⟨?_, ?_, ?_, ?_, ?_, SwapPages_twice hp hs hg1 hg2 h1 h2 hi1 hi2⟩
  · rw [SwapPages_eq_ok hs hg1 hg2 h1 h2 hi1 hi2]
  · by_cases hne : first = second
    · subst hne
      have e : d1 = d2 := by
        rw [h1] at h2
        injection h2
      subst e
      rw [SwapPages_same hp hs hg1 h1 hi1]
      exact ⟨d1, d1, h1, h1, hi1, rfl, rfl, rfl, rfl, rfl, rfl, hi1, rfl, rfl, rfl, rfl, rfl, rfl⟩
    · obtain ⟨r1, r2, -⟩ := SwapPages_reads hp h1 h2 hne
      rw [SwapPages_eq_ok hs hg1 hg2 h1 h2 hi1 hi2]
      exact ⟨d2.withLinksOf d1, d1.withLinksOf d2, r1, r2, hi1, rfl, rfl, rfl, rfl, rfl, rfl,
        hi2, rfl, rfl, rfl, rfl, rfl, rfl⟩
  · by_cases hne : first = second
    · subst hne
      rw [SwapPages_same hp hs hg1 h1 hi1]
    · rw [SwapPages_eq_ok hs hg1 hg2 h1 h2 hi1 hi2]
      exact (SwapPages_reads hp h1 h2 hne).2.2
  · intro i ho1 ho2
    exact SwapPages_outside hp hs hg1 hg2 h1 h2 hi1 hi2 i ho1 ho2
  · intro he
    subst he
    rw [SwapPages_same hp hs hg1 h1 hi1]

set_option maxRecDepth 100000 in
theorem SwapPages_involution_witness :
    48 ≤ 64 ∧ swapFile.GetSize < wordMod ∧ 0 < swapAllocator.pages_count_ ∧
    1 < swapAllocator.pages_count_ ∧
    swapFile.ReadPageData 64 (swapAllocator.pagetable_offset_ + 0 * 64) = .ok swapPageA ∧
    swapFile.ReadPageData 64 (swapAllocator.pagetable_offset_ + 1 * 64) = .ok swapPageB ∧
    swapPageA.page_header.index_ = 0 ∧ swapPageB.page_header.index_ = 1 ∧
    (swapAllocator.SwapPages 64 swapFile 0 1).1 = .ok () ∧
    (swapAllocator.SwapPages 64 swapFile 0 1).2 ≠ swapFile ∧
    (swapAllocator.SwapPages 64 swapFile 0 1).2.GetSize = swapFile.GetSize ∧
    swapAllocator.SwapPages 64 (swapAllocator.SwapPages 64 swapFile 0 1).2 0 1 =
      (.ok (), swapFile) :=
  have hs : swapFile.GetSize < wordMod := by rw [swapFile_size]; decide
  have h := SwapPages_involution 64 swapAllocator swapFile 0 1 swapPageA swapPageB (by decide) hs
    (by decide) (by decide) swapFile_read_A swapFile_read_B rfl rfl
  ⟨by decide, hs, by decide, by decide, swapFile_read_A, swapFile_read_B, rfl, rfl,
    h.1, by decide, h.2.2.1, h.2.2.2.2.2⟩

/-! ## The page a class is stored in -/

theorem writeBytes_append (f : Bytes) (o : Nat) (x y : Bytes) :
    writeBytes (writeBytes f o x) (o + x.length) y = writeBytes f o (x ++ y) := by
  apply List.ext_getElem?
  intro i
  simp only [getElem?_writeBytes, length_writeBytes, List.length_append, List.getElem?_append]
  by_cases h1 : i < o
  · have h2 : i < o + x.length := by omega
    have h3 : i < max f.length (o + x.length) := by omega
    simp only [h1, h2, h3, if_true]
  · by_cases h2 : i < o + x.length
    · have h3 : i < o + (x.length + y.length) := by omega
      have h4 : i - o < x.length := by omega
      have h5 : i < max f.length (o + x.length) := by omega
      simp only [h1, h2, h3, h4, h5, if_true, if_false]
    · by_cases h3 : i < o + x.length + y.length
      · have h4 : i < o + (x.length + y.length) := by omega
        have h5 : ¬ i - o < x.length := by omega
        have h6 : i - (o + x.length) = i - o - x.length := by omega
        simp only [h1, h2, h3, h4, h5, h6, if_true, if_false]
      · have h4 : ¬ i < o + (x.length + y.length) := by omega
        simp only [h1, h2, h3, h4, if_false]

theorem File.Write_append (f : File) (o : Nat) (x y : Bytes) :
    (f.Write x o).Write y (o + x.length) = f.Write (x ++ y) o := by
  simp only [File.Write, writeBytes_append]

theorem ClassObject.Write_eq (c : ClassObject) (f : File) (o : Nat) :
    c.Write f o = f.Write (encodeU64 c.serialized_.length ++ c.serialized_) o := by
  have h := File.Write_append f o (encodeU64 c.serialized_.length) c.serialized_
  rw [length_encodeU64] at h
  exact h

theorem length_classImage (header1 : ClassHeader) (c : ClassObject) :
    (classImage header1 c).length = sizeofClassHeader + c.GetSize := by
  simp only [classImage, List.length_append, length_encodeClassHeader, length_encodeU64,
    ClassObject.GetSize, sizeofWord, sizeofClassHeader, sizeofPage]

/-- The file a successful `AddClass` leaves is the file after the `PushBack` with one image
written at the address of the page whose index the header read back stores. -/
theorem afterAddClass_file_eq (kPageSize : Nat) (db1 : Database) (file2 : File)
    (header1 : ClassHeader) (c : ClassObject)
    (hfit : db1.superblock_.pagetable_offset_ + header1.index_ * kPageSize + sizeofClassHeader <
      wordMod) :
    (Database.afterAddClass kPageSize db1 file2 header1 c).file_ =
      file2.Write (classImage header1 c)
        (db1.superblock_.pagetable_offset_ + header1.index_ * kPageSize) ∧
    (Database.afterAddClass kPageSize db1 file2 header1 c).class_map_ =
      db1.class_map_.emplace c.ToString header1.index_ := by
  have hA : addU64 db1.superblock_.pagetable_offset_ (mulU64 header1.index_ kPageSize) =
      db1.superblock_.pagetable_offset_ + header1.index_ * kPageSize :=
    @GetPageAddress_eq kPageSize header1.toPage db1.superblock_.pagetable_offset_ (by omega)
  have hG : Database.GetOffset kPageSize db1.superblock_ header1.index_ sizeofClassHeader =
      db1.superblock_.pagetable_offset_ + header1.index_ * kPageSize + sizeofClassHeader :=
    GetOffset_eq hfit
  have e1 : (Database.afterAddClass kPageSize db1 file2 header1 c).file_ =
      c.Write
        ((file2.Write (encodeClassHeader (header1.afterInit 0))
          (addU64 db1.superblock_.pagetable_offset_ (mulU64 header1.index_ kPageSize))).Write
            (encodeClassHeader (header1.afterInit c.GetSize))
            (addU64 db1.superblock_.pagetable_offset_ (mulU64 header1.index_ kPageSize)))
        (Database.GetOffset kPageSize db1.superblock_ header1.index_ sizeofClassHeader) := rfl
  refine ⟨?_, rfl⟩
  rw [e1, hA, hG, ClassObject.Write_eq,
    File.Write_Write_same _ _ _ _ (by rw [length_encodeClassHeader, length_encodeClassHeader])]
  have h := File.Write_append file2
    (db1.superblock_.pagetable_offset_ + header1.index_ * kPageSize)
    (encodeClassHeader (header1.afterInit c.GetSize))
    (encodeU64 c.serialized_.length ++ c.serialized_)
  rw [length_encodeClassHeader] at h
  exact h

theorem AddClass_ok_inv {kPageSize : Nat} {db db2 : Database} {c : Class}
    (h : db.AddClass kPageSize c = (.ok (), db2)) :
    db.class_map_.contains (ClassObject.ofClass c).ToString = false ∧
    ¬ (ClassObject.ofClass c).GetSize > subU64 kPageSize sizeofClassHeader ∧
    ∃ index file2 header1,
      (db.AllocatePage kPageSize).1 = .ok index ∧
      (db.AllocatePage kPageSize).2.class_list_.PushBack kPageSize
        (db.AllocatePage kPageSize).2.alloc_ (db.AllocatePage kPageSize).2.file_ index =
          (.ok (), file2) ∧
      (ClassHeader.new index).ReadClassHeader kPageSize
        (db.AllocatePage kPageSize).2.superblock_.pagetable_offset_ file2 = .ok header1 ∧
      db2 = Database.afterAddClass kPageSize (db.AllocatePage kPageSize).2 file2 header1
        (ClassObject.ofClass c) := by
  unfold Database.AddClass at h
  simp only [] at h
  split at h
  · cases h
  · rename_i hnot
    split at h
    · cases h
    · rename_i hsz
      refine ⟨by simpa using hnot, hsz, ?_⟩
      split at h
      · cases h
      · rename_i index db1 hA
        split at h
        · cases h
        · rename_i file2 hP
          split at h
          · cases h
          · rename_i header1 hR
            simp only [Prod.mk.injEq, true_and] at h
            rw [hA]
            exact ⟨index, file2, header1, rfl, hP, hR, h.symm⟩

theorem decodeClassHeader_encodeClassHeader {h : ClassHeader} (h1 : h.toPage.fits)
    (h2 : h.node_list_sentinel_.fits) (h3 : h.node_pages_count_ < wordMod)
    (h4 : h.nodes_ < wordMod) : decodeClassHeader (encodeClassHeader h) = h := by
  have e1 : decodePage (encodeClassHeader h) = h.toPage := by
    simp only [encodeClassHeader, List.append_assoc]
    exact decodePage_encodePage_append h1 _
  have e2 : (encodeClassHeader h).drop 48 =
      encodePage h.node_list_sentinel_ ++ (encodeU64 h.node_pages_count_ ++ encodeU64 h.nodes_) := by
    simp only [encodeClassHeader, List.append_assoc]
    exact List.drop_left' (length_encodePage _)
  have e3 : decodePage ((encodeClassHeader h).drop 48) = h.node_list_sentinel_ := by
    rw [e2]
    exact decodePage_encodePage_append h2 _
  have e4 : ∀ k, wordAt (encodeClassHeader h) (12 + k) =
      wordAt (encodeU64 h.node_pages_count_ ++ encodeU64 h.nodes_) k := by
    intro k
    have a1 := wordAt_drop (encodeClassHeader h) 6 (6 + k)
    have a2 := wordAt_drop (encodePage h.node_list_sentinel_ ++
      (encodeU64 h.node_pages_count_ ++ encodeU64 h.nodes_)) 6 k
    rw [show 8 * 6 = 48 from rfl] at a1 a2
    rw [List.drop_left' (length_encodePage _)] at a2
    rw [e2] at a1
    rw [show 12 + k = 6 + (6 + k) by omega, ← a1, ← a2]
  have e5 : wordAt (encodeClassHeader h) 12 = h.node_pages_count_ := by
    rw [e4 0, wordAt_zero_encodeU64, Nat.mod_eq_of_lt h3]
  have e6 : wordAt (encodeClassHeader h) 13 = h.nodes_ := by
    have := e4 1
    rw [this, wordAt_succ_encodeU64]
    have := wordAt_zero_encodeU64 h.nodes_ []
    rw [List.append_nil] at this
    rw [this, Nat.mod_eq_of_lt h4]
  simp only [decodeClassHeader, e1, e3, e5, e6]

theorem ClassHeader.afterInit_fits {header1 : ClassHeader} {size : Nat}
    (hf : header1.toPage.fits) (hs : size < wordMod) : (header1.afterInit size).toPage.fits := by
  have hy := layout
  refine ⟨?_, hf.2.1, hf.2.2.1, hf.2.2.2.1, ?_, hs⟩
  · show PageType.kClassHeader.toWord < wordMod
    rw [hy.2.2.2.2.2.2.2.2.2.2.2.2.1]
    decide
  · show sizeofClassHeader < wordMod
    omega

theorem ReadClassHeader_ok_fits {kPageSize : Nat} {this header1 : ClassHeader} {origin : Nat}
    {file : File} (h : this.ReadClassHeader kPageSize origin file = .ok header1) :
    header1.toPage.fits := by
  unfold ClassHeader.ReadClassHeader at h
  split at h
  · injection h with h
    rw [← h]
    exact decodePage_fits _
  · cases h

/-- The class header read back from the page after the image of `AddClass` was written. -/
theorem ReadClassHeader_classImage (kPageSize : Nat) (f : File) (header1 : ClassHeader)
    (c : ClassObject) (origin index : Nat) (hf : header1.toPage.fits)
    (hfit : origin + index * kPageSize < wordMod) (hs : c.GetSize < wordMod) :
    (ClassHeader.new index).ReadClassHeader kPageSize origin
      (f.Write (classImage header1 c) (origin + index * kPageSize)) =
        .ok (header1.afterInit c.GetSize) := by
  have hA : (ClassHeader.new index).toPage.GetPageAddress kPageSize origin =
      origin + index * kPageSize := GetPageAddress_eq hfit
  have h1 := readBytes_writeBytes_inside f.data (origin + index * kPageSize)
    (classImage header1 c) 0 sizeofClassHeader (by rw [length_classImage]; omega)
  rw [List.drop_zero, Nat.add_zero] at h1
  have h2 : (classImage header1 c).take sizeofClassHeader =
      encodeClassHeader (header1.afterInit c.GetSize) :=
    List.take_left' (length_encodeClassHeader _)
  rw [h2] at h1
  have h3 : (f.Write (classImage header1 c) (origin + index * kPageSize)).Read sizeofClassHeader
      (origin + index * kPageSize) = .ok (encodeClassHeader (header1.afterInit c.GetSize)) :=
    File.Read_of_readBytes h1
  simp only [ClassHeader.ReadClassHeader, hA, h3]
  rw [decodeClassHeader_encodeClassHeader (ClassHeader.afterInit_fits hf hs)
    Page.fits_sentinelPage (show 0 < wordMod by decide) (show 0 < wordMod by decide)]

theorem Database.AllocatePage_lists (kPageSize : Nat) (db : Database) :
    (db.AllocatePage kPageSize).2.superblock_ = db.superblock_ ∧
    (db.AllocatePage kPageSize).2.class_list_ = db.class_list_ ∧
    (db.AllocatePage kPageSize).2.free_list_ = db.free_list_ := by
  unfold Database.AllocatePage
  split
  · exact ⟨rfl, rfl, rfl⟩
  · exact ⟨rfl, rfl, rfl⟩
  · split
    · exact ⟨rfl, rfl, rfl⟩
    · split
      · exact ⟨rfl, rfl, rfl⟩
      · exact ⟨rfl, rfl, rfl⟩

/-- The stages of `AddClass` on a handle opened in Write mode: the page allocated is the
new page `pages_count_`, and the header read back after the `PushBack` is the fresh
header of that page linked after the last class page. -/
theorem Inv.AddClass_stages {kPageSize : Nat} {db : Database} {classes : List (Nat × Bytes)}
    (h : Inv kPageSize db classes) (hps : sizeofClassHeader ≤ kPageSize)
    (hfit : db.file_.GetSize + kPageSize < wordMod) {index : Nat} {file2 : File}
    {header1 : ClassHeader}
    (hA : (db.AllocatePage kPageSize).1 = .ok index)
    (hP : (db.AllocatePage kPageSize).2.class_list_.PushBack kPageSize
        (db.AllocatePage kPageSize).2.alloc_ (db.AllocatePage kPageSize).2.file_ index =
          (.ok (), file2))
    (hR : (ClassHeader.new index).ReadClassHeader kPageSize
        (db.AllocatePage kPageSize).2.superblock_.pagetable_offset_ file2 = .ok header1) :
    index = db.alloc_.pages_count_ ∧
    db.superblock_.pagetable_offset_ = kOrigin ∧
    header1.toPage = { Page.new index with
      previous_page_index_ := lastIndex classes kDummyIndex, next_page_index_ := kDummyIndex } ∧
    file2.GetSize = kOrigin + (index + 1) * kPageSize ∧
    file2.GetSize < wordMod := by
  have hy := layout
  obtain ⟨hi, hnew⟩ := h.afterAllocate hps hfit
  have hm := succ_mul_page db.alloc_.pages_count_ kPageSize
  have hsize0 := h.size
  have hsize1 : (db.afterAllocate kPageSize).file_.GetSize =
      kOrigin + (db.alloc_.pages_count_ + 1) * kPageSize := hi.size
  have hfits1 := hi.fits
  rw [hsize0] at hnew
  rw [h.AllocatePage_eq hps hfit] at hA hP hR
  simp only [Except.ok.injEq] at hA
  subst hA
  obtain ⟨sentinel, hS, hSn, hSp⟩ := hi.class_sentinel
  obtain ⟨file1, sentinel1, hpush, hsz2, hS2, hS2n, hS2p, hcount2, hchain2, hpage2, hfr1, hfr2⟩ :=
    PushBack_class (l := (db.afterAllocate kPageSize).class_list_)
      (a := (db.afterAllocate kPageSize).alloc_) hi.class_list hi.alloc_origin
      (Nat.le_of_eq hsize1.symm) hfits1 hps hS hSn hSp hi.class_count h.length_le hi.chain
      h.sorted h.below hnew
  rw [hpush] at hP
  simp only [Prod.mk.injEq, true_and] at hP
  subst hP
  have haddr : (ClassHeader.new db.alloc_.pages_count_).toPage.GetPageAddress kPageSize
      (db.afterAllocate kPageSize).superblock_.pagetable_offset_ =
        kOrigin + db.alloc_.pages_count_ * kPageSize := by
    rw [hi.superblock_origin]
    exact GetPageAddress_eq (by
      show kOrigin + db.alloc_.pages_count_ * kPageSize < wordMod
      omega)
  unfold ClassHeader.ReadClassHeader at hR
  rw [haddr] at hR
  cases hbs : file1.Read sizeofClassHeader (kOrigin + db.alloc_.pages_count_ * kPageSize) with
  | error e => rw [hbs] at hR; cases hR
  | ok bs =>
    rw [hbs] at hR
    simp only [Except.ok.injEq] at hR
    subst hR
    exact ⟨rfl, h.superblock_origin, decodeClassHeader_toPage hbs hpage2, by rw [hsz2, hsize1],
      by rw [hsz2]; exact hfits1⟩

/-- C18: the bytes a successful `AddClass` writes for the class header and the descriptor stay
inside one page.  With pages that hold a class header, a successful call has
`first_free_ + size = sizeof(ClassHeader) + size ≤ kPageSize` for the descriptor's size; it
allocates a page `index`, pushes it on the class list and reads the header back;
when that header stores `index` and the page lies in the file, the file the call
leaves is the file after the `PushBack` with one image of
`sizeof(ClassHeader) + size` bytes written at the address of the page, so the file
keeps its size and every byte outside `[address, address + kPageSize)`.  On a handle
opened in Write mode the page is the new page `pages_count_`, its header stores its
index and it lies in the file. -/
theorem AddClass_within_page (kPageSize : Nat) (db db2 : Database) (c : Class)
    (hps : sizeofClassHeader ≤ kPageSize) (hpw : kPageSize < wordMod)
    (h : db.AddClass kPageSize c = (.ok (), db2)) :
    sizeofClassHeader + (ClassObject.ofClass c).GetSize ≤ kPageSize ∧
    ∃ index file2 header1,
      (db.AllocatePage kPageSize).1 = .ok index ∧
      (db.AllocatePage kPageSize).2.class_list_.PushBack kPageSize
        (db.AllocatePage kPageSize).2.alloc_ (db.AllocatePage kPageSize).2.file_ index =
          (.ok (), file2) ∧
      (ClassHeader.new index).ReadClassHeader kPageSize db.superblock_.pagetable_offset_ file2 =
        .ok header1 ∧
      (header1.afterInit (ClassObject.ofClass c).GetSize).first_free_ = sizeofClassHeader ∧
      (classImage header1 (ClassObject.ofClass c)).length =
        sizeofClassHeader + (ClassObject.ofClass c).GetSize ∧
      (header1.index_ = index →
        db.superblock_.pagetable_offset_ + (index + 1) * kPageSize ≤ file2.GetSize →
        file2.GetSize < wordMod →
          db2.file_ = file2.Write (classImage header1 (ClassObject.ofClass c))
            (db.superblock_.pagetable_offset_ + index * kPageSize) ∧
          db2.file_.GetSize = file2.GetSize ∧
          ∀ k, (k < db.superblock_.pagetable_offset_ + index * kPageSize ∨
              db.superblock_.pagetable_offset_ + index * kPageSize + kPageSize ≤ k) →
            db2.file_.data[k]? = file2.data[k]?) ∧
      (∀ classes, Inv kPageSize db classes → db.file_.GetSize + kPageSize < wordMod →
        index = db.alloc_.pages_count_ ∧ header1.index_ = index ∧
        db.superblock_.pagetable_offset_ = kOrigin ∧
        file2.GetSize = db.superblock_.pagetable_offset_ + (index + 1) * kPageSize ∧
        file2.GetSize < wordMod) := by
  have hy := layout
  obtain ⟨hnot, hsz, index, file2, header1, hA, hP, hR, hdb⟩ := AddClass_ok_inv h
  have hsb := (Database.AllocatePage_lists kPageSize db).1
  have hlen : sizeofClassHeader + (ClassObject.ofClass c).GetSize ≤ kPageSize := by
    rw [subU64_page hps hpw] at hsz
    omega
  refine ⟨hlen, index, file2, header1, hA, hP, by rw [← hsb]; exact hR, rfl,
    length_classImage _ _, ?_, ?_⟩
  · intro hidx hin hlt
    have hm := succ_mul_page index kPageSize
    have hfile := (afterAddClass_file_eq kPageSize (db.AllocatePage kPageSize).2 file2 header1
      (ClassObject.ofClass c) (by rw [hsb, hidx]; omega)).1
    rw [← hdb, hsb, hidx] at hfile
    refine ⟨hfile, ?_, ?_⟩
    · rw [hfile, File.GetSize_Write, length_classImage]
      omega
    · intro k hk
      rw [hfile]
      apply File.getElem?_Write_outside _ _ _ _ (by omega)
      rw [length_classImage]
      omega
  · intro classes hinv hfit
    obtain ⟨h1, h2, h3, h4, h5⟩ := hinv.AddClass_stages hps hfit hA hP hR
    refine ⟨h1, by rw [show header1.index_ = header1.toPage.index_ from rfl, h3]; rfl, h2, ?_, h5⟩
    rw [h2, h4]

theorem AddClass_within_page_witness :
    sizeofClassHeader ≤ 4096 ∧ 4096 < wordMod ∧
    ∃ db2, (freshDatabase "test.data").AddClass 4096 personClass = (.ok (), db2) ∧
      sizeofClassHeader + (ClassObject.ofClass personClass).GetSize ≤ 4096 ∧
      db2.file_.GetSize = kOrigin + 4096 := by
  have hy := layout
  have hp := personClass_size
  have hps : sizeofClassHeader ≤ 4096 := by omega
  have hpw : 4096 < wordMod := by omega
  obtain ⟨db2, e1, -, -⟩ := @AddClass_person_twice 4096 (by omega) (by omega) "test.data"
  obtain ⟨hle, index, file2, header1, hA, hP, hR, -, -, hgen, hinv⟩ :=
    AddClass_within_page 4096 (freshDatabase "test.data") db2 personClass hps hpw e1
  have h0 := Inv.fresh 4096 "test.data"
  obtain ⟨i1, i2, i3, i4, i5⟩ := hinv [] h0
    (by rw [h0.size]; show kOrigin + 0 * 4096 + 4096 < wordMod; omega)
  obtain ⟨g1, g2, g3⟩ := hgen i2 (Nat.le_of_eq i4.symm) i5
  have hz : index = 0 := i1
  subst hz
  refine ⟨hps, hpw, db2, e1, hle, ?_⟩
  rw [g2, i4, i3]

/-- C19: the page header after a successful `AddClass`.  The call allocates a page `index`, pushes
it on the class list and reads the header back from the file the `PushBack` left;
when that header stores `index` and the page lies in the file, the class header
read from the address of the page after the call has index `index`, type
`kClassHeader`, `actual_size_` the size of the descriptor, `first_free_ = sizeof(ClassHeader)`,
a node-list sentinel of type `kSentinel` whose index and two links are `kDummyIndex`,
both counters 0, and the two links the header had after the `PushBack`.  On a
handle opened in Write mode the page is the new page `pages_count_`, its header
stores its index, it lies in the file, and the links the `PushBack` wrote are the
last class page (or `kDummyIndex`) before and `kDummyIndex` after. -/
theorem AddClass_header_postcondition (kPageSize : Nat) (db db2 : Database) (c : Class)
    (hps : sizeofClassHeader ≤ kPageSize) (hpw : kPageSize < wordMod)
    (h : db.AddClass kPageSize c = (.ok (), db2)) :
    ∃ index file2 header1,
      (db.AllocatePage kPageSize).1 = .ok index ∧
      (db.AllocatePage kPageSize).2.class_list_.PushBack kPageSize
        (db.AllocatePage kPageSize).2.alloc_ (db.AllocatePage kPageSize).2.file_ index =
          (.ok (), file2) ∧
      (ClassHeader.new index).ReadClassHeader kPageSize db.superblock_.pagetable_offset_ file2 =
        .ok header1 ∧
      (header1.index_ = index →
        db.superblock_.pagetable_offset_ + (index + 1) * kPageSize ≤ file2.GetSize →
        file2.GetSize < wordMod →
          ∃ hdr, (ClassHeader.new index).ReadClassHeader kPageSize
              db.superblock_.pagetable_offset_ db2.file_ = .ok hdr ∧
            hdr.index_ = index ∧
            hdr.type_ = PageType.kClassHeader.toWord ∧
            hdr.actual_size_ = (ClassObject.ofClass c).GetSize ∧
            hdr.first_free_ = sizeofClassHeader ∧
            hdr.node_list_sentinel_.type_ = PageType.kSentinel.toWord ∧
            hdr.node_list_sentinel_.index_ = kDummyIndex ∧
            hdr.node_list_sentinel_.previous_page_index_ = kDummyIndex ∧
            hdr.node_list_sentinel_.next_page_index_ = kDummyIndex ∧
            hdr.node_pages_count_ = 0 ∧ hdr.nodes_ = 0 ∧
            hdr.previous_page_index_ = header1.previous_page_index_ ∧
            hdr.next_page_index_ = header1.next_page_index_) ∧
      (∀ classes, Inv kPageSize db classes → db.file_.GetSize + kPageSize < wordMod →
        index = db.alloc_.pages_count_ ∧ header1.index_ = index ∧
        db.superblock_.pagetable_offset_ = kOrigin ∧
        file2.GetSize = db.superblock_.pagetable_offset_ + (index + 1) * kPageSize ∧
        file2.GetSize < wordMod ∧
        header1.previous_page_index_ = lastIndex classes kDummyIndex ∧
        header1.next_page_index_ = kDummyIndex) := by
  have hy := layout
  obtain ⟨hnot, hsz, index, file2, header1, hA, hP, hR, hdb⟩ := AddClass_ok_inv h
  have hsb := (Database.AllocatePage_lists kPageSize db).1
  have hlen : sizeofClassHeader + (ClassObject.ofClass c).GetSize ≤ kPageSize := by
    rw [subU64_page hps hpw] at hsz
    omega
  refine ⟨index, file2, header1, hA, hP, by rw [← hsb]; exact hR, ?_, ?_⟩
  · intro hidx hin hlt
    have hm := succ_mul_page index kPageSize
    have hfile := (afterAddClass_file_eq kPageSize (db.AllocatePage kPageSize).2 file2 header1
      (ClassObject.ofClass c) (by rw [hsb, hidx]; omega)).1
    rw [← hdb, hsb, hidx] at hfile
    refine ⟨header1.afterInit (ClassObject.ofClass c).GetSize, ?_, hidx, rfl, rfl, rfl, rfl, rfl,
      rfl, rfl, rfl, rfl, rfl, rfl⟩
    rw [hfile]
    exact ReadClassHeader_classImage kPageSize file2 header1 _ _ index
      (ReadClassHeader_ok_fits hR) (by omega) (by omega)
  · intro classes hinv hfit
    obtain ⟨h1, h2, h3, h4, h5⟩ := hinv.AddClass_stages hps hfit hA hP hR
    refine ⟨h1, by rw [show header1.index_ = header1.toPage.index_ from rfl, h3]; rfl, h2, ?_, h5,
      by rw [show header1.previous_page_index_ = header1.toPage.previous_page_index_ from rfl, h3],
      by rw [show header1.next_page_index_ = header1.toPage.next_page_index_ from rfl, h3]⟩
    rw [h2, h4]

theorem AddClass_header_postcondition_witness :
    sizeofClassHeader ≤ 4096 ∧ 4096 < wordMod ∧
    ∃ db2 hdr, (freshDatabase "test.data").AddClass 4096 personClass = (.ok (), db2) ∧
      (ClassHeader.new 0).ReadClassHeader 4096 kOrigin db2.file_ = .ok hdr ∧
      hdr.index_ = 0 ∧ hdr.type_ = PageType.kClassHeader.toWord ∧ hdr.actual_size_ = 74 ∧
      hdr.first_free_ = sizeofClassHeader ∧
      hdr.node_list_sentinel_.type_ = PageType.kSentinel.toWord ∧
      hdr.node_list_sentinel_.index_ = kDummyIndex ∧
      hdr.node_list_sentinel_.previous_page_index_ = kDummyIndex ∧
      hdr.node_list_sentinel_.next_page_index_ = kDummyIndex ∧
      hdr.node_pages_count_ = 0 ∧ hdr.nodes_ = 0 ∧
      hdr.previous_page_index_ = kDummyIndex ∧ hdr.next_page_index_ = kDummyIndex := by
  have hy := layout
  have hp := personClass_size
  have hps : sizeofClassHeader ≤ 4096 := by omega
  have hpw : 4096 < wordMod := by omega
  obtain ⟨db2, e1, -, -⟩ := @AddClass_person_twice 4096 (by omega) (by omega) "test.data"
  obtain ⟨index, file2, header1, hA, hP, hR, hgen, hinv⟩ :=
    AddClass_header_postcondition 4096 (freshDatabase "test.data") db2 personClass hps hpw e1
  have h0 := Inv.fresh 4096 "test.data"
  obtain ⟨i1, i2, i3, i4, i5, i6, i7⟩ := hinv [] h0
    (by rw [h0.size]; show kOrigin + 0 * 4096 + 4096 < wordMod; omega)
  obtain ⟨hdr, g0, g1, g2, g3, g4, g5, g6, g7, g8, g9, g10, g11, g12⟩ :=
    hgen i2 (Nat.le_of_eq i4.symm) i5
  have hz : index = 0 := i1
  subst hz
  exact ⟨hps, hpw, db2, hdr, e1, by rw [← i3]; exact g0, g1, g2, by rw [g3, hp], g4, g5, g6, g7,
    g8, g9, g10,
    by rw [g11, i6]; rfl, by rw [g12, i7]⟩

/-! ## FreePage and the destructor on a small database -/

set_option maxRecDepth 1000000 in
/-- C14, the code at the failing input.  On a fresh database with pages of 128 bytes,
`AllocatePage` returns page 0 and `FreePage(0)` succeeds: the free list then counts one
page, but the header of page 0 still has type `kEmpty`, since neither `FreePage` nor
the `PushBack` it calls stores `kFree`.  The test `type_ == kFree` of a second
`FreePage(0)` is therefore false: the call succeeds instead of throwing
`RuntimeError("Double free")`, pushes the page a second time, the count becomes 2 and
page 0 becomes its own predecessor and successor. -/
theorem FreePage_twice_not_rejected :
    ((freshDatabase "test.data").AllocatePage 128).1 = .ok 0 ∧
    onePageDatabase.free_list_.GetPagesCount onePageDatabase.file_ = .ok 0 ∧
    (onePageDatabase.FreePage 128 0).1 = .ok () ∧
    freedOnce.free_list_.GetPagesCount freedOnce.file_ = .ok 1 ∧
    freedOnce.free_list_.IteratorTo 128 freedOnce.alloc_ freedOnce.file_ 0 =
      .ok { type_ := PageType.kEmpty.toWord, index_ := 0, previous_page_index_ := kDummyIndex,
            next_page_index_ := kDummyIndex, first_free_ := 48, actual_size_ := 0 } ∧
    PageType.kEmpty.toWord ≠ PageType.kFree.toWord ∧
    (freedOnce.FreePage 128 0).1 = .ok () ∧
    (freedOnce.FreePage 128 0).2.free_list_.GetPagesCount (freedOnce.FreePage 128 0).2.file_ =
      .ok 2 ∧
    (freedOnce.FreePage 128 0).2.free_list_.IteratorTo 128 (freedOnce.FreePage 128 0).2.alloc_
        (freedOnce.FreePage 128 0).2.file_ 0 =
      .ok { type_ := PageType.kEmpty.toWord, index_ := 0, previous_page_index_ := 0,
            next_page_index_ := 0, first_free_ := 48, actual_size_ := 0 } ∧
    (freedOnce.FreePage 128 0).2.file_ ≠ freedOnce.file_ :=
  ⟨by rfl, by rfl, by rfl, by rfl, by rfl, by decide, by rfl, by rfl, by rfl, by decide⟩

theorem Database.AddClass_superblock (kPageSize : Nat) (db : Database) (c : Class) :
    (db.AddClass kPageSize c).2.superblock_ = db.superblock_ := by
  have hs := (Database.AllocatePage_lists kPageSize db).1
  unfold Database.AddClass
  simp only []
  split
  · rfl
  · split
    · rfl
    · split
      · rename_i e db1 hA
        rw [hA] at hs
        exact hs
      · rename_i index db1 hA
        rw [hA] at hs
        split
        · exact hs
        · split
          · exact hs
          · exact hs

theorem Database.run_superblock (kPageSize : Nat) (db : Database) (ops : List Op) :
    (db.run kPageSize ops).superblock_ = db.superblock_ := by
  induction ops generalizing db with
  | nil => rfl
  | cons op ops ih =>
    show ((db.step kPageSize op).run kPageSize ops).superblock_ = _
    rw [ih]
    cases op with
    | addClass c => exact Database.AddClass_superblock kPageSize db c
    | allocatePage => exact (Database.AllocatePage_lists kPageSize db).1

set_option maxRecDepth 1000000 in
/-- C17, the code at the failing input.  No call on a handle changes its superblock member, so
its `pages_count` stays what it was when the handle was opened while the
allocator counts on.  On a fresh database with pages of 256 bytes, after
`AddClass(person)` the allocator counts 1 page and the file stores 1 at
`kPagesCountOffset`, but the superblock member still says 0; the destructor writes
that member back, and the file of 136 + 256 bytes then stores `pages_count = 0`.
The same happens with pages of 128 bytes after one `Database::AllocatePage`. -/
theorem pages_count_not_mirrored :
    (∀ (kPageSize : Nat) (db : Database) (ops : List Op),
      (db.run kPageSize ops).superblock_ = db.superblock_) ∧
    ((freshDatabase "test.data").AddClass 256 personClass).1 = .ok () ∧
    onePersonDatabase.alloc_.pages_count_ = 1 ∧
    onePersonDatabase.superblock_.pages_count = 0 ∧
    onePersonDatabase.file_.ReadU64 kPagesCountOffset = .ok 1 ∧
    onePersonDatabase.file_.GetSize = kOrigin + 1 * 256 ∧
    onePersonDatabase.close.1 = .ok () ∧
    onePersonDatabase.close.2.ReadU64 kPagesCountOffset = .ok 0 ∧
    onePersonDatabase.close.2.GetSize = kOrigin + 1 * 256 ∧
    kOrigin + 0 * 256 ≠ onePersonDatabase.close.2.GetSize ∧
    ((freshDatabase "test.data").AllocatePage 128).1 = .ok 0 ∧
    onePageDatabase.alloc_.pages_count_ = 1 ∧
    onePageDatabase.superblock_.pages_count = 0 ∧
    onePageDatabase.file_.ReadU64 kPagesCountOffset = .ok 1 ∧
    onePageDatabase.close.1 = .ok () ∧
    onePageDatabase.close.2.ReadU64 kPagesCountOffset = .ok 0 ∧
    onePageDatabase.close.2.GetSize = kOrigin + 1 * 128 :=
  ⟨Database.run_superblock, by rfl, by rfl, by rfl, by rfl, by decide, by rfl, by rfl, by decide,
    by decide, by rfl, by rfl, by rfl, by rfl, by rfl, by rfl, by decide⟩

/-- What `PushBack` does to a list, in terms of the three headers it touches: the page at `A`,
the tail at `B` (the sentinel itself when the list is empty) and the sentinel at
`O`, followed by its count. -/
theorem PushBack_spec {kPageSize : Nat} {l : PageList} {a : PageAllocator} {file : File}
    {index A B O n : Nat} {sentinel page tail_page : Page}
    (hO : l.sentinel_offset_ = O) (hA : l.AddressOf kPageSize a index = A)
    (hB : l.AddressOf kPageSize a sentinel.previous_page_index_ = B)
    (hS : file.ReadPage O = .ok sentinel) (hP : file.ReadPage A = .ok page)
    (hT : file.ReadPage B = .ok tail_page)
    (hC : file.ReadU64 (O + sizeofPage) = .ok n)
    (hi : index < wordMod)
    (hAO : A + 48 ≤ O ∨ O + 56 ≤ A)
    (hBO : B = O ∨ ((B + 48 ≤ O ∨ O + 56 ≤ B) ∧ (B + 48 ≤ A ∨ A + 48 ≤ B))) :
    ∃ file1, l.PushBack kPageSize a file index = (.ok (), file1) ∧
      file1.GetSize = file.GetSize ∧
      file1.ReadPage A = .ok { page with previous_page_index_ := sentinel.previous_page_index_,
                                         next_page_index_ := kDummyIndex } ∧
      (B = O → file1.ReadPage O =
        .ok { sentinel with next_page_index_ := index, previous_page_index_ := index }) ∧
      (B ≠ O → file1.ReadPage O = .ok { sentinel with previous_page_index_ := index } ∧
        file1.ReadPage B = .ok { tail_page with next_page_index_ := index }) ∧
      file1.ReadU64 (O + sizeofPage) = .ok (addU64 n 1 % wordMod) ∧
      (∀ o h, file.ReadPage o = .ok h → (o + 48 ≤ O ∨ O + 56 ≤ o) →
        (o + 48 ≤ A ∨ A + 48 ≤ o) → (o + 48 ≤ B ∨ B + 48 ≤ o) → file1.ReadPage o = .ok h) ∧
      (∀ o v, file.ReadU64 o = .ok v → (o + 8 ≤ O ∨ O + 56 ≤ o) →
        (o + 8 ≤ A ∨ A + 48 ≤ o) → (o + 8 ≤ B ∨ B + 48 ≤ o) → file1.ReadU64 o = .ok v) := by
  have hy := layout
  have hSf := File.ReadPage_ok_fits hS
  have hPf := File.ReadPage_ok_fits hP
  have hTf := File.ReadPage_ok_fits hT
  have hd : kDummyIndex < wordMod := by omega
  obtain ⟨xs, hxs, -⟩ := File.ReadPage_eq_ok hS
  obtain ⟨xp, hxp, -⟩ := File.ReadPage_eq_ok hP
  obtain ⟨xt, hxt, -⟩ := File.ReadPage_eq_ok hT
  obtain ⟨xc, hxc, -⟩ := File.ReadU64_eq_ok hC
  have lS := (File.le_of_Read_ok hxs).1
  have lP := (File.le_of_Read_ok hxp).1
  have lT := (File.le_of_Read_ok hxt).1
  have lC := (File.le_of_Read_ok hxc).1
  rw [hy.2.2.2.2.2.2.2.1] at lS lP lT lC hC ⊢
  obtain ⟨f1, e1⟩ : ∃ f1, f1 = file.WritePage
      { page with previous_page_index_ := sentinel.previous_page_index_,
                  next_page_index_ := kDummyIndex } A := ⟨_, rfl⟩
  have s1 : f1.GetSize = file.GetSize := by
    rw [e1]; exact File.GetSize_WritePage_inside _ (by omega)
  have p1 : f1.ReadPage A = .ok { page with
      previous_page_index_ := sentinel.previous_page_index_,
      next_page_index_ := kDummyIndex } := by
    rw [e1]
    exact File.ReadPage_WritePage_same _ (Page.fits_set_links hPf hSf.2.2.1 hd) _
  have r1 : f1.ReadPage O = .ok sentinel := by
    rw [e1]; exact File.ReadPage_WritePage_disjoint hS _ _ (by omega)
  have c1 : f1.ReadU64 (O + 48) = .ok n := by
    rw [e1]; exact File.ReadU64_WritePage_disjoint hC _ _ (by omega)
  by_cases hBO' : B = O
  · subst hBO'
    rw [hS] at hT
    injection hT with hT
    subst hT
    obtain ⟨f2, e2⟩ : ∃ f2, f2 = f1.WritePage { sentinel with next_page_index_ := index } B :=
      ⟨_, rfl⟩
    obtain ⟨f3, e3⟩ : ∃ f3, f3 = f2.WritePage
        { ({ sentinel with next_page_index_ := index } : Page) with
          previous_page_index_ := index } B := ⟨_, rfl⟩
    have s2 : f2.GetSize = file.GetSize := by
      rw [e2, ← s1]; exact File.GetSize_WritePage_inside _ (by omega)
    have s3 : f3.GetSize = file.GetSize := by
      rw [e3, ← s2]; exact File.GetSize_WritePage_inside _ (by omega)
    have r2 : f2.ReadPage B = .ok { sentinel with next_page_index_ := index } := by
      rw [e2]; exact File.ReadPage_WritePage_same _ (Page.fits_set_next hSf hi) _
    have r3 : f3.ReadPage B =
        .ok { sentinel with next_page_index_ := index, previous_page_index_ := index } := by
      rw [e3]
      exact File.ReadPage_WritePage_same _ (Page.fits_set_prev (Page.fits_set_next hSf hi) hi) _
    have c3 : f3.ReadU64 (B + 48) = .ok n := by
      rw [e3, e2]
      apply File.ReadU64_WritePage_disjoint _ _ _ (by omega)
      exact File.ReadU64_WritePage_disjoint c1 _ _ (by omega)
    have p3 : f3.ReadPage A = .ok { page with
        previous_page_index_ := sentinel.previous_page_index_,
        next_page_index_ := kDummyIndex } := by
      rw [e3, e2]
      apply File.ReadPage_WritePage_disjoint _ _ _ (by omega)
      exact File.ReadPage_WritePage_disjoint p1 _ _ (by omega)
    have key : l.PushBack kPageSize a file index =
        (.ok (), f3.WriteU64 (addU64 n 1) (B + sizeofPage)) :=
      PushBack_eq_ok hO hA hB hS hP e1 r1 e2 r2 e3 (by rw [hy.2.2.2.2.2.2.2.1]; exact c3)
    rw [hy.2.2.2.2.2.2.2.1] at key
    refine ⟨_, key, ?_, ?_, ?_, ?_, ?_, ?_, ?_⟩
    · rw [← s3]; exact File.GetSize_WriteU64_inside _ (by omega)
    · exact File.ReadPage_WriteU64_disjoint p3 _ _ (by omega)
    · intro _
      exact File.ReadPage_WriteU64_disjoint r3 _ _ (by omega)
    · intro hne
      exact absurd rfl hne
    · exact File.ReadU64_WriteU64_same f3 (addU64 n 1) (B + 48)
    · intro o h hr d1 d2 d3
      apply File.ReadPage_WriteU64_disjoint _ _ _ (by omega)
      rw [e3, e2, e1]
      apply File.ReadPage_WritePage_disjoint _ _ _ (by omega)
      apply File.ReadPage_WritePage_disjoint _ _ _ (by omega)
      exact File.ReadPage_WritePage_disjoint hr _ _ (by omega)
    · intro o v hr d1 d2 d3
      apply File.ReadU64_WriteU64_disjoint _ _ _ (by omega)
      rw [e3, e2, e1]
      apply File.ReadU64_WritePage_disjoint _ _ _ (by omega)
      apply File.ReadU64_WritePage_disjoint _ _ _ (by omega)
      exact File.ReadU64_WritePage_disjoint hr _ _ (by omega)
  · obtain ⟨dBO, dBA⟩ := hBO.resolve_left hBO'
    obtain ⟨f2, e2⟩ : ∃ f2, f2 = f1.WritePage { tail_page with next_page_index_ := index } B :=
      ⟨_, rfl⟩
    obtain ⟨f3, e3⟩ : ∃ f3, f3 = f2.WritePage
        { sentinel with previous_page_index_ := index } O := ⟨_, rfl⟩
    have t1 : f1.ReadPage B = .ok tail_page := by
      rw [e1]; exact File.ReadPage_WritePage_disjoint hT _ _ (by omega)
    have s2 : f2.GetSize = file.GetSize := by
      rw [e2, ← s1]; exact File.GetSize_WritePage_inside _ (by omega)
    have s3 : f3.GetSize = file.GetSize := by
      rw [e3, ← s2]; exact File.GetSize_WritePage_inside _ (by omega)
    have t2 : f2.ReadPage B = .ok { tail_page with next_page_index_ := index } := by
      rw [e2]; exact File.ReadPage_WritePage_same _ (Page.fits_set_next hTf hi) _
    have r2 : f2.ReadPage O = .ok sentinel := by
      rw [e2]; exact File.ReadPage_WritePage_disjoint r1 _ _ (by omega)
    have r3 : f3.ReadPage O = .ok { sentinel with previous_page_index_ := index } := by
      rw [e3]; exact File.ReadPage_WritePage_same _ (Page.fits_set_prev hSf hi) _
    have t3 : f3.ReadPage B = .ok { tail_page with next_page_index_ := index } := by
      rw [e3]; exact File.ReadPage_WritePage_disjoint t2 _ _ (by omega)
    have c3 : f3.ReadU64 (O + 48) = .ok n := by
      rw [e3, e2]
      apply File.ReadU64_WritePage_disjoint _ _ _ (by omega)
      exact File.ReadU64_WritePage_disjoint c1 _ _ (by omega)
    have p3 : f3.ReadPage A = .ok { page with
        previous_page_index_ := sentinel.previous_page_index_,
        next_page_index_ := kDummyIndex } := by
      rw [e3, e2]
      apply File.ReadPage_WritePage_disjoint _ _ _ (by omega)
      exact File.ReadPage_WritePage_disjoint p1 _ _ (by omega)
    have key : l.PushBack kPageSize a file index =
        (.ok (), f3.WriteU64 (addU64 n 1) (O + sizeofPage)) :=
      PushBack_eq_ok hO hA hB hS hP e1 t1 e2 r2 e3 (by rw [hy.2.2.2.2.2.2.2.1]; exact c3)
    rw [hy.2.2.2.2.2.2.2.1] at key
    refine ⟨_, key, ?_, ?_, ?_, ?_, ?_, ?_, ?_⟩
    · rw [← s3]; exact File.GetSize_WriteU64_inside _ (by omega)
    · exact File.ReadPage_WriteU64_disjoint p3 _ _ (by omega)
    · intro he
      exact absurd he hBO'
    · intro _
      exact ⟨File.ReadPage_WriteU64_disjoint r3 _ _ (by omega),
        File.ReadPage_WriteU64_disjoint t3 _ _ (by omega)⟩
    · exact File.ReadU64_WriteU64_same f3 (addU64 n 1) (O + 48)
    · intro o h hr d1 d2 d3
      apply File.ReadPage_WriteU64_disjoint _ _ _ (by omega)
      rw [e3, e2, e1]
      apply File.ReadPage_WritePage_disjoint _ _ _ (by omega)
      apply File.ReadPage_WritePage_disjoint _ _ _ (by omega)
      exact File.ReadPage_WritePage_disjoint hr _ _ (by omega)
    · intro o v hr d1 d2 d3
      apply File.ReadU64_WriteU64_disjoint _ _ _ (by omega)
      rw [e3, e2, e1]
      apply File.ReadU64_WritePage_disjoint _ _ _ (by omega)
      apply File.ReadU64_WritePage_disjoint _ _ _ (by omega)
      exact File.ReadU64_WritePage_disjoint hr _ _ (by omega)

theorem Back_eq_ok {l : PageList} {file : File} {sentinel : Page}
    (hS : file.ReadPage l.sentinel_offset_ = .ok sentinel)
    (h1 : sentinel.next_page_index_ ≠ kDummyIndex)
    (h2 : sentinel.next_page_index_ ≠ sentinel.index_) :
    l.IsEmpty file = .ok false ∧ l.Back file = .ok sentinel.previous_page_index_ := by
  have e : l.IsEmpty file = .ok false := by
    simp only [PageList.IsEmpty, hS, h1, h2, or_self, decide_False]
  exact ⟨e, by simp only [PageList.Back, e, hS]⟩

/-- What `PopBack` leaves in the file, stage by stage, when every read succeeds. -/
theorem PopBack_eq_ok {kPageSize : Nat} {l : PageList} {a : PageAllocator}
    {file f1 f2 f3 : File} {A B O : Nat} {sentinel tail_page before_page sentinel1 : Page}
    {count : Nat}
    (hO : l.sentinel_offset_ = O)
    (h1 : file.ReadPage O = .ok sentinel)
    (hn1 : sentinel.next_page_index_ ≠ kDummyIndex)
    (hn2 : sentinel.next_page_index_ ≠ sentinel.index_)
    (hA : l.AddressOf kPageSize a sentinel.previous_page_index_ = A)
    (h2 : file.ReadPage A = .ok tail_page)
    (hB : l.AddressOf kPageSize a tail_page.previous_page_index_ = B)
    (e1 : f1 = file.WritePage
      { tail_page with previous_page_index_ := sentinel.previous_page_index_,
                       next_page_index_ := sentinel.previous_page_index_ } A)
    (h3 : f1.ReadPage B = .ok before_page)
    (e2 : f2 = f1.WritePage { before_page with next_page_index_ := kDummyIndex } B)
    (h4 : f2.ReadPage O = .ok sentinel1)
    (e3 : f3 = f2.WritePage
      { sentinel1 with previous_page_index_ := tail_page.previous_page_index_ } O)
    (h5 : f3.ReadU64 (O + sizeofPage) = .ok count) :
    l.PopBack kPageSize a file =
      (.ok (), f3.WriteU64 (subU64 count 1) (O + sizeofPage)) := by
  subst hO
  have hb := (Back_eq_ok h1 hn1 hn2).2
  subst hA hB
  subst e1
  subst e2
  subst e3
  simp only [PageList.PopBack, hb, h2, h3, h4, PageList.GetPagesCount, GetCountFromSentinel, h5]

/-- What `PopBack` does to a list that is not empty, in terms of the three headers it
touches: the tail at `A`, the page before it at `B` (the sentinel itself when the tail
is the only page) and the sentinel at `O`, followed by its count. -/
theorem PopBack_spec {kPageSize : Nat} {l : PageList} {a : PageAllocator} {file : File}
    {A B O n : Nat} {sentinel tail_page before_page : Page}
    (hO : l.sentinel_offset_ = O)
    (hS : file.ReadPage O = .ok sentinel)
    (hn1 : sentinel.next_page_index_ ≠ kDummyIndex)
    (hn2 : sentinel.next_page_index_ ≠ sentinel.index_)
    (hA : l.AddressOf kPageSize a sentinel.previous_page_index_ = A)
    (hP : file.ReadPage A = .ok tail_page)
    (hB : l.AddressOf kPageSize a tail_page.previous_page_index_ = B)
    (hT : file.ReadPage B = .ok before_page)
    (hC : file.ReadU64 (O + sizeofPage) = .ok n)
    (hAO : A + 48 ≤ O ∨ O + 56 ≤ A)
    (hBO : B = O ∨ ((B + 48 ≤ O ∨ O + 56 ≤ B) ∧ (B + 48 ≤ A ∨ A + 48 ≤ B))) :
    ∃ file1, l.PopBack kPageSize a file = (.ok (), file1) ∧
      file1.GetSize = file.GetSize ∧
      file1.ReadPage A = .ok { tail_page with
        previous_page_index_ := sentinel.previous_page_index_,
        next_page_index_ := sentinel.previous_page_index_ } ∧
      (B = O → file1.ReadPage O =
        .ok { sentinel with next_page_index_ := kDummyIndex,
                            previous_page_index_ := tail_page.previous_page_index_ }) ∧
      (B ≠ O → file1.ReadPage O =
          .ok { sentinel with previous_page_index_ := tail_page.previous_page_index_ } ∧
        file1.ReadPage B = .ok { before_page with next_page_index_ := kDummyIndex }) ∧
      file1.ReadU64 (O + sizeofPage) = .ok (subU64 n 1 % wordMod) ∧
      (∀ o h, file.ReadPage o = .ok h → (o + 48 ≤ O ∨ O + 56 ≤ o) →
        (o + 48 ≤ A ∨ A + 48 ≤ o) → (o + 48 ≤ B ∨ B + 48 ≤ o) → file1.ReadPage o = .ok h) ∧
      (∀ o v, file.ReadU64 o = .ok v → (o + 8 ≤ O ∨ O + 56 ≤ o) →
        (o + 8 ≤ A ∨ A + 48 ≤ o) → (o + 8 ≤ B ∨ B + 48 ≤ o) → file1.ReadU64 o = .ok v) := by
  have hy := layout
  have hSf := File.ReadPage_ok_fits hS
  have hPf := File.ReadPage_ok_fits hP
  have hTf := File.ReadPage_ok_fits hT
  have hd : kDummyIndex < wordMod := by omega
  obtain ⟨xs, hxs, -⟩ := File.ReadPage_eq_ok hS
  obtain ⟨xp, hxp, -⟩ := File.ReadPage_eq_ok hP
  obtain ⟨xt, hxt, -⟩ := File.ReadPage_eq_ok hT
  obtain ⟨xc, hxc, -⟩ := File.ReadU64_eq_ok hC
  have lS := (File.le_of_Read_ok hxs).1
  have lP := (File.le_of_Read_ok hxp).1
  have lT := (File.le_of_Read_ok hxt).1
  have lC := (File.le_of_Read_ok hxc).1
  rw [hy.2.2.2.2.2.2.2.1] at lS lP lT lC hC ⊢
  obtain ⟨f1, e1⟩ : ∃ f1, f1 = file.WritePage
      { tail_page with previous_page_index_ := sentinel.previous_page_index_,
                       next_page_index_ := sentinel.previous_page_index_ } A := ⟨_, rfl⟩
  have s1 : f1.GetSize = file.GetSize := by
    rw [e1]; exact File.GetSize_WritePage_inside _ (by omega)
  have p1 : f1.ReadPage A = .ok { tail_page with
      previous_page_index_ := sentinel.previous_page_index_,
      next_page_index_ := sentinel.previous_page_index_ } := by
    rw [e1]
    exact File.ReadPage_WritePage_same _ (Page.fits_set_links hPf hSf.2.2.1 hSf.2.2.1) _
  have r1 : f1.ReadPage O = .ok sentinel := by
    rw [e1]; exact File.ReadPage_WritePage_disjoint hS _ _ (by omega)
  have c1 : f1.ReadU64 (O + 48) = .ok n := by
    rw [e1]; exact File.ReadU64_WritePage_disjoint hC _ _ (by omega)
  by_cases hBO' : B = O
  · subst hBO'
    rw [hS] at hT
    injection hT with hT
    subst hT
    obtain ⟨f2, e2⟩ : ∃ f2, f2 = f1.WritePage
        { sentinel with next_page_index_ := kDummyIndex } B := ⟨_, rfl⟩
    obtain ⟨f3, e3⟩ : ∃ f3, f3 = f2.WritePage
        { ({ sentinel with next_page_index_ := kDummyIndex } : Page) with
          previous_page_index_ := tail_page.previous_page_index_ } B := ⟨_, rfl⟩
    have s2 : f2.GetSize = file.GetSize := by
      rw [e2, ← s1]; exact File.GetSize_WritePage_inside _ (by omega)
    have s3 : f3.GetSize = file.GetSize := by
      rw [e3, ← s2]; exact File.GetSize_WritePage_inside _ (by omega)
    have r2 : f2.ReadPage B = .ok { sentinel with next_page_index_ := kDummyIndex } := by
      rw [e2]; exact File.ReadPage_WritePage_same _ (Page.fits_set_next hSf hd) _
    have r3 : f3.ReadPage B =
        .ok { sentinel with next_page_index_ := kDummyIndex,
                            previous_page_index_ := tail_page.previous_page_index_ } := by
      rw [e3]
      exact File.ReadPage_WritePage_same _
        (Page.fits_set_prev (Page.fits_set_next hSf hd) hPf.2.2.1) _
    have c3 : f3.ReadU64 (B + 48) = .ok n := by
      rw [e3, e2]
      apply File.ReadU64_WritePage_disjoint _ _ _ (by omega)
      exact File.ReadU64_WritePage_disjoint c1 _ _ (by omega)
    have p3 : f3.ReadPage A = .ok { tail_page with
        previous_page_index_ := sentinel.previous_page_index_,
        next_page_index_ := sentinel.previous_page_index_ } := by
      rw [e3, e2]
      apply File.ReadPage_WritePage_disjoint _ _ _ (by omega)
      exact File.ReadPage_WritePage_disjoint p1 _ _ (by omega)
    have key : l.PopBack kPageSize a file =
        (.ok (), f3.WriteU64 (subU64 n 1) (B + sizeofPage)) :=
      PopBack_eq_ok hO hS hn1 hn2 hA hP hB e1 r1 e2 r2 e3
        (by rw [hy.2.2.2.2.2.2.2.1]; exact c3)
    rw [hy.2.2.2.2.2.2.2.1] at key
    refine ⟨_, key, ?_, ?_, ?_, ?_, ?_, ?_, ?_⟩
    · rw [← s3]; exact File.GetSize_WriteU64_inside _ (by omega)
    · exact File.ReadPage_WriteU64_disjoint p3 _ _ (by omega)
    · intro _
      exact File.ReadPage_WriteU64_disjoint r3 _ _ (by omega)
    · intro hne
      exact absurd rfl hne
    · exact File.ReadU64_WriteU64_same f3 (subU64 n 1) (B + 48)
    · intro o h hr d1 d2 d3
      apply File.ReadPage_WriteU64_disjoint _ _ _ (by omega)
      rw [e3, e2, e1]
      apply File.ReadPage_WritePage_disjoint _ _ _ (by omega)
      apply File.ReadPage_WritePage_disjoint _ _ _ (by omega)
      exact File.ReadPage_WritePage_disjoint hr _ _ (by omega)
    · intro o v hr d1 d2 d3
      apply File.ReadU64_WriteU64_disjoint _ _ _ (by omega)
      rw [e3, e2, e1]
      apply File.ReadU64_WritePage_disjoint _ _ _ (by omega)
      apply File.ReadU64_WritePage_disjoint _ _ _ (by omega)
      exact File.ReadU64_WritePage_disjoint hr _ _ (by omega)
  · obtain ⟨dBO, dBA⟩ := hBO.resolve_left hBO'
    obtain ⟨f2, e2⟩ : ∃ f2, f2 = f1.WritePage
        { before_page with next_page_index_ := kDummyIndex } B := ⟨_, rfl⟩
    obtain ⟨f3, e3⟩ : ∃ f3, f3 = f2.WritePage
        { sentinel with previous_page_index_ := tail_page.previous_page_index_ } O := ⟨_, rfl⟩
    have t1 : f1.ReadPage B = .ok before_page := by
      rw [e1]; exact File.ReadPage_WritePage_disjoint hT _ _ (by omega)
    have s2 : f2.GetSize = file.GetSize := by
      rw [e2, ← s1]; exact File.GetSize_WritePage_inside _ (by omega)
    have s3 : f3.GetSize = file.GetSize := by
      rw [e3, ← s2]; exact File.GetSize_WritePage_inside _ (by omega)
    have t2 : f2.ReadPage B = .ok { before_page with next_page_index_ := kDummyIndex } := by
      rw [e2]; exact File.ReadPage_WritePage_same _ (Page.fits_set_next hTf hd) _
    have r2 : f2.ReadPage O = .ok sentinel := by
      rw [e2]; exact File.ReadPage_WritePage_disjoint r1 _ _ (by omega)
    have r3 : f3.ReadPage O =
        .ok { sentinel with previous_page_index_ := tail_page.previous_page_index_ } := by
      rw [e3]; exact File.ReadPage_WritePage_same _ (Page.fits_set_prev hSf hPf.2.2.1) _
    have t3 : f3.ReadPage B = .ok { before_page with next_page_index_ := kDummyIndex } := by
      rw [e3]; exact File.ReadPage_WritePage_disjoint t2 _ _ (by omega)
    have c3 : f3.ReadU64 (O + 48) = .ok n := by
      rw [e3, e2]
      apply File.ReadU64_WritePage_disjoint _ _ _ (by omega)
      exact File.ReadU64_WritePage_disjoint c1 _ _ (by omega)
    have p3 : f3.ReadPage A = .ok { tail_page with
        previous_page_index_ := sentinel.previous_page_index_,
        next_page_index_ := sentinel.previous_page_index_ } := by
      rw [e3, e2]
      apply File.ReadPage_WritePage_disjoint _ _ _ (by omega)
      exact File.ReadPage_WritePage_disjoint p1 _ _ (by omega)
    have key : l.PopBack kPageSize a file =
        (.ok (), f3.WriteU64 (subU64 n 1) (O + sizeofPage)) :=
      PopBack_eq_ok hO hS hn1 hn2 hA hP hB e1 t1 e2 r2 e3
        (by rw [hy.2.2.2.2.2.2.2.1]; exact c3)
    rw [hy.2.2.2.2.2.2.2.1] at key
    refine ⟨_, key, ?_, ?_, ?_, ?_, ?_, ?_, ?_⟩
    · rw [← s3]; exact File.GetSize_WriteU64_inside _ (by omega)
    · exact File.ReadPage_WriteU64_disjoint p3 _ _ (by omega)
    · intro he
      exact absurd he hBO'
    · intro _
      exact ⟨File.ReadPage_WriteU64_disjoint r3 _ _ (by omega),
        File.ReadPage_WriteU64_disjoint t3 _ _ (by omega)⟩
    · exact File.ReadU64_WriteU64_same f3 (subU64 n 1) (O + 48)
    · intro o h hr d1 d2 d3
      apply File.ReadPage_WriteU64_disjoint _ _ _ (by omega)
      rw [e3, e2, e1]
      apply File.ReadPage_WritePage_disjoint _ _ _ (by omega)
      apply File.ReadPage_WritePage_disjoint _ _ _ (by omega)
      exact File.ReadPage_WritePage_disjoint hr _ _ (by omega)
    · intro o v hr d1 d2 d3
      apply File.ReadU64_WriteU64_disjoint _ _ _ (by omega)
      rw [e3, e2, e1]
      apply File.ReadU64_WritePage_disjoint _ _ _ (by omega)
      apply File.ReadU64_WritePage_disjoint _ _ _ (by omega)
      exact File.ReadU64_WritePage_disjoint hr _ _ (by omega)

theorem File.ReadU64_ok_lt {f : File} {o v : Nat} (h : f.ReadU64 o = .ok v) : v < wordMod := by
  obtain ⟨x, hx, hv⟩ := File.ReadU64_eq_ok h
  rw [← hv]
  exact decodeU64_lt (Nat.le_of_eq (File.le_of_Read_ok hx).2)

theorem FreeStack.mono {kPageSize : Nat} {f g : File} {stack : List Nat}
    (hs : g.GetSize = f.GetSize)
    (hr : ∀ p ∈ stack, ∀ h, f.ReadPage (kOrigin + p * kPageSize) = .ok h →
      ∃ h1, g.ReadPage (kOrigin + p * kPageSize) = .ok h1 ∧
        h1.previous_page_index_ = h.previous_page_index_)
    (h : FreeStack kPageSize f stack) : FreeStack kPageSize g stack := by
  induction stack with
  | nil => trivial
  | cons p rest ih =>
    obtain ⟨h1, ⟨hp, h2, h3⟩, h4⟩ := h
    obtain ⟨h5, h6, h7⟩ := hr p (List.mem_cons_self _ _) hp h2
    exact ⟨by rw [hs]; exact h1, ⟨h5, h6, by rw [h7, h3]⟩,
      ih (fun q hq => hr q (List.mem_cons_of_mem _ hq)) h4⟩

theorem FreeStack.mem_page {kPageSize : Nat} {f : File} {stack : List Nat}
    (h : FreeStack kPageSize f stack) {p : Nat} (hp : p ∈ stack) :
    kOrigin + (p + 1) * kPageSize ≤ f.GetSize ∧
      ∃ hd, f.ReadPage (kOrigin + p * kPageSize) = .ok hd := by
  induction stack with
  | nil => cases hp
  | cons q rest ih =>
    obtain ⟨h1, ⟨hq, h2, -⟩, h4⟩ := h
    rcases List.mem_cons.mp hp with rfl | hp
    · exact ⟨h1, hq, h2⟩
    · exact ih h4 hp

/-- One `FreePage` of a page that is not on the free list and is not typed `kFree`: the call
succeeds and the page is the last pushed. -/
theorem FreeInv.FreePage {kPageSize : Nat} {db : Database} {stack : List Nat}
    (hinv : FreeInv kPageSize db stack) (hps : 48 ≤ kPageSize) {p : Nat} {hdr : Page}
    (hp : p ∉ stack) (hin : kOrigin + (p + 1) * kPageSize ≤ db.file_.GetSize)
    (hr : db.file_.ReadPage (kOrigin + p * kPageSize) = .ok hdr)
    (ht : hdr.type_ ≠ PageType.kFree.toWord) (hlen : stack.length + 1 < wordMod) :
    (db.FreePage kPageSize p).1 = .ok () ∧
    FreeInv kPageSize (db.FreePage kPageSize p).2 (p :: stack) ∧
    (db.FreePage kPageSize p).2.file_.GetSize = db.file_.GetSize ∧
    (db.FreePage kPageSize p).2.alloc_ = db.alloc_ ∧
    (∀ q h, q ≠ p → q ∉ stack → db.file_.ReadPage (kOrigin + q * kPageSize) = .ok h →
      (db.FreePage kPageSize p).2.file_.ReadPage (kOrigin + q * kPageSize) = .ok h) := by
  have hy := layout
  have hm := succ_mul_page p kPageSize
  have hfits := hinv.fits
  have hpd : p < kDummyIndex := index_lt_dummy (by omega) hin hfits
  have hA : db.free_list_.AddressOf kPageSize db.alloc_ p = kOrigin + p * kPageSize := by
    rw [AddressOf_eq (Nat.ne_of_lt hpd) (by rw [hinv.alloc_origin]; omega), hinv.alloc_origin]
  obtain ⟨s, hS, hSi, hSp, hSn⟩ := hinv.sentinel
  have hO := hinv.free_list
  have hC := hinv.count
  rw [hy.2.1] at hC
  rw [hy.1] at hS hO
  have hAO : kOrigin + p * kPageSize + 48 ≤ 8 ∨ 8 + 56 ≤ kOrigin + p * kPageSize := by omega
  have hfree : ∀ file1, db.free_list_.PushBack kPageSize db.alloc_ db.file_ p = (.ok (), file1) →
      db.FreePage kPageSize p = (.ok (), { db with file_ := file1 }) := by
    intro file1 hpush
    simp only [Database.FreePage, PageList.IteratorTo, hA, hr, ht, if_false, hpush]
  cases stack with
  | nil =>
    have hprev : s.previous_page_index_ = kDummyIndex := hSp
    have hB : db.free_list_.AddressOf kPageSize db.alloc_ s.previous_page_index_ = 8 := by
      rw [hprev, AddressOf_dummy, hO]
    obtain ⟨file1, k1, k2, k3, k4, -, k6, k7, k8⟩ :=
      PushBack_spec hO hA hB hS hr hS (by rw [hy.2.2.2.2.2.2.2.1]; exact hC) (by omega) hAO
        (Or.inl rfl)
    rw [hfree file1 k1]
    refine ⟨rfl, ?_, k2, rfl, ?_⟩
    · refine
        { free_list := hinv.free_list
          alloc_origin := hinv.alloc_origin
          fits := by show file1.GetSize < wordMod; rw [k2]; exact hfits
          sentinel := ⟨{ s with next_page_index_ := p, previous_page_index_ := p },
            by rw [hy.1]; exact k4 rfl, hSi, rfl, ?_⟩
          count := ?_
          stack_pages := ⟨by show _ ≤ file1.GetSize; rw [k2]; exact hin, ⟨_, k3, hprev⟩, trivial⟩
          nodup := List.nodup_singleton _ }
      · show p = kDummyIndex ↔ _
        constructor
        · intro h; omega
        · intro h; cases h
      · show file1.ReadU64 kFreePagesCountOffset = _
        rw [hy.2.1]
        rw [hy.2.2.2.2.2.2.2.1] at k6
        rw [k6]
        simp only [addU64, List.length_nil, List.length_singleton]
        rfl
    · intro q h hq _ hrq
      obtain ⟨x, hx, -⟩ := File.ReadPage_eq_ok hrq
      have lq := (File.le_of_Read_ok hx).1
      have := page_disjoint hq kOrigin kPageSize
      exact k7 _ _ hrq (by omega) (by omega) (by omega)
  | cons t rest =>
    have hprev : s.previous_page_index_ = t := hSp
    obtain ⟨ht1, ⟨htp, ht2, ht3⟩, ht4⟩ := hinv.stack_pages
    have hmt := succ_mul_page t kPageSize
    have htd : t < kDummyIndex := index_lt_dummy (by omega) ht1 hfits
    have hB : db.free_list_.AddressOf kPageSize db.alloc_ s.previous_page_index_ =
        kOrigin + t * kPageSize := by
      rw [hprev, AddressOf_eq (Nat.ne_of_lt htd) (by rw [hinv.alloc_origin]; omega),
        hinv.alloc_origin]
    have hpt : p ≠ t := fun h => hp (by rw [h]; exact List.mem_cons_self _ _)
    have hdis := page_disjoint hpt kOrigin kPageSize
    obtain ⟨file1, k1, k2, k3, -, k5, k6, k7, k8⟩ :=
      PushBack_spec hO hA hB hS hr ht2 (by rw [hy.2.2.2.2.2.2.2.1]; exact hC) (by omega) hAO
        (Or.inr ⟨by omega, by omega⟩)
    obtain ⟨k5a, k5b⟩ := k5 (by omega)
    rw [hfree file1 k1]
    refine ⟨rfl, ?_, k2, rfl, ?_⟩
    · refine
        { free_list := hinv.free_list
          alloc_origin := hinv.alloc_origin
          fits := by show file1.GetSize < wordMod; rw [k2]; exact hfits
          sentinel := ⟨{ s with previous_page_index_ := p },
            by rw [hy.1]; exact k5a, hSi, rfl, ?_⟩
          count := ?_
          stack_pages := ⟨by show _ ≤ file1.GetSize; rw [k2]; exact hin, ⟨_, k3, hprev⟩, ?_⟩
          nodup := List.nodup_cons.mpr ⟨hp, hinv.nodup⟩ }
      · show s.next_page_index_ = kDummyIndex ↔ _
        constructor
        · intro h; cases hSn.mp h
        · intro h; cases h
      · show file1.ReadU64 kFreePagesCountOffset = _
        rw [hy.2.1]
        rw [hy.2.2.2.2.2.2.2.1] at k6
        rw [k6]
        simp only [addU64, List.length_cons] at hlen ⊢
        rw [Nat.mod_mod, Nat.mod_eq_of_lt hlen]
      · show FreeStack kPageSize file1 (t :: rest)
        apply FreeStack.mono k2 _ hinv.stack_pages
        intro q hq h hrq
        by_cases hqt : q = t
        · subst hqt
          rw [ht2] at hrq
          injection hrq with hrq
          subst hrq
          exact ⟨_, k5b, rfl⟩
        · have hqp : q ≠ p := fun h => hp (by rw [← h]; exact hq)
          have hq1 := (hinv.stack_pages.mem_page hq).1
          have hmq := succ_mul_page q kPageSize
          have d1 := page_disjoint hqp kOrigin kPageSize
          have d2 := page_disjoint hqt kOrigin kPageSize
          exact ⟨h, k7 _ _ hrq (by omega) (by omega) (by omega), rfl⟩
    · intro q h hq hqs hrq
      obtain ⟨x, hx, -⟩ := File.ReadPage_eq_ok hrq
      have lq := (File.le_of_Read_ok hx).1
      have hqt : q ≠ t := fun h => hqs (by rw [h]; exact List.mem_cons_self _ _)
      have d1 := page_disjoint hq kOrigin kPageSize
      have d2 := page_disjoint hqt kOrigin kPageSize
      exact k7 _ _ hrq (by omega) (by omega) (by omega)

theorem subU64_succ_one {n : Nat} (h : n + 1 < wordMod) : subU64 (n + 1) 1 % wordMod = n := by
  have hy := layout
  unfold subU64
  rw [hy.2.2.2.2.2.2.2.2.2.2.2.2.1] at h ⊢
  omega

/-- One `Database::AllocatePage` on a free list that is not empty: the call returns the page
pushed last and takes it off the list; the file keeps its size. -/
theorem FreeInv.AllocatePage_pop {kPageSize : Nat} {db : Database} {p : Nat} {stack : List Nat}
    (hinv : FreeInv kPageSize db (p :: stack)) (hps : 48 ≤ kPageSize) :
    (db.AllocatePage kPageSize).1 = .ok p ∧
    FreeInv kPageSize (db.AllocatePage kPageSize).2 stack ∧
    (db.AllocatePage kPageSize).2.file_.GetSize = db.file_.GetSize ∧
    (db.AllocatePage kPageSize).2.alloc_ = db.alloc_ := by
  have hy := layout
  have hm := succ_mul_page p kPageSize
  have hfits := hinv.fits
  obtain ⟨hin, ⟨hdr, hr, hrp⟩, hrest⟩ := hinv.stack_pages
  have hpd : p < kDummyIndex := index_lt_dummy (by omega) hin hfits
  obtain ⟨s, hS, hSi, hSp, hSn⟩ := hinv.sentinel
  have hprev : s.previous_page_index_ = p := hSp
  have hA : db.free_list_.AddressOf kPageSize db.alloc_ s.previous_page_index_ =
      kOrigin + p * kPageSize := by
    rw [hprev, AddressOf_eq (Nat.ne_of_lt hpd) (by rw [hinv.alloc_origin]; omega),
      hinv.alloc_origin]
  have hO := hinv.free_list
  have hC := hinv.count
  have hlen := File.ReadU64_ok_lt hC
  rw [hy.2.1] at hC
  rw [hy.1] at hS hO
  have hn1 : s.next_page_index_ ≠ kDummyIndex := fun h => by cases hSn.mp h
  have hn2 : s.next_page_index_ ≠ s.index_ := by rw [hSi]; exact hn1
  have hS' : db.file_.ReadPage db.free_list_.sentinel_offset_ = .ok s := by rw [hO]; exact hS
  obtain ⟨hE, hBk⟩ := Back_eq_ok hS' hn1 hn2
  have hAO : kOrigin + p * kPageSize + 48 ≤ 8 ∨ 8 + 56 ≤ kOrigin + p * kPageSize := by omega
  have hpop : ∀ file1, db.free_list_.PopBack kPageSize db.alloc_ db.file_ = (.ok (), file1) →
      db.AllocatePage kPageSize = (.ok p, { db with file_ := file1 }) := by
    intro file1 hpop
    simp only [Database.AllocatePage, hE, hBk, hpop, hprev]
  cases stack with
  | nil =>
    have hbefore : hdr.previous_page_index_ = kDummyIndex := hrp
    have hB : db.free_list_.AddressOf kPageSize db.alloc_ hdr.previous_page_index_ = 8 := by
      rw [hbefore, AddressOf_dummy, hO]
    obtain ⟨file1, k1, k2, k3, k4, -, k6, k7, k8⟩ :=
      PopBack_spec hO hS hn1 hn2 hA hr hB hS (by rw [hy.2.2.2.2.2.2.2.1]; exact hC) hAO
        (Or.inl rfl)
    rw [hpop file1 k1]
    refine ⟨rfl, ?_, k2, rfl⟩
    exact
      { free_list := hinv.free_list
        alloc_origin := hinv.alloc_origin
        fits := by show file1.GetSize < wordMod; rw [k2]; exact hfits
        sentinel := ⟨{ s with next_page_index_ := kDummyIndex,
                              previous_page_index_ := hdr.previous_page_index_ },
          by rw [hy.1]; exact k4 rfl, hSi, hbefore, ⟨fun _ => rfl, fun _ => rfl⟩⟩
        count := by
          show file1.ReadU64 kFreePagesCountOffset = _
          rw [hy.2.1]
          rw [hy.2.2.2.2.2.2.2.1] at k6
          rw [k6]
          exact congrArg Except.ok (subU64_succ_one hlen)
        stack_pages := trivial
        nodup := List.nodup_nil }
  | cons b rest =>
    have hbefore : hdr.previous_page_index_ = b := hrp
    have hrest1 := hrest
    obtain ⟨hb1, ⟨hbp, hb2, hb3⟩, hb4⟩ := hrest1
    have hmb := succ_mul_page b kPageSize
    have hbd : b < kDummyIndex := index_lt_dummy (by omega) hb1 hfits
    have hB : db.free_list_.AddressOf kPageSize db.alloc_ hdr.previous_page_index_ =
        kOrigin + b * kPageSize := by
      rw [hbefore, AddressOf_eq (Nat.ne_of_lt hbd) (by rw [hinv.alloc_origin]; omega),
        hinv.alloc_origin]
    have hnd := List.nodup_cons.mp hinv.nodup
    have hpb : p ≠ b := fun h => hnd.1 (by rw [h]; exact List.mem_cons_self _ _)
    have hdis := page_disjoint hpb kOrigin kPageSize
    obtain ⟨file1, k1, k2, k3, -, k5, k6, k7, k8⟩ :=
      PopBack_spec hO hS hn1 hn2 hA hr hB hb2 (by rw [hy.2.2.2.2.2.2.2.1]; exact hC) hAO
        (Or.inr ⟨by omega, by omega⟩)
    obtain ⟨k5a, k5b⟩ := k5 (by omega)
    rw [hpop file1 k1]
    refine ⟨rfl, ?_, k2, rfl⟩
    refine
      { free_list := hinv.free_list
        alloc_origin := hinv.alloc_origin
        fits := by show file1.GetSize < wordMod; rw [k2]; exact hfits
        sentinel := ⟨{ s with previous_page_index_ := hdr.previous_page_index_ },
          by rw [hy.1]; exact k5a, hSi, hbefore, ?_⟩
        count := ?_
        stack_pages := ?_
        nodup := hnd.2 }
    · show s.next_page_index_ = kDummyIndex ↔ _
      constructor
      · intro h; exact absurd h hn1
      · intro h; cases h
    · show file1.ReadU64 kFreePagesCountOffset = _
      rw [hy.2.1]
      rw [hy.2.2.2.2.2.2.2.1] at k6
      rw [k6]
      exact congrArg Except.ok (subU64_succ_one hlen)
    · show FreeStack kPageSize file1 (b :: rest)
      apply FreeStack.mono k2 _ hrest
      intro q hq h hrq
      by_cases hqb : q = b
      · subst hqb
        rw [hb2] at hrq
        injection hrq with hrq
        subst hrq
        exact ⟨_, k5b, rfl⟩
      · have hqp : q ≠ p := fun h => hnd.1 (by rw [← h]; exact hq)
        have hq1 := (FreeStack.mem_page hrest hq).1
        have hmq := succ_mul_page q kPageSize
        have d1 := page_disjoint hqp kOrigin kPageSize
        have d2 := page_disjoint hqb kOrigin kPageSize
        exact ⟨h, k7 _ _ hrq (by omega) (by omega) (by omega), rfl⟩

/-- `Database::AllocatePage` on an empty free list hands over to the allocator. -/
theorem FreeInv.AllocatePage_nil {kPageSize : Nat} {db : Database}
    (hinv : FreeInv kPageSize db []) :
    db.AllocatePage kPageSize =
      ((db.alloc_.AllocatePage kPageSize db.file_).1,
        { db with alloc_ := (db.alloc_.AllocatePage kPageSize db.file_).2.1,
                  file_ := (db.alloc_.AllocatePage kPageSize db.file_).2.2 }) := by
  obtain ⟨s, hS, hSi, hSp, hSn⟩ := hinv.sentinel
  have hE : db.free_list_.IsEmpty db.file_ = .ok true := by
    rw [← hinv.free_list] at hS
    simp only [PageList.IsEmpty, hS, hSn.mpr rfl, true_or, decide_True]
  simp only [Database.AllocatePage, hE]

theorem nodup_length_le {l : List Nat} {n : Nat} (hn : l.Nodup) (h : ∀ x ∈ l, x < n) :
    l.length ≤ n := by
  calc l.length = l.toFinset.card := (List.toFinset_card_of_nodup hn).symm
    _ ≤ (Finset.range n).card :=
      Finset.card_le_card (fun x hx => Finset.mem_range.mpr (h x (List.mem_toFinset.mp hx)))
    _ = n := Finset.card_range n

/-- `FreePage` of distinct pages in turn: every call succeeds and the free list holds the pages,
last freed first, on top of what it held. -/
theorem FreeInv.freeMany {kPageSize : Nat} (hps : 48 ≤ kPageSize) :
    ∀ (pages : List Nat) (db : Database) (stack : List Nat), FreeInv kPageSize db stack →
      pages.Nodup → (∀ p ∈ pages, p ∉ stack) →
      (∀ p ∈ pages, kOrigin + (p + 1) * kPageSize ≤ db.file_.GetSize ∧
        ∃ hdr, db.file_.ReadPage (kOrigin + p * kPageSize) = .ok hdr ∧
          hdr.type_ ≠ PageType.kFree.toWord) →
      stack.length + pages.length < wordMod →
      (db.freeMany kPageSize pages).1 = pages.map (fun _ => .ok ()) ∧
      FreeInv kPageSize (db.freeMany kPageSize pages).2 (pages.reverse ++ stack) ∧
      (db.freeMany kPageSize pages).2.file_.GetSize = db.file_.GetSize ∧
      (db.freeMany kPageSize pages).2.alloc_ = db.alloc_ := by
  intro pages
  induction pages with
  | nil =>
    intro db stack hinv _ _ _ _
    exact ⟨rfl, hinv, rfl, rfl⟩
  | cons p ps ih =>
    intro db stack hinv hnd hns hpg hlen
    obtain ⟨hp1, hdr, hp2, hp3⟩ := hpg p (List.mem_cons_self _ _)
    obtain ⟨hpn, hpsn⟩ := List.nodup_cons.mp hnd
    simp only [List.length_cons] at hlen
    obtain ⟨k1, k2, k3, k4, k5⟩ := hinv.FreePage hps (hns p (List.mem_cons_self _ _)) hp1 hp2 hp3
      (by omega)
    obtain ⟨j1, j2, j3, j4⟩ := ih (db.FreePage kPageSize p).2 (p :: stack) k2 hpsn
      (fun q hq hqs => by
        rcases List.mem_cons.mp hqs with h | h
        · exact hpn (by rw [← h]; exact hq)
        · exact hns q (List.mem_cons_of_mem _ hq) h)
      (fun q hq => by
        obtain ⟨hq1, hd, hq2, hq3⟩ := hpg q (List.mem_cons_of_mem _ hq)
        refine ⟨by rw [k3]; exact hq1, hd, ?_, hq3⟩
        exact k5 q hd (fun h => hpn (by rw [← h]; exact hq))
          (hns q (List.mem_cons_of_mem _ hq)) hq2)
      (by simp only [List.length_cons]; omega)
    refine ⟨?_, ?_, ?_, ?_⟩
    · show (db.FreePage kPageSize p).1 :: _ = _
      rw [k1, j1]
      rfl
    · show FreeInv kPageSize (Database.freeMany kPageSize (db.FreePage kPageSize p).2 ps).2 _
      rw [List.reverse_cons, List.append_assoc]
      exact j2
    · show (Database.freeMany kPageSize (db.FreePage kPageSize p).2 ps).2.file_.GetSize = _
      rw [j3, k3]
    · show (Database.freeMany kPageSize (db.FreePage kPageSize p).2 ps).2.alloc_ = _
      rw [j4, k4]

/-- `Database::AllocatePage` called once for each page of the top part of the free list: the
calls return those pages, last pushed first, and the file keeps its size. -/
theorem FreeInv.allocateMany {kPageSize : Nat} (hps : 48 ≤ kPageSize) :
    ∀ (stack : List Nat) (db : Database) (rest : List Nat),
      FreeInv kPageSize db (stack ++ rest) →
      (db.allocateMany kPageSize stack.length).1 = stack.map .ok ∧
      FreeInv kPageSize (db.allocateMany kPageSize stack.length).2 rest ∧
      (db.allocateMany kPageSize stack.length).2.file_.GetSize = db.file_.GetSize ∧
      (db.allocateMany kPageSize stack.length).2.alloc_ = db.alloc_ := by
  intro stack
  induction stack with
  | nil =>
    intro db rest hinv
    exact ⟨rfl, hinv, rfl, rfl⟩
  | cons p ps ih =>
    intro db rest hinv
    obtain ⟨k1, k2, k3, k4⟩ := @FreeInv.AllocatePage_pop kPageSize db p (ps ++ rest) hinv hps
    obtain ⟨j1, j2, j3, j4⟩ := ih (db.AllocatePage kPageSize).2 rest k2
    refine ⟨?_, ?_, ?_, ?_⟩
    · show (db.AllocatePage kPageSize).1 :: _ = _
      rw [k1, j1]
      rfl
    · exact j2
    · show (Database.allocateMany kPageSize (db.AllocatePage kPageSize).2 ps.length).2.file_.GetSize
        = _
      rw [j3, k3]
    · show (Database.allocateMany kPageSize (db.AllocatePage kPageSize).2 ps.length).2.alloc_ = _
      rw [j4, k4]

/-- C15: the free list is a stack.  On a handle whose free list is empty, `FreePage` of distinct
pages that lie in the file and are not typed `kFree` succeeds for each page in turn;
the next calls of `Database::AllocatePage`, as many as pages were freed, return the pages
in the reverse order, and after each of them the file has the size it had and the
allocator is as it was; the free list is then empty and the following call is the
call of `PageAllocator::AllocatePage`, which on an aligned file returns the allocator's
next index and grows the file by `kPageSize`. -/
theorem free_list_lifo (kPageSize : Nat) (db : Database) (pages : List Nat)
    (hps : 48 ≤ kPageSize) (hinv : FreeInv kPageSize db []) (hnd : pages.Nodup)
    (hpages : ∀ p ∈ pages, kOrigin + (p + 1) * kPageSize ≤ db.file_.GetSize ∧
      ∃ hdr, db.file_.ReadPage (kOrigin + p * kPageSize) = .ok hdr ∧
        hdr.type_ ≠ PageType.kFree.toWord) :
    (db.freeMany kPageSize pages).1 = pages.map (fun _ => .ok ()) ∧
    ((db.freeMany kPageSize pages).2.allocateMany kPageSize pages.length).1 =
      pages.reverse.map .ok ∧
    (∀ k, k ≤ pages.length →
      ((db.freeMany kPageSize pages).2.allocateMany kPageSize k).2.file_.GetSize =
        db.file_.GetSize ∧
      ((db.freeMany kPageSize pages).2.allocateMany kPageSize k).2.alloc_ = db.alloc_) ∧
    ((db.freeMany kPageSize pages).2.allocateMany kPageSize pages.length).2.free_list_.IsEmpty
      ((db.freeMany kPageSize pages).2.allocateMany kPageSize pages.length).2.file_ = .ok true ∧
    ((db.freeMany kPageSize pages).2.allocateMany kPageSize pages.length).2.AllocatePage kPageSize =
      ((db.alloc_.AllocatePage kPageSize
          ((db.freeMany kPageSize pages).2.allocateMany kPageSize pages.length).2.file_).1,
        { ((db.freeMany kPageSize pages).2.allocateMany kPageSize pages.length).2 with
          alloc_ := (db.alloc_.AllocatePage kPageSize
            ((db.freeMany kPageSize pages).2.allocateMany kPageSize pages.length).2.file_).2.1,
          file_ := (db.alloc_.AllocatePage kPageSize
            ((db.freeMany kPageSize pages).2.allocateMany kPageSize pages.length).2.file_).2.2 }) ∧
    (subU64 db.file_.GetSize kOrigin % kPageSize = 0 →
      (((db.freeMany kPageSize pages).2.allocateMany kPageSize pages.length).2.AllocatePage
        kPageSize).1 = .ok (subU64 (addU64 db.alloc_.pages_count_ 1) 1) ∧
      (((db.freeMany kPageSize pages).2.allocateMany kPageSize pages.length).2.AllocatePage
        kPageSize).2.file_.GetSize = db.file_.GetSize + kPageSize) := by
  have hy := layout
  have hlen : pages.length < wordMod := by
    have hfits := hinv.fits
    have : pages.length ≤ db.file_.GetSize := nodup_length_le hnd (fun p hp => by
      have h1 := (hpages p hp).1
      have h2 : p + 1 ≤ (p + 1) * kPageSize := Nat.le_mul_of_pos_right _ (by omega)
      omega)
    omega
  obtain ⟨f1, f2, f3, f4⟩ := FreeInv.freeMany hps pages db [] hinv hnd
    (fun _ _ h => by cases h) hpages (by simpa using hlen)
  rw [List.append_nil] at f2
  have step : ∀ k, k ≤ pages.length →
      ((db.freeMany kPageSize pages).2.allocateMany kPageSize k).1 =
        (pages.reverse.take k).map .ok ∧
      FreeInv kPageSize ((db.freeMany kPageSize pages).2.allocateMany kPageSize k).2
        (pages.reverse.drop k) ∧
      ((db.freeMany kPageSize pages).2.allocateMany kPageSize k).2.file_.GetSize =
        db.file_.GetSize ∧
      ((db.freeMany kPageSize pages).2.allocateMany kPageSize k).2.alloc_ = db.alloc_ := by
    intro k hk
    have hl : (pages.reverse.take k).length = k := by
      rw [List.length_take, List.length_reverse]
      omega
    have h := FreeInv.allocateMany hps (pages.reverse.take k) (db.freeMany kPageSize pages).2
      (pages.reverse.drop k) (by rw [List.take_append_drop]; exact f2)
    rw [hl] at h
    exact ⟨h.1, h.2.1, by rw [h.2.2.1, f3], by rw [h.2.2.2, f4]⟩
  obtain ⟨a1, a2, a3, a4⟩ := step pages.length (Nat.le_refl _)
  have ht : pages.reverse.take pages.length = pages.reverse := by
    rw [← List.length_reverse pages]
    exact List.take_length _
  have hd : pages.reverse.drop pages.length = [] := by
    rw [← List.length_reverse pages]
    exact List.drop_length _
  rw [ht] at a1
  rw [hd] at a2
  have hnil := a2.AllocatePage_nil
  rw [a4] at hnil
  refine ⟨f1, a1, fun k hk => ⟨(step k hk).2.2.1, (step k hk).2.2.2⟩, ?_, hnil, ?_⟩
  · obtain ⟨s, hS, -, -, hSn⟩ := a2.sentinel
    rw [← a2.free_list] at hS
    simp only [PageList.IsEmpty, hS, hSn.mpr rfl, true_or, decide_True]
  · intro hal
    have hal1 : subU64 ((db.freeMany kPageSize pages).2.allocateMany kPageSize
        pages.length).2.file_.GetSize db.alloc_.pagetable_offset_ % kPageSize = 0 := by
      rw [a3, hinv.alloc_origin]
      exact hal
    rw [hnil, AllocatePage_of_aligned kPageSize db.alloc_ _ hal1]
    refine ⟨rfl, ?_⟩
    obtain ⟨x, hx, -⟩ := File.ReadU64_eq_ok hinv.count
    have l1 := (File.le_of_Read_ok hx).1
    show (((File.Extend _ kPageSize).WritePage _ _).WriteU64 _ _).GetSize = _
    simp only [File.WriteU64, File.WritePage, File.GetSize_Write, File.GetSize_Extend,
      length_encodeU64, length_encodePage, a3]
    omega

set_option maxRecDepth 1000000 in
theorem twoPageDatabase_FreeInv : FreeInv 128 twoPageDatabase [] :=
  { free_list := rfl
    alloc_origin := rfl
    fits := by decide
    sentinel := ⟨sentinelPage, by rfl, rfl, rfl, ⟨fun _ => rfl, fun _ => rfl⟩⟩
    count := by rfl
    stack_pages := trivial
    nodup := List.nodup_nil }

set_option maxRecDepth 1000000 in
theorem free_list_lifo_witness :
    48 ≤ 128 ∧ FreeInv 128 twoPageDatabase [] ∧ [0, 1].Nodup ∧
    twoPageDatabase.alloc_.pages_count_ = 2 ∧
    twoPageDatabase.file_.GetSize = kOrigin + 2 * 128 ∧
    twoPageDatabase.file_.ReadPage (kOrigin + 0 * 128) = .ok (Page.new 0) ∧
    twoPageDatabase.file_.ReadPage (kOrigin + 1 * 128) = .ok (Page.new 1) ∧
    (Page.new 0).type_ ≠ PageType.kFree.toWord ∧ (Page.new 1).type_ ≠ PageType.kFree.toWord ∧
    (twoPageDatabase.freeMany 128 [0, 1]).1 = [.ok (), .ok ()] ∧
    ((twoPageDatabase.freeMany 128 [0, 1]).2.allocateMany 128 2).1 = [.ok 1, .ok 0] ∧
    ((twoPageDatabase.freeMany 128 [0, 1]).2.allocateMany 128 2).2.file_.GetSize =
      twoPageDatabase.file_.GetSize ∧
    (((twoPageDatabase.freeMany 128 [0, 1]).2.allocateMany 128 2).2.AllocatePage 128).1 =
      .ok 2 ∧
    (((twoPageDatabase.freeMany 128 [0, 1]).2.allocateMany 128 2).2.AllocatePage
      128).2.file_.GetSize = twoPageDatabase.file_.GetSize + 128 := by
  have hsize : twoPageDatabase.file_.GetSize = kOrigin + 2 * 128 := by decide
  have h0 : twoPageDatabase.file_.ReadPage (kOrigin + 0 * 128) = .ok (Page.new 0) := by rfl
  have h1 : twoPageDatabase.file_.ReadPage (kOrigin + 1 * 128) = .ok (Page.new 1) := by rfl
  have t0 : (Page.new 0).type_ ≠ PageType.kFree.toWord := by decide
  have t1 : (Page.new 1).type_ ≠ PageType.kFree.toWord := by decide
  have hnd : [0, 1].Nodup := by decide
  have h := free_list_lifo 128 twoPageDatabase [0, 1] (by decide) twoPageDatabase_FreeInv hnd
    (fun p hp => by
      rcases List.mem_cons.mp hp with rfl | hp
      · exact ⟨le_of_le_of_eq (by decide : kOrigin + (0 + 1) * 128 ≤ kOrigin + 2 * 128)
          hsize.symm, _, h0, t0⟩
      · rcases List.mem_cons.mp hp with rfl | hp
        · exact ⟨le_of_le_of_eq (by decide : kOrigin + (1 + 1) * 128 ≤ kOrigin + 2 * 128)
            hsize.symm, _, h1, t1⟩
        · cases hp)
  obtain ⟨c1, c2, c3, -, -, c6⟩ := h
  obtain ⟨c7, c8⟩ := c6 (by rw [hsize]; decide)
  exact ⟨by decide, twoPageDatabase_FreeInv, hnd, rfl, hsize, h0, h1, t0, t1, c1, c2,
    (c3 2 (Nat.le_refl _)).1, c7, c8⟩

/-! ## The destructor and the file opened again -/

theorem File.Read_Write_inside (f : File) (bs : Bytes) (off k n : Nat) (h : k + n ≤ bs.length) :
    (f.Write bs off).Read n (off + k) = .ok ((bs.drop k).take n) :=
  File.Read_of_readBytes (readBytes_writeBytes_inside f.data off bs k n h)

set_option maxRecDepth 100000 in
theorem encodeSuperblock_fresh_free_count :
    ((encodeSuperblock freshSuperblock).drop 48).take 8 = encodeU64 0 := by decide

set_option maxRecDepth 100000 in
theorem encodeSuperblock_fresh_pages_count :
    ((encodeSuperblock freshSuperblock).drop 64).take 8 = encodeU64 0 := by decide

set_option maxRecDepth 100000 in
theorem encodeSuperblock_fresh_class_sentinel :
    ((encodeSuperblock freshSuperblock).drop 72).take 48 = encodePage sentinelPage := by decide

set_option maxRecDepth 100000 in
theorem encodeSuperblock_fresh_class_count :
    ((encodeSuperblock freshSuperblock).drop 120).take 8 = encodeU64 0 := by decide

theorem Database.close_eq {db : Database} (h : db.file_.ReadU64 0 = .ok kMagic) :
    db.close = (.ok (), db.file_.Write (encodeSuperblock db.superblock_) sizeofMagic) := by
  simp only [Database.close, Superblock.WriteSuperblock, CheckConsistency_of_magic h]

/-- The destructor of a handle whose superblock member is the one `InitSuperblock` left, on a
file that has the magic, followed by the constructor in `Read` mode: the second handle
has that superblock again, an allocator with no page and an empty class map. -/
theorem Database.reopen_of_fresh {kPageSize : Nat} {db : Database}
    (hsb : db.superblock_ = freshSuperblock) (hm : db.file_.ReadU64 0 = .ok kMagic) :
    db.reopen kPageSize =
      (.ok { superblock_ := freshSuperblock,
             free_list_ := { sentinel_offset_ := kFreeListSentinelOffset },
             class_list_ := { sentinel_offset_ := kClassListSentinelOffset },
             class_map_ := [],
             alloc_ := { pagetable_offset_ := freshSuperblock.pagetable_offset_,
                         pages_count_ := 0 },
             file_ := db.file_.Write (encodeSuperblock freshSuperblock) sizeofMagic },
        db.file_.Write (encodeSuperblock freshSuperblock) sizeofMagic) := by
  have hy := layout
  obtain ⟨F, hF⟩ : ∃ F, F = db.file_.Write (encodeSuperblock freshSuperblock) sizeofMagic :=
    ⟨_, rfl⟩
  have hc : db.close = (.ok (), F) := by rw [Database.close_eq hm, hsb, hF]
  have m1 : F.ReadU64 0 = .ok kMagic := by
    rw [hF]
    exact File.ReadU64_Write_disjoint hm _ _ (Or.inl (by omega))
  have r1 : F.Read sizeofSuperblock sizeofMagic = .ok (encodeSuperblock freshSuperblock) := by
    have := File.Read_Write_same db.file_ (encodeSuperblock freshSuperblock) sizeofMagic
    rw [length_encodeSuperblock] at this
    rw [hF]
    exact this
  have hread : Superblock.uninit.ReadSuperblock F = .ok freshSuperblock :=
    (ReadSuperblock_eq_ok _ _ _ (CheckConsistency_of_magic m1) r1).trans
      (congrArg Except.ok decodeSuperblock_encodeSuperblock_fresh)
  have inside : ∀ k n, k + n ≤ 128 →
      F.Read n (8 + k) = .ok (((encodeSuperblock freshSuperblock).drop k).take n) := by
    intro k n hk
    rw [hF]
    exact File.Read_Write_inside db.file_ _ 8 k n (by rw [length_encodeSuperblock]; exact hk)
  have c56 : F.ReadU64 kFreePagesCountOffset = .ok 0 := by
    have := inside 48 8 (by omega)
    rw [encodeSuperblock_fresh_free_count] at this
    rw [hy.2.1]
    simp only [File.ReadU64, this, decodeU64_encodeU64_zero]
  have c72 : F.ReadU64 kPagesCountOffset = .ok 0 := by
    have := inside 64 8 (by omega)
    rw [encodeSuperblock_fresh_pages_count] at this
    rw [hy.2.2.2.1]
    simp only [File.ReadU64, this, decodeU64_encodeU64_zero]
  have c128 : F.ReadU64 kClassListCount = .ok 0 := by
    have := inside 120 8 (by omega)
    rw [encodeSuperblock_fresh_class_count] at this
    rw [hy.2.2.2.2.2.1]
    simp only [File.ReadU64, this, decodeU64_encodeU64_zero]
  have s80 : F.ReadPage kClassListSentinelOffset = .ok sentinelPage := by
    have := inside 72 48 (by omega)
    rw [encodeSuperblock_fresh_class_sentinel] at this
    rw [hy.2.2.2.2.1]
    simp only [File.ReadPage, sizeofPage, this, decodePage_encodePage Page.fits_sentinelPage]
  have hmap : Database.InitializeClassMap kPageSize freshSuperblock
      { sentinel_offset_ := kClassListSentinelOffset }
      { pagetable_offset_ := freshSuperblock.pagetable_offset_, pages_count_ := 0 } F = .ok [] := by
    rw [InitializeClassMap_of_sentinel kPageSize _ { sentinel_offset_ := kClassListSentinelOffset }
      _ _ sentinelPage s80]
    exact InitializeClassMapLoop_dummy kPageSize _ _ _ _ (F.GetSize + 1) []
  unfold Database.reopen
  rw [hc]
  show Database.new kPageSize F .kRead = _
  rw [← hF]
  exact Database.new_eq_ok kPageSize (OpenSuperblock_read_of_ok hread)
    (PageAllocator.new_of_ReadU64 c72 _) c56 c128 hmap

theorem Inv.afterAllocate_magic {kPageSize : Nat} {db : Database} {classes : List (Nat × Bytes)}
    (h : Inv kPageSize db classes) (hm : db.file_.ReadU64 0 = .ok kMagic) :
    (db.afterAllocate kPageSize).file_.ReadU64 0 = .ok kMagic := by
  have hy := layout
  have hsize := h.size
  show (((db.file_.Extend kPageSize).WritePage _ _).WriteU64 _ _).ReadU64 0 = _
  apply File.ReadU64_WriteU64_disjoint _ _ _ (Or.inl (by omega))
  apply File.ReadU64_WritePage_disjoint _ _ _ (Or.inl (by omega))
  exact File.ReadU64_Extend hm _

/-- A call of `AddClass` on a handle opened in Write mode leaves the magic in the file. -/
theorem Inv.AddClass_magic {kPageSize : Nat} {db : Database} {classes : List (Nat × Bytes)}
    (h : Inv kPageSize db classes) (hps : sizeofClassHeader ≤ kPageSize)
    (hfit : db.file_.GetSize + kPageSize < wordMod)
    (hm : db.file_.ReadU64 0 = .ok kMagic) (c : Class) :
    (db.AddClass kPageSize c).2.file_.ReadU64 0 = .ok kMagic := by
  have hy := layout
  cases hc : db.class_map_.contains (ClassObject.ofClass c).ToString with
  | true =>
    rw [AddClass_of_contains hc]
    exact hm
  | false =>
    by_cases hs : (ClassObject.ofClass c).GetSize > subU64 kPageSize sizeofClassHeader
    · rw [AddClass_of_too_complex hc hs]
      exact hm
    · obtain ⟨db1, e1, -, -⟩ := h.AddClass_ok hps hfit hc hs
      obtain ⟨-, -, index, file2, header1, hA, hP, hR, hdb⟩ := AddClass_ok_inv e1
      obtain ⟨g1, g2, g3, g4, g5⟩ := h.AddClass_stages hps hfit hA hP hR
      have hsb := (Database.AllocatePage_lists kPageSize db).1
      have hidx : header1.index_ = index := by
        rw [show header1.index_ = header1.toPage.index_ from rfl, g3]
        rfl
      have hm1 := h.afterAllocate_magic hm
      obtain ⟨hi, hnew⟩ := h.afterAllocate hps hfit
      have hsize0 := h.size
      have hsize1 : (db.afterAllocate kPageSize).file_.GetSize =
          kOrigin + (db.alloc_.pages_count_ + 1) * kPageSize := hi.size
      rw [hsize0] at hnew
      rw [h.AllocatePage_eq hps hfit] at hP
      obtain ⟨sentinel, hS, hSn, hSp⟩ := hi.class_sentinel
      obtain ⟨file1, sentinel1, hpush, -, -, -, -, -, -, -, -, hfr2⟩ :=
        PushBack_class (l := (db.afterAllocate kPageSize).class_list_)
          (a := (db.afterAllocate kPageSize).alloc_) hi.class_list hi.alloc_origin
          (Nat.le_of_eq hsize1.symm) hi.fits hps hS hSn hSp hi.class_count h.length_le hi.chain
          h.sorted h.below hnew
      rw [g1, hpush] at hP
      simp only [Prod.mk.injEq, true_and] at hP
      subst hP
      have hm2 : file1.ReadU64 0 = .ok kMagic := hfr2 0 kMagic (by omega) hm1
      have hm3 := succ_mul_page index kPageSize
      have hfile := (afterAddClass_file_eq kPageSize (db.AllocatePage kPageSize).2 file1 header1
        (ClassObject.ofClass c) (by rw [hsb, hidx, g2]; omega)).1
      rw [e1]
      show db1.file_.ReadU64 0 = _
      rw [hdb, hfile]
      exact File.ReadU64_Write_disjoint hm2 _ _ (Or.inl (by rw [hsb, g2]; omega))

theorem Inv.step_magic {kPageSize : Nat} {db : Database} {classes : List (Nat × Bytes)}
    (h : Inv kPageSize db classes) (hps : sizeofClassHeader ≤ kPageSize)
    (hfit : db.file_.GetSize + kPageSize < wordMod)
    (hm : db.file_.ReadU64 0 = .ok kMagic) (op : Op) :
    (db.step kPageSize op).file_.ReadU64 0 = .ok kMagic := by
  cases op with
  | allocatePage =>
    show (db.AllocatePage kPageSize).2.file_.ReadU64 0 = _
    rw [h.AllocatePage_eq hps hfit]
    exact h.afterAllocate_magic hm
  | addClass c => exact h.AddClass_magic hps hfit hm c

theorem Inv.run_magic {kPageSize : Nat} (hps : sizeofClassHeader ≤ kPageSize) (ops : List Op) :
    ∀ (db : Database) (classes : List (Nat × Bytes)), Inv kPageSize db classes →
      db.file_.GetSize + ops.length * kPageSize < wordMod →
      db.file_.ReadU64 0 = .ok kMagic →
      (db.run kPageSize ops).file_.ReadU64 0 = .ok kMagic := by
  induction ops with
  | nil => exact fun db classes _ _ hm => hm
  | cons op ops ih =>
    intro db classes h hfit hm
    have hm1 := succ_mul_page ops.length kPageSize
    rw [List.length_cons] at hfit
    obtain ⟨classes1, h1, hle⟩ := h.step hps (by omega) op
    exact ih _ classes1 h1 (by omega) (h.step_magic hps (by omega) hm op)

theorem Database.run_concat (kPageSize : Nat) (db : Database) (ops : List Op) (op : Op) :
    db.run kPageSize (ops ++ [op]) = (db.run kPageSize ops).step kPageSize op := by
  simp only [Database.run, List.foldl_append, List.foldl_cons, List.foldl_nil]

/-- After any calls on a handle opened in Write mode and a successful `AddClass`, the handle
holds the class and at least one page, and the file the destructor leaves opens
in `Read` mode with an empty class map and an allocator that counts no page. -/
theorem Database.reopen_after_AddClass {kPageSize : Nat} (name : String) (ops : List Op)
    (c : Class) {db1 : Database} (hps : sizeofClassHeader ≤ kPageSize)
    (hfit : 136 + (ops.length + 1) * kPageSize < wordMod)
    (h : ((freshDatabase name).run kPageSize ops).AddClass kPageSize c = (.ok (), db1)) :
    db1.class_map_.contains (ClassObject.ofClass c).ToString = true ∧
    0 < db1.alloc_.pages_count_ ∧
    ∃ db2, db1.reopen kPageSize = (.ok db2, db2.file_) ∧ db2.class_map_ = [] ∧
      db2.alloc_.pages_count_ = 0 := by
  have e : db1 = (freshDatabase name).run kPageSize (ops ++ [.addClass c]) := by
    rw [Database.run_concat]
    show db1 = (((freshDatabase name).run kPageSize ops).AddClass kPageSize c).2
    rw [h]
  have hlen : (ops ++ [Op.addClass c]).length = ops.length + 1 := by
    rw [List.length_append, List.length_singleton]
  have hsize : (freshDatabase name).file_.GetSize + (ops ++ [Op.addClass c]).length * kPageSize <
      wordMod := by
    rw [freshDatabase_size, hlen]
    exact hfit
  obtain ⟨classes1, hi⟩ := Inv.run hps (ops ++ [.addClass c]) (freshDatabase name) []
    (Inv.fresh kPageSize name) hsize
  have hm := Inv.run_magic hps (ops ++ [.addClass c]) (freshDatabase name) []
    (Inv.fresh kPageSize name) hsize (ReadU64_fresh_magic name)
  have hsb := Database.run_superblock kPageSize (freshDatabase name) (ops ++ [.addClass c])
  rw [← e] at hi hm hsb
  have hc := AddClass_ok_contains h
  refine ⟨hc, ?_, _, Database.reopen_of_fresh hsb hm, rfl, rfl⟩
  have hne : classes1 ≠ [] := by
    intro hnil
    rw [hi.class_map, hnil] at hc
    cases hc
  have := hi.length_le
  have : 0 < classes1.length := List.length_pos.mpr hne
  omega

set_option maxRecDepth 1000000 in
/-- C21, the code at the failing input.  Whatever calls a handle opened in Write mode has
served, after a successful `AddClass` the handle holds the class in its class map
and its allocator counts at least one page, but the file its destructor leaves
opens in `Read` mode with an empty class map and an allocator that counts no
page: the destructor writes the superblock member of the handle, which is still
the one `InitSuperblock` left, over the class-list sentinel, the counts and
`pages_count` that `AddClass` stored in the file.  With pages of 256 bytes and the one
class `person`: the handle maps the class to page 0 and counts 1 page; the file as
it is before the destructor runs opens in `Read` mode with the same class map and
1 page; the file after the destructor opens with no class and no page. -/
theorem reopen_forgets_classes :
    (∀ (kPageSize : Nat) (name : String) (ops : List Op) (c : Class) (db1 : Database),
      sizeofClassHeader ≤ kPageSize →
      136 + (ops.length + 1) * kPageSize < wordMod →
      ((freshDatabase name).run kPageSize ops).AddClass kPageSize c = (.ok (), db1) →
        db1.class_map_.contains (ClassObject.ofClass c).ToString = true ∧
        0 < db1.alloc_.pages_count_ ∧
        ∃ db2, db1.reopen kPageSize = (.ok db2, db2.file_) ∧ db2.class_map_ = [] ∧
          db2.alloc_.pages_count_ = 0) ∧
    Database.new 256 { filename := "test.data", data := [] } .kWrite =
      (.ok (freshDatabase "test.data"), (freshDatabase "test.data").file_) ∧
    ((freshDatabase "test.data").AddClass 256 personClass).1 = .ok () ∧
    onePersonDatabase.class_map_ =
      [(str "_struct@person_<_string@name__string@surname__int@age__bool@male_>", 0)] ∧
    onePersonDatabase.alloc_.pages_count_ = 1 ∧
    (∃ db2, (Database.new 256 onePersonDatabase.file_ .kRead).1 = .ok db2 ∧
      db2.class_map_ = onePersonDatabase.class_map_ ∧ db2.alloc_.pages_count_ = 1) ∧
    onePersonDatabase.close.1 = .ok () ∧
    (∃ db2, (onePersonDatabase.reopen 256).1 = .ok db2 ∧ db2.class_map_ = [] ∧
      db2.alloc_.pages_count_ = 0 ∧ db2.file_.GetSize = kOrigin + 1 * 256) :=
  ⟨fun _ name ops c _ hps hfit h => Database.reopen_after_AddClass name ops c hps hfit h,
    Database.new_write 256 _, by rfl, by rfl, by rfl, ⟨_, rfl, rfl, rfl⟩, by rfl,
    ⟨_, rfl, rfl, rfl, by decide⟩⟩

end DaedalusDB
